import Mathlib

/-!
# Server-side results resolution of react-instantsearch-dom

A shallow embedding of `packages/react-instantsearch-dom/src/core/createInstantSearchServer.js`
(`hasMultipleIndices`, `getIndexId`, `createSearchParametersCollector`,
`getSearchParameters`, `singleIndexSearch`, `multiIndexSearch`, `findResultsState`)
and the properties of its parameter reduction and search dispatch.

JavaScript values are embedded as follows.

* A plain object is the list of its own enumerable string-keyed properties, kept in
  the order in which `Object.keys` and object spread enumerate them: array-index keys
  first, in ascending numeric order, then the other keys in creation order.
* A property read `o[k]` on a plain object goes through the prototype chain, so a
  key that `o` does not own is still found when `Object.prototype` has it.
* A function that may throw returns `Except JSError _`.
* A promise is embedded by the way it settles: its outcome and the instant at which
  it settles.
-/

namespace InstantSearchServer

/-! ## Plain JavaScript objects -/

/-- An exception value: the message carried by a thrown `Error`. -/
structure JSError where
  message : String
deriving DecidableEq, Repr

/-- Numeric value of a list of decimal digits. -/
def digitsValue (cs : List Char) : Nat :=
  cs.foldl (fun n c => 10 * n + (c.toNat - 48)) 0

/-- An array index: the canonical decimal spelling of an integer in `[0, 2^32 - 2]`.
Own properties with such keys are enumerated before all the others. -/
def isArrayIndex (s : String) : Bool :=
  let cs := s.data
  !cs.isEmpty && cs.all (fun c => decide (48 ≤ c.toNat ∧ c.toNat ≤ 57))
    && (decide (cs = ['0']) || decide (cs.head? ≠ some '0'))
    && decide (digitsValue cs < 4294967295)

/-- Numeric value of an array-index key. -/
def arrayIndexValue (s : String) : Nat := digitsValue s.data

/-- The order of enumeration between a key and a key listed after it: when the second
one is an array index, so is the first, and its numeric value is smaller. -/
def enumeratedBefore (a b : String) : Prop :=
  isArrayIndex b = true → isArrayIndex a = true ∧ arrayIndexValue a < arrayIndexValue b

/-- A plain object: its own enumerable properties in enumeration order. -/
structure JSObject (α : Type) where
  entries : List (String × α)
deriving DecidableEq, Repr

namespace JSObject

variable {α : Type}

/-- The object literal `{}`. -/
def empty : JSObject α := ⟨[]⟩

/-- The keys of the own enumerable properties, as `Object.keys(o)` lists them. -/
def keys (o : JSObject α) : List String := o.entries.map Prod.fst

/-- The value of the own property `k`, when `o` has one. -/
def getOwn (o : JSObject α) (k : String) : Option α :=
  (o.entries.find? (fun e => decide (e.1 = k))).map Prod.snd

/-- Whether `o` has an own property `k`. -/
def hasOwn (o : JSObject α) (k : String) : Bool := (o.getOwn k).isSome

/-- Place of a newly created property `k` among the existing ones: an array index goes
before the first key that is not an array index or is a larger one, any other key goes
last. -/
def insertNew (k : String) (v : α) : List (String × α) → List (String × α)
  | [] => [(k, v)]
  | e :: es =>
    if isArrayIndex k && (!isArrayIndex e.1 || decide (arrayIndexValue k < arrayIndexValue e.1))
    then (k, v) :: e :: es
    else e :: insertNew k v es

/-- The object `{...o, [k]: v}`: an existing own property keeps its place and takes the
new value, a new one is created. -/
def set (o : JSObject α) (k : String) (v : α) : JSObject α :=
  if o.hasOwn k then
    ⟨o.entries.map (fun e => if e.1 = k then (k, v) else e)⟩
  else
    ⟨insertNew k v o.entries⟩

/-- The object `{...a, ...b}`: the properties of `a`, then for each own key of `b`, in
enumeration order, the value read from `b` under that key. -/
def spread (a b : JSObject α) : JSObject α :=
  b.keys.foldl (fun o k =>
    match b.getOwn k with
    | some v => o.set k v
    | none => o) a

/-- The rest object of the pattern `{ [k]: _, ...rest }`: the own properties but `k`. -/
def rest (o : JSObject α) (k : String) : JSObject α :=
  ⟨o.entries.filter (fun e => !decide (e.1 = k))⟩

end JSObject

/-- The properties that every plain object inherits from `Object.prototype` (all of them
functions, but `__proto__`, which reads as the prototype object). -/
def objectPrototypeKeys : List String :=
  ["constructor", "__defineGetter__", "__defineSetter__", "hasOwnProperty",
   "__lookupGetter__", "__lookupSetter__", "isPrototypeOf", "propertyIsEnumerable",
   "toString", "valueOf", "__proto__", "toLocaleString"]

/-- The result of the property read `o[k]` on a plain object. -/
inductive Lookup (α : Type) where
  /-- an own property and its value -/
  | own (value : α)
  /-- a member of `Object.prototype`, named -/
  | inherited (member : String)
  /-- no such property: the read gives `undefined` -/
  | undefined
deriving DecidableEq, Repr

/-- The property read `o[k]`: own properties first, then `Object.prototype`. -/
def JSObject.get {α : Type} (o : JSObject α) (k : String) : Lookup α :=
  match o.getOwn k with
  | some v => .own v
  | none => if k ∈ objectPrototypeKeys then .inherited k else .undefined

/-! ## Parameter sets, contexts and contributions -/

/-- A parameter set of the search helper: an object holding the search configuration
(`index`, `query`, the highlighting tags, ...). -/
abbrev SearchParameters := JSObject String

/-- The search helper library `algoliasearch-helper`, by what the module uses of its
parameter sets. The library is not part of the repository: it is a parameter of the
development, and what is proved of the module is proved for every such library. -/
class HelperLibrary where
  /-- The constructor `new algoliasearchHelper.SearchParameters(o)`: the parameter set
  made from the fields of `o`; which fields it adds by default is left to the library. -/
  newSearchParameters : JSObject String → SearchParameters
  /-- Modelled from the spec: the base parameter set made from the highlighting tags and
  an index name has the target index name equal to that index name. The constructor is
  code of the helper library; this is the one fact taken of it. -/
  index_newSearchParameters : ∀ (o : JSObject String) (index : String),
    o.getOwn "index" = some index → (newSearchParameters o).getOwn "index" = some index

export HelperLibrary (newSearchParameters)

/-- The field `parameters.index`; `none` stands for `undefined`. -/
def SearchParameters.index (p : SearchParameters) : Option String := p.getOwn "index"

/-- The field `parameters.query`; `none` stands for `undefined`. -/
def SearchParameters.query (p : SearchParameters) : Option String := p.getOwn "query"

/-- The method `parameters.setQuery(q)` of the search helper library. -/
def SearchParameters.setQuery (p : SearchParameters) (q : String) : SearchParameters :=
  p.set "query" q

/-- The props of a widget. -/
abbrev WidgetProps := JSObject String

/-- The search state handed to the widgets: the `query` of the main index and, under
`indices`, one search state per index identifier. -/
structure SearchState where
  query : Option String
  indices : Option (JSObject (JSObject String))
deriving DecidableEq, Repr

/-- The value `context.multiIndexContext` set by an `<Index>` node. -/
structure MultiIndexContext where
  targetedIndex : String
deriving DecidableEq, Repr

/-- The value `context.ais` set by the `<InstantSearch>` root. -/
structure AisContext where
  mainTargetedIndex : String
deriving DecidableEq, Repr

/-- The context of a widget; an absent field is `undefined`. -/
structure Context where
  ais : Option AisContext
  multiIndexContext : Option MultiIndexContext
deriving DecidableEq, Repr

/-- The first argument a widget's `getSearchParameters` is called with: a parameter set,
or whatever else the reduction read from its accumulator. -/
inductive Base where
  /-- a parameter set -/
  | parameters (p : SearchParameters)
  /-- a member of `Object.prototype`, named -/
  | inherited (member : String)
deriving DecidableEq, Repr

/-- A widget's `getSearchParameters(searchParameters, props, searchState)`; it may
throw. -/
abbrev Mutator := Base → WidgetProps → SearchState → Except JSError SearchParameters

/-- An entry of the accumulator filled by the collector. -/
structure Contribution where
  getSearchParameters : Mutator
  index : String
  context : Option Context
  props : WidgetProps
  searchState : SearchState

/-- The function `hasMultipleIndices`: the truthiness of `context && context.multiIndexContext`. -/
def hasMultipleIndices (context : Option Context) : Bool :=
  match context with
  | none => false
  | some c => c.multiIndexContext.isSome

/-- The `TypeError` of a read of `property` on `undefined`. The wording of the message
of such an error is the engine's; the value stands for the error by its kind and the
property read, and nothing rests on the wording. -/
def typeErrorReadOfUndefined (property : String) : JSError :=
  ⟨"TypeError: read of the property '" ++ property ++ "' of undefined"⟩

/-- The function `getIndexId`: the targeted index of the enclosing `<Index>` when there is one, the
main targeted index otherwise. -/
def getIndexId (context : Option Context) : Except JSError String :=
  match context with
  | some ⟨_, some multiIndexContext⟩ => .ok multiIndexContext.targetedIndex
  | some ⟨some ais, none⟩ => .ok ais.mainTargetedIndex
  | some ⟨none, none⟩ => .error (typeErrorReadOfUndefined "mainTargetedIndex")
  | none => .error (typeErrorReadOfUndefined "ais")

/-- The arguments of one call of `onSearchParameters` by a widget during the render. -/
structure WidgetCall where
  getWidgetSearchParameters : Mutator
  context : Option Context
  props : WidgetProps
  searchState : SearchState

/-- The collector made by `createSearchParametersCollector(accumulator)`, as the function
from the accumulator before a call to the accumulator after it. -/
def createSearchParametersCollector (accumulator : List Contribution) (call : WidgetCall) :
    Except JSError (List Contribution) := do
  let index ← getIndexId call.context
  pure (accumulator ++ [{
    getSearchParameters := call.getWidgetSearchParameters
    index := index
    context := call.context
    props := call.props
    searchState := call.searchState }])

section

variable [HelperLibrary]

/-! ## The parameter reduction -/

/-- The two results of `getSearchParameters`. -/
structure Parameters where
  sharedParameters : SearchParameters
  derivedParameters : JSObject SearchParameters

/-- The value of `acc[indexId] || sharedParameters`: an own entry and an inherited member
are truthy, `undefined` gives way to the shared parameters. -/
def orSharedParameters (read : Lookup SearchParameters) (sharedParameters : SearchParameters) :
    Base :=
  match read with
  | .own p => .parameters p
  | .inherited member => .inherited member
  | .undefined => .parameters sharedParameters

/-- One call of a mutator by the reduction: the position of its contribution in the
accumulator and the base it is given. -/
structure Invocation where
  position : Nat
  base : Base
deriving DecidableEq, Repr

/-- A computation that may throw, with the log of the mutators it has called. -/
structure Traced (α : Type) where
  invocations : List Invocation
  result : Except JSError α

/-- The call `searchParameter.getSearchParameters(base, searchParameter.props,
searchParameter.searchState)` of the mutator of the contribution at `position` of the
accumulator: the call is logged and gives what the mutator returns or throws. The log of
the reduction has no other source. -/
def Contribution.invoke (position : Nat) (searchParameter : Contribution) (base : Base) :
    Traced SearchParameters :=
  ⟨[⟨position, base⟩],
    searchParameter.getSearchParameters base searchParameter.props searchParameter.searchState⟩

/-- The method `reduce` with a callback that may throw, over entries that carry their
position in the accumulator: the calls of the callback in sequence, up to the first that
throws. -/
def reduceTraced {α : Type} (callback : α → Nat × Contribution → Traced α) :
    α → List (Nat × Contribution) → Traced α
  | acc, [] => ⟨[], .ok acc⟩
  | acc, entry :: entries =>
    match callback acc entry with
    | ⟨log, .ok next⟩ =>
      ⟨log ++ (reduceTraced callback next entries).invocations,
        (reduceTraced callback next entries).result⟩
    | ⟨log, .error e⟩ => ⟨log, .error e⟩

/-- The callback of the first `reduce` of `getSearchParameters`, on an entry with its
position: the call of the mutator of the entry on the accumulator. -/
def sharedStepTraced (acc : SearchParameters) (entry : Nat × Contribution) :
    Traced SearchParameters :=
  entry.2.invoke entry.1 (.parameters acc)

/-- The callback of the second `reduce` of `getSearchParameters`, on an entry with its
position: `getIndexId`, then the call of the mutator of the entry on
`acc[indexId] || sharedParameters`, then the mapping with the entry of `indexId` set to
what the mutator returned. -/
def derivedStepTraced (sharedParameters : SearchParameters) (acc : JSObject SearchParameters)
    (entry : Nat × Contribution) : Traced (JSObject SearchParameters) :=
  match getIndexId entry.2.context with
  | .error e => ⟨[], .error e⟩
  | .ok indexId =>
    let call := entry.2.invoke entry.1 (orSharedParameters (acc.get indexId) sharedParameters)
    ⟨call.invocations, call.result.map (fun value => acc.set indexId value)⟩

/-- The function `getSearchParameters(indexName, searchParameters)`, by what it returns or
throws and the mutators it calls; `HIGHLIGHT_TAGS` is the constant imported from
`react-instantsearch-core`. -/
def getSearchParametersTraced (HIGHLIGHT_TAGS : JSObject String) (indexName : String)
    (searchParameters : List Contribution) : Traced Parameters :=
  let shared := reduceTraced sharedStepTraced
    (newSearchParameters (HIGHLIGHT_TAGS.set "index" indexName))
    (searchParameters.enum.filter (fun entry => !hasMultipleIndices entry.2.context))
  match shared.result with
  | .error e => ⟨shared.invocations, .error e⟩
  | .ok sharedParameters =>
    let derived := reduceTraced (derivedStepTraced sharedParameters) JSObject.empty
      (searchParameters.enum.filter (fun entry => hasMultipleIndices entry.2.context))
    ⟨shared.invocations ++ derived.invocations,
      derived.result.map (fun derivedParameters => ⟨sharedParameters, derivedParameters⟩)⟩

/-- What the callback of the first `reduce` of `getSearchParameters` returns or throws. -/
def sharedStep (acc : SearchParameters) (searchParameter : Contribution) :
    Except JSError SearchParameters :=
  (sharedStepTraced acc (0, searchParameter)).result

/-- What the callback of the second `reduce` of `getSearchParameters` returns or throws. -/
def derivedStep (sharedParameters : SearchParameters) (acc : JSObject SearchParameters)
    (searchParameter : Contribution) : Except JSError (JSObject SearchParameters) :=
  (derivedStepTraced sharedParameters acc (0, searchParameter)).result

/-- What `getSearchParameters(indexName, searchParameters)` returns or throws. -/
def getSearchParameters (HIGHLIGHT_TAGS : JSObject String) (indexName : String)
    (searchParameters : List Contribution) : Except JSError Parameters :=
  (getSearchParametersTraced HIGHLIGHT_TAGS indexName searchParameters).result

/-! ## Promises, the search client and the search helper -/

/-- A promise, by the way it settles: the instant and the outcome (fulfilled with a
value or rejected with an error). -/
structure Promise (α : Type) where
  settledAt : Nat
  outcome : Except JSError α

/-- The promise `p.then(f)` for a callback `f` that does not throw. -/
def Promise.then {α β : Type} (p : Promise α) (f : α → β) : Promise β :=
  ⟨p.settledAt, p.outcome.map f⟩

/-- The rejections among a list of promises, each with its instant. -/
def rejections {α : Type} (ps : List (Promise α)) : List (Nat × JSError) :=
  ps.filterMap (fun p =>
    match p.outcome with
    | .error e => some (p.settledAt, e)
    | .ok _ => none)

/-- The earliest of a list of rejections (the first listed one among simultaneous
ones), `r` when the list is empty. -/
def earliestRejection (r : Nat × JSError) (rs : List (Nat × JSError)) : Nat × JSError :=
  rs.foldl (fun best next => if next.1 < best.1 then next else best) r

/-- The promise `Promise.all(ps)`: fulfilled with the values in the order of `ps` once all of them
are fulfilled, rejected with the error of the earliest rejection otherwise. -/
def Promise.all {α : Type} (ps : List (Promise α)) : Promise (List α) :=
  match ps.mapM (fun p => p.outcome), rejections ps with
  | .ok values, _ => ⟨(ps.map (fun p => p.settledAt)).foldl max 0, .ok values⟩
  | .error e, [] => ⟨0, .error e⟩
  | .error _, r :: rs => ⟨(earliestRejection r rs).1, .error (earliestRejection r rs).2⟩

/-- What a search of the helper resolves to. -/
structure SearchResult where
  content : String
  state : SearchParameters
  _originalResponse : String
deriving DecidableEq, Repr

/-- One call `algoliasearchHelper(client, index).searchOnce(parameters)`. -/
structure Request where
  index : Option String
  parameters : JSObject String
deriving DecidableEq, Repr

/-- What `typeof` tells of the member `addAlgoliaAgent` of a search client: a search
client either has the method or has no such member. An object with such a member that is
not a function is no search client of the helper library, whose constructor calls the
member when there is one. -/
inductive ClientMember where
  /-- the client has no such member -/
  | absent
  /-- a function -/
  | function
deriving DecidableEq, Repr

/-- The search client given by the caller, seen through the search helper: whether it
has the method `addAlgoliaAgent`, which registers an agent and returns, and the promise
that a `searchOnce` of a helper made on it returns. -/
structure SearchClient where
  addAlgoliaAgent : ClientMember
  search : Request → Promise SearchResult

/-- The helper `algoliasearchHelper(client, index)`. -/
structure Helper where
  client : SearchClient
  index : Option String

/-- The call `algoliasearchHelper(client, index)` of the helper library: the helper made.
The constructor of the library registers the agent of the library on a client that has
`addAlgoliaAgent`; that registration is made by the library inside this call, which the
log of events records as `Event.algoliasearchHelper`. -/
def algoliasearchHelper (client : SearchClient) (index : Option String) : Helper :=
  ⟨client, index⟩

/-- A search that was issued: the request and the promise returned for it. -/
structure Issued where
  request : Request
  promise : Promise SearchResult

/-- The call `helper.searchOnce(parameters)`. -/
def Helper.searchOnce (helper : Helper) (parameters : JSObject String) : Issued :=
  ⟨⟨helper.index, parameters⟩, helper.client.search ⟨helper.index, parameters⟩⟩

/-! ## Resolution -/

/-- The calls that the code of the module makes to the outside, in order. What the
callee does in turn (the agents that the rendered tree and the constructor of the helper
library register on the client) is inside the event of the call and is not made by the
module itself. -/
inductive Event where
  /-- a call `searchClient.addAlgoliaAgent(agent)` made by `findResultsState` itself -/
  | addAlgoliaAgent (agent : String)
  /-- the render pass `renderToString(<App ... />)` -/
  | renderToString
  /-- a call `algoliasearchHelper(client, index)` of the constructor of the helper
  library -/
  | algoliasearchHelper (index : Option String)
  /-- a `searchOnce` on a helper -/
  | searchOnce (request : Request)
deriving DecidableEq, Repr

/-- An entry of the sequence of a multi-index resolution, `{...results[i],
_internalIndexId: indexId}`: the fields spread from `results[i]` (none when it is
`undefined`) and the identifier. -/
structure TaggedResult where
  result : Option SearchResult
  _internalIndexId : String
deriving DecidableEq, Repr

/-- What `findResultsState` resolves to. -/
inductive Resolution where
  /-- the result of the one search -/
  | single (result : SearchResult)
  /-- the sequence of tagged results -/
  | multi (results : List TaggedResult)
deriving DecidableEq, Repr

/-- How a call ends: by throwing, or by returning a promise. -/
inductive Outcome where
  /-- an exception thrown out of the call -/
  | threw (error : JSError)
  /-- the promise returned -/
  | returned (promise : Promise Resolution)

/-- A call: its events and its outcome. -/
structure Run where
  events : List Event
  outcome : Outcome

/-- The function `singleIndexSearch(helper, parameters)`. -/
def singleIndexSearch (helper : Helper) (parameters : SearchParameters) : Run :=
  let search := helper.searchOnce parameters
  ⟨[.searchOnce search.request], .returned (search.promise.then Resolution.single)⟩

/-- The own enumerable properties that a spread `...value` copies from what was read
as `{ [indexName]: mainParameters }`: those of an own entry, none of `undefined` and none
of a member of `Object.prototype`. -/
def spreadable (read : Lookup SearchParameters) : JSObject String :=
  match read with
  | .own p => p
  | .inherited _ => JSObject.empty
  | .undefined => JSObject.empty

/-- The searches of `indexIds.map(indexId => ...)` in `multiIndexSearch`; the read of
`parameters.index` throws when `derivedParameters[indexId]` is `undefined`. -/
def derivedSearches (client : SearchClient) (derivedParameters : JSObject SearchParameters)
    (indexIds : List String) : Except JSError (List Issued) :=
  indexIds.mapM (fun indexId =>
    match derivedParameters.getOwn indexId with
    | some parameters =>
      .ok ((algoliasearchHelper client parameters.index).searchOnce parameters)
    | none => .error (typeErrorReadOfUndefined "index"))

/-- The callback of `Promise.all(search).then(...)` in `multiIndexSearch`. -/
def tagResults (indexName : String) (indexIds : List String) (results : List SearchResult) :
    List TaggedResult :=
  (indexName :: indexIds).enum.map (fun (i, indexId) => ⟨results[i]?, indexId⟩)

/-- The function `multiIndexSearch(indexName, client, helper, sharedParameters, derived)`, where the
last parameter is taken apart as `{ [indexName]: mainParameters, ...derivedParameters }`. -/
def multiIndexSearch (indexName : String) (client : SearchClient) (helper : Helper)
    (sharedParameters : SearchParameters) (derived : JSObject SearchParameters) : Run :=
  let mainParameters := derived.get indexName
  let derivedParameters := derived.rest indexName
  let first := helper.searchOnce (sharedParameters.spread (spreadable mainParameters))
  let indexIds := derivedParameters.keys
  match derivedSearches client derivedParameters indexIds with
  | .error e => ⟨[.searchOnce first.request], .threw e⟩
  | .ok others =>
    let search := first :: others
    ⟨.searchOnce first.request ::
        others.flatMap (fun s => [.algoliasearchHelper s.request.index, .searchOnce s.request]),
      .returned (((Promise.all (search.map (fun s => s.promise))).then
        (tagResults indexName indexIds)).then Resolution.multi)⟩

/-- The constants that the module imports: `React.version`, and `version` and
`HIGHLIGHT_TAGS` of `react-instantsearch-core`. -/
structure Imports where
  reactVersion : String
  version : String
  HIGHLIGHT_TAGS : JSObject String

/-- The props given to `findResultsState`; `searchClient` is `none` when absent. -/
structure FindProps where
  indexName : String
  searchClient : Option SearchClient

/-- The component given to `findResultsState`, by what its render pass does: the calls
of `onSearchParameters` made by the widgets, in traversal order, unless it throws. -/
abbrev App := FindProps → Except JSError (List WidgetCall)

/-- The render pass `renderToString(<App {...props} onSearchParameters={collector} />)`
on an empty accumulator: the accumulator after it. -/
def renderToString (app : App) (props : FindProps) : Except JSError (List Contribution) := do
  let calls ← app props
  calls.foldlM createSearchParametersCollector []

/-- The message of the error thrown when no props are given. -/
def missingPropsMessage : String :=
  "The function `findResultsState` must be called with props: `findResultsState(App, props)`"

/-- The message of the error thrown when the props have no search client. -/
def missingSearchClientMessage : String :=
  "The props provided to `findResultsState` must have a `searchClient`"

/-- The agents registered by `findResultsState` on a client that has the method. -/
def algoliaAgents (imports : Imports) (searchClient : SearchClient) : List Event :=
  if searchClient.addAlgoliaAgent = .function then
    [.addAlgoliaAgent ("react (" ++ imports.reactVersion ++ ")"),
     .addAlgoliaAgent ("react-instantsearch-server (" ++ imports.version ++ ")")]
  else []

/-- The function `findResultsState(App, props)`; `props` is `none` when not given. -/
def findResultsState (imports : Imports) (app : App) (props : Option FindProps) : Run :=
  match props with
  | none => ⟨[], .threw ⟨missingPropsMessage⟩⟩
  | some props =>
    match props.searchClient with
    | none => ⟨[], .threw ⟨missingSearchClientMessage⟩⟩
    | some searchClient =>
      let agents := algoliaAgents imports searchClient
      match renderToString app props with
      | .error e => ⟨agents ++ [.renderToString], .threw e⟩
      | .ok searchParameters =>
        match getSearchParameters imports.HIGHLIGHT_TAGS props.indexName searchParameters with
        | .error e => ⟨agents ++ [.renderToString], .threw e⟩
        | .ok parameters =>
          let helper := algoliasearchHelper searchClient parameters.sharedParameters.index
          let dispatch :=
            if parameters.derivedParameters.keys.length = 0 then
              singleIndexSearch helper parameters.sharedParameters
            else
              multiIndexSearch props.indexName searchClient helper
                parameters.sharedParameters parameters.derivedParameters
          ⟨agents ++ [.renderToString, .algoliasearchHelper helper.index] ++ dispatch.events,
            dispatch.outcome⟩

/-- What a call resolves to: the value of the promise it returns, when it returns one
that is fulfilled. -/
def Run.resolved (run : Run) : Option Resolution :=
  match run.outcome with
  | .returned promise =>
    match promise.outcome with
    | .ok resolution => some resolution
    | .error _ => none
  | .threw _ => none

/-- The searches among a list of events, in order. -/
def requestsOf (events : List Event) : List Request :=
  events.filterMap (fun event =>
    match event with
    | .searchOnce request => some request
    | _ => none)

/-- Whether the event is a call to the helper library: the creation of a helper or a
search on a helper. -/
def Event.isHelperCall : Event → Bool
  | .algoliasearchHelper _ => true
  | .searchOnce _ => true
  | _ => false

/-- The searches issued by a call, in order. -/
def Run.searches (run : Run) : List Request := requestsOf run.events

/-! ## The widget and the trees of the test suite -/

/-- The value of `a || b` on strings that may be `undefined`: `a` when it is a non-empty
string, `b` otherwise. -/
def orElseString (a : Option String) (b : String) : String :=
  match a with
  | some s => if s = "" then b else s
  | none => b

/-- The `TypeError` of a call of `searchParameters.setQuery` on a value that has no such
method. -/
def typeErrorSetQuery : JSError :=
  ⟨"TypeError: searchParameters.setQuery is not a function"⟩

/-- The `getSearchParameters` of the widget made by `createWidget()` in the test suite,
mounted under the index context `indexContextValue`, on what the reduction gives it: a
parameter set of the helper library, which has the method `setQuery`, or a member of
`Object.prototype`, which has not. A plain object without the method, such as the copy
that a spread makes, is no parameter set and is not among the values of `Base`. -/
def coolConnector (indexContextValue : Option MultiIndexContext) : Mutator :=
  fun searchParameters props searchState =>
    let fallback := orElseString (props.getOwn "defaultRefinement") "Apple"
    match searchParameters with
    | .inherited _ => .error typeErrorSetQuery
    | .parameters p =>
      match indexContextValue with
      | some indexContext =>
        let index := indexContext.targetedIndex
        let indexSearchState : JSObject String :=
          match searchState.indices with
          | some indices => (indices.getOwn index).getD JSObject.empty
          | none => JSObject.empty
        .ok (p.setQuery (orElseString (indexSearchState.getOwn "query") fallback))
      | none => .ok (p.setQuery (orElseString searchState.query fallback))

/-- The call of `onSearchParameters` by a `<Connected {...props} />` of the test suite
mounted in the context `context`. -/
def connected (context : Context) (props : WidgetProps) (searchState : SearchState) :
    WidgetCall :=
  ⟨coolConnector context.multiIndexContext, some context, props, searchState⟩

/-- The context of a widget right under `<InstantSearch indexName={indexName}>`. -/
def mainContext (indexName : String) : Context := ⟨some ⟨indexName⟩, none⟩

/-- The context of a widget under an `<Index indexId={indexId}>` of
`<InstantSearch indexName={indexName}>`. -/
def indexContext (indexName indexId : String) : Context := ⟨some ⟨indexName⟩, some ⟨indexId⟩⟩

/-- The search state `{}`. -/
def noSearchState : SearchState := ⟨none, none⟩

/-- A search client without `addAlgoliaAgent` whose searches are all fulfilled, at the
instant `0`, with the parameters of the request as the state. -/
def echoClient : SearchClient :=
  ⟨.absent, fun request => ⟨0, .ok ⟨"content", request.parameters, "response"⟩⟩⟩

/-- A search client with an `addAlgoliaAgent` method, and the searches of
`echoClient`. -/
def agentClient : SearchClient := ⟨.function, echoClient.search⟩

/-- A stand-in for the search helper library in the examples: its constructor adds the
default `query: ''` to the fields it is given. -/
instance exampleLibrary : HelperLibrary where
  newSearchParameters o := ⟨o.entries ++ (if o.hasOwn "query" then [] else [("query", "")])⟩
  index_newSearchParameters := by
    intro o index h
    unfold JSObject.getOwn at h ⊢
    cases hfind : o.entries.find? (fun e => decide (e.1 = "index")) with
    | none => simp [hfind] at h
    | some e =>
      rw [hfind] at h
      simpa [List.find?_append, hfind] using h

/-- Imported constants for the examples. -/
def someImports : Imports :=
  ⟨"16.8.0", "5.7.0",
    ⟨[("highlightPreTag", "<ais-highlight-0000000000>"),
      ("highlightPostTag", "</ais-highlight-0000000000>")]⟩⟩

/-- The contribution recorded by the collector for the call `call`, `index` being the
identifier that `getIndexId` gives for its context. -/
def recorded (index : String) (call : WidgetCall) : Contribution :=
  ⟨call.getWidgetSearchParameters, index, call.context, call.props, call.searchState⟩

/-- The contribution of a `<Connected />` of the test suite right under
`<InstantSearch indexName={indexName}>`, without search state. -/
def mainContribution (indexName : String) : Contribution :=
  recorded indexName (connected (mainContext indexName) JSObject.empty noSearchState)

/-- The contribution of a `<Connected />` of the test suite under an
`<Index indexId={indexId}>` of `<InstantSearch indexName={indexName}>`, without search
state. -/
def scopedContribution (indexName indexId : String) : Contribution :=
  recorded indexId (connected (indexContext indexName indexId) JSObject.empty noSearchState)

/-- The highlighting tags of `react-instantsearch-core`. -/
def highlightTags : JSObject String := someImports.HIGHLIGHT_TAGS

/-- The calls made by the widgets of the tree of the tests
`multi index / without search state - first API`: a widget under each of
`<Index indexId="index1">` and `<Index indexId="index2">`. The calls that the two
`<Index>` nodes make themselves, which set the index of their scope, are left out: with
them the entry of `index2` has the index `index2`, as the test expects, and without them
it keeps the index of the shared parameters; the identifiers, and so the length and the
tags of the sequence, are the same. -/
def firstApiApp : App := fun props =>
  .ok [connected (indexContext props.indexName "index1") JSObject.empty noSearchState,
    connected (indexContext props.indexName "index2") JSObject.empty noSearchState]

/-- The calls made by the widgets of a tree with a widget under `<Index indexId="2">`,
then a widget under `<Index indexId="1">`; the calls of the `<Index>` nodes themselves,
made in the same scopes, are left out. -/
def numberedScopesApp : App := fun props =>
  .ok [connected (indexContext props.indexName "2") JSObject.empty noSearchState,
    connected (indexContext props.indexName "1") JSObject.empty noSearchState]

/-- The calls made by the widgets of a tree with a widget under each of
`<Index indexId="b">`, `<Index indexId="1">`, `<Index indexId="a">` and
`<Index indexId="0">`, in this order; the calls of the `<Index>` nodes themselves, made
in the same scopes, are left out. -/
def mixedScopesApp : App := fun props =>
  .ok [connected (indexContext props.indexName "b") JSObject.empty noSearchState,
    connected (indexContext props.indexName "1") JSObject.empty noSearchState,
    connected (indexContext props.indexName "a") JSObject.empty noSearchState,
    connected (indexContext props.indexName "0") JSObject.empty noSearchState]

/-- The tree of the tests `single index / without search state`: one widget right under
`<InstantSearch>`. -/
def singleIndexApp : App := fun props =>
  .ok [connected (mainContext props.indexName) JSObject.empty noSearchState]

/-- The calls made by the widgets of the tree of the test
`multi index / without search state - same index`: a widget with
`defaultRefinement="Apple"` right under `<InstantSearch>` and a widget with
`defaultRefinement="iWatch"` under `<Index indexId="index1_with_refinement">`. The call
that the `<Index>` node makes itself, which sets the index of its scope to the index it
already has, is left out. -/
def sameIndexApp : App := fun props =>
  .ok [connected (mainContext props.indexName) ⟨[("defaultRefinement", "Apple")]⟩
      noSearchState,
    connected (indexContext props.indexName "index1_with_refinement")
      ⟨[("defaultRefinement", "iWatch")]⟩ noSearchState]

/-- A mutator that throws whatever it is given. -/
def throwingMutator : Mutator := fun _ _ _ => .error ⟨"Error: the widget failed"⟩

/-- A tree with a widget of the test suite followed by a widget whose mutator throws,
both right under `<InstantSearch>`. -/
def failingApp : App := fun props =>
  .ok [connected (mainContext props.indexName) JSObject.empty noSearchState,
    ⟨throwingMutator, some (mainContext props.indexName), JSObject.empty, noSearchState⟩]

/-- A search client whose searches with the query `iWatch` are rejected at the instant
`1` and whose other searches are fulfilled at the instant `2`. -/
def rejectingClient : SearchClient :=
  ⟨.absent, fun request =>
    if request.parameters.getOwn "query" = some "iWatch" then
      ⟨1, .error ⟨"Error: the search failed"⟩⟩
    else ⟨2, .ok ⟨"content", request.parameters, "response"⟩⟩⟩

/-- The mutator of a widget written
`searchParameters => ({ ...searchParameters, hitsPerPage: '5' })`: it copies the own
enumerable properties of what it is given, of which a function has none, and sets
`hitsPerPage`. -/
def hitsPerPageMutator : Mutator := fun searchParameters _ _ =>
  match searchParameters with
  | .parameters p => .ok (p.set "hitsPerPage" "5")
  | .inherited _ => .ok (JSObject.empty.set "hitsPerPage" "5")

/-- The contribution of a widget with the mutator `hitsPerPageMutator` under an
`<Index indexId={indexId}>` of `<InstantSearch indexName={indexName}>`. -/
def hitsPerPageContribution (indexName indexId : String) : Contribution :=
  ⟨hitsPerPageMutator, indexId, some (indexContext indexName indexId), JSObject.empty,
    noSearchState⟩

/-- The contribution of a `<Connected />` of the test suite right under
`<InstantSearch indexName={indexName}>`, with the search state `{ query }`. -/
def queryContribution (indexName query : String) : Contribution :=
  recorded indexName (connected (mainContext indexName) JSObject.empty ⟨some query, none⟩)

/-! ## The reduction in the words of the specification -/

/-- The scope identifier that a contribution carries, when it was recorded under an
explicit index scope. -/
def scopeOf (c : Contribution) : Option String :=
  match c.context with
  | some ⟨_, some multiIndexContext⟩ => some multiIndexContext.targetedIndex
  | _ => none

/-- The scope identifiers of the scoped contributions, in traversal order. -/
def scopeIds (cs : List Contribution) : List String := cs.filterMap scopeOf

/-- The left-to-right fold `acc = mutate(acc, props, searchState)` over the contributions
that carry no scope, in traversal order. -/
def foldShared (acc : SearchParameters) : List Contribution → Except JSError SearchParameters
  | [] => .ok acc
  | c :: cs =>
    match scopeOf c with
    | some _ => foldShared acc cs
    | none =>
      match c.getSearchParameters (.parameters acc) c.props c.searchState with
      | .ok next => foldShared next cs
      | .error e => .error e

/-- The left-to-right fold `acc = mutate(acc, props, searchState)` over the contributions
that carry the scope identifier `indexId`, in traversal order, from the base `base`. -/
def foldScope (indexId : String) (base : Base) : List Contribution → Except JSError Base
  | [] => .ok base
  | c :: cs =>
    if scopeOf c = some indexId then
      match c.getSearchParameters base c.props c.searchState with
      | .ok next => foldScope indexId (.parameters next) cs
      | .error e => .error e
    else foldScope indexId base cs

/-- The identifiers of a list in the order in which they are first met. -/
def firstEncountered : List String → List String
  | [] => []
  | x :: xs => x :: (firstEncountered xs).filter (fun y => !decide (y = x))

/-! ## The calls recorded by the render pass and the positions of the two reductions -/

/-- The call of `onSearchParameters` that a contribution records. -/
def Contribution.call (c : Contribution) : WidgetCall :=
  ⟨c.getSearchParameters, c.context, c.props, c.searchState⟩

/-- The positions of the contributions without scope followed by the positions of the
scoped contributions, each in traversal order. -/
def bucketPositions (cs : List Contribution) : List Nat :=
  (cs.enum.filter (fun entry => !hasMultipleIndices entry.2.context)).map Prod.fst ++
    (cs.enum.filter (fun entry => hasMultipleIndices entry.2.context)).map Prod.fst

end

/-! ## Facts about array indices -/

theorem foldl_digits (cs : List Char) (n : Nat) :
    cs.foldl (fun n c => 10 * n + (c.toNat - 48)) n = n * 10 ^ cs.length + digitsValue cs := by
  induction cs generalizing n with
  | nil => simp [digitsValue]
  | cons c cs ih =>
    simp only [List.foldl_cons, digitsValue, List.length_cons]
    rw [ih (10 * n + (c.toNat - 48)), ih (10 * 0 + (c.toNat - 48))]
    simp only [digitsValue]
    ring

theorem digitsValue_cons (c : Char) (cs : List Char) :
    digitsValue (c :: cs) = (c.toNat - 48) * 10 ^ cs.length + digitsValue cs := by
  have h := foldl_digits cs (10 * 0 + (c.toNat - 48))
  simp only [Nat.mul_zero, Nat.zero_add] at h
  simpa [digitsValue] using h

theorem digitsValue_lt (cs : List Char) (h : ∀ c ∈ cs, 48 ≤ c.toNat ∧ c.toNat ≤ 57) :
    digitsValue cs < 10 ^ cs.length := by
  induction cs with
  | nil => simp [digitsValue]
  | cons c cs ih =>
    have hc := h c (List.mem_cons_self _ _)
    have hcs := ih (fun d hd => h d (List.mem_cons_of_mem _ hd))
    rw [digitsValue_cons, List.length_cons, pow_succ]
    have : (c.toNat - 48) * 10 ^ cs.length ≤ 9 * 10 ^ cs.length :=
      Nat.mul_le_mul_right _ (by omega)
    omega

theorem char_eq_of_toNat_eq (c d : Char) (h : c.toNat = d.toNat) : c = d := by
  have := congrArg Char.ofNat h
  simpa using this

theorem digits_eq_of_length_eq (cs ds : List Char)
    (hc : ∀ c ∈ cs, 48 ≤ c.toNat ∧ c.toNat ≤ 57)
    (hd : ∀ c ∈ ds, 48 ≤ c.toNat ∧ c.toNat ≤ 57)
    (hlen : cs.length = ds.length) (hv : digitsValue cs = digitsValue ds) : cs = ds := by
  induction cs generalizing ds with
  | nil =>
    cases ds with
    | nil => rfl
    | cons d ds => simp at hlen
  | cons c cs ih =>
    cases ds with
    | nil => simp at hlen
    | cons d ds =>
      have hlen' : cs.length = ds.length := by simpa using hlen
      have hc0 := hc c (List.mem_cons_self _ _)
      have hd0 := hd d (List.mem_cons_self _ _)
      have hcs := digitsValue_lt cs (fun x hx => hc x (List.mem_cons_of_mem _ hx))
      have hds := digitsValue_lt ds (fun x hx => hd x (List.mem_cons_of_mem _ hx))
      rw [digitsValue_cons, digitsValue_cons, hlen'] at hv
      rw [hlen'] at hcs
      have hdigit : c.toNat - 48 = d.toNat - 48 := by
        rcases Nat.lt_trichotomy (c.toNat - 48) (d.toNat - 48) with hlt | heq | hgt
        · have := Nat.mul_le_mul_right (10 ^ ds.length) (Nat.succ_le_of_lt hlt)
          rw [Nat.succ_mul] at this
          omega
        · exact heq
        · have := Nat.mul_le_mul_right (10 ^ ds.length) (Nat.succ_le_of_lt hgt)
          rw [Nat.succ_mul] at this
          omega
      have hchar : c = d := char_eq_of_toNat_eq c d (by omega)
      rw [hdigit] at hv
      have hrest := ih ds (fun x hx => hc x (List.mem_cons_of_mem _ hx))
        (fun x hx => hd x (List.mem_cons_of_mem _ hx)) hlen' (by omega)
      rw [hchar, hrest]

theorem le_digitsValue_cons (c : Char) (cs : List Char) (hc : 48 ≤ c.toNat)
    (hzero : c ≠ '0') : 10 ^ cs.length ≤ digitsValue (c :: cs) := by
  have hne : c.toNat ≠ 48 := fun h => hzero (char_eq_of_toNat_eq c '0' h)
  rw [digitsValue_cons]
  have := Nat.mul_le_mul_right (10 ^ cs.length) (show 1 ≤ c.toNat - 48 by omega)
  omega

theorem length_eq_of_digitsValue_eq (c d : Char) (cs ds : List Char)
    (hc : ∀ x ∈ c :: cs, 48 ≤ x.toNat ∧ x.toNat ≤ 57)
    (hd : ∀ x ∈ d :: ds, 48 ≤ x.toNat ∧ x.toNat ≤ 57)
    (hc0 : c ≠ '0') (hd0 : d ≠ '0')
    (hv : digitsValue (c :: cs) = digitsValue (d :: ds)) : cs.length = ds.length := by
  have h1 := le_digitsValue_cons c cs (hc c (List.mem_cons_self _ _)).1 hc0
  have h2 := le_digitsValue_cons d ds (hd d (List.mem_cons_self _ _)).1 hd0
  have h3 := digitsValue_lt (c :: cs) hc
  have h4 := digitsValue_lt (d :: ds) hd
  rw [List.length_cons] at h3 h4
  rcases Nat.lt_trichotomy cs.length ds.length with hlt | heq | hgt
  · have := Nat.pow_le_pow_right (show 0 < 10 by decide) (Nat.succ_le_of_lt hlt)
    omega
  · exact heq
  · have := Nat.pow_le_pow_right (show 0 < 10 by decide) (Nat.succ_le_of_lt hgt)
    omega

/-- Two array indices with the same numeric value are the same key. -/
theorem eq_of_arrayIndexValue_eq (s t : String) (hs : isArrayIndex s = true)
    (ht : isArrayIndex t = true) (hv : arrayIndexValue s = arrayIndexValue t) : s = t := by
  apply String.ext
  simp only [isArrayIndex, Bool.and_eq_true, Bool.or_eq_true, decide_eq_true_eq,
    List.all_eq_true, Bool.not_eq_true', List.isEmpty_eq_false] at hs ht
  obtain ⟨⟨⟨hs1, hs2⟩, hs3⟩, _⟩ := hs
  obtain ⟨⟨⟨ht1, ht2⟩, ht3⟩, _⟩ := ht
  unfold arrayIndexValue at hv
  cases hsd : s.data with
  | nil => exact absurd hsd hs1
  | cons c cs =>
    cases htd : t.data with
    | nil => exact absurd htd ht1
    | cons d ds =>
      rw [hsd] at hs2 hs3 hv
      rw [htd] at ht2 ht3 hv
      have hzs : c = '0' → cs = [] := by
        intro hc
        rcases hs3 with h | h
        · exact (List.cons.inj h).2
        · exact absurd (by rw [hc]; rfl) h
      have hzt : d = '0' → ds = [] := by
        intro hd
        rcases ht3 with h | h
        · exact (List.cons.inj h).2
        · exact absurd (by rw [hd]; rfl) h
      by_cases hc : c = '0'
      · by_cases hd : d = '0'
        · rw [hc, hd, hzs hc, hzt hd]
        · have := le_digitsValue_cons d ds (ht2 d (List.mem_cons_self _ _)).1 hd
          rw [← hv, hc, hzs hc] at this
          simp [digitsValue] at this
      · by_cases hd : d = '0'
        · have := le_digitsValue_cons c cs (hs2 c (List.mem_cons_self _ _)).1 hc
          rw [hv, hd, hzt hd] at this
          simp [digitsValue] at this
        · have hlen := length_eq_of_digitsValue_eq c d cs ds hs2 ht2 hc hd hv
          exact digits_eq_of_length_eq (c :: cs) (d :: ds) hs2 ht2 (by simp [hlen]) hv

/-! ## Facts about plain objects -/

namespace JSObject

variable {α : Type}

theorem find_insertNew_of_ne (k k' : String) (v : α) (h : k ≠ k') (es : List (String × α)) :
    (insertNew k v es).find? (fun e => decide (e.1 = k')) =
      es.find? (fun e => decide (e.1 = k')) := by
  induction es with
  | nil => simp [insertNew, h]
  | cons e es ih =>
    unfold insertNew
    split
    · simp [List.find?_cons, h]
    · by_cases he : e.1 = k' <;> simp [List.find?_cons, he, ih]

theorem find_insertNew_self (k : String) (v : α) (es : List (String × α))
    (h : es.find? (fun e => decide (e.1 = k)) = none) :
    (insertNew k v es).find? (fun e => decide (e.1 = k)) = some (k, v) := by
  induction es with
  | nil => simp [insertNew]
  | cons e es ih =>
    have he : ¬ e.1 = k := by
      intro hk
      simp [List.find?_cons, hk] at h
    have hes : es.find? (fun e => decide (e.1 = k)) = none := by
      simpa [List.find?_cons, he] using h
    unfold insertNew
    split
    · simp [List.find?_cons]
    · simp [List.find?_cons, he, ih hes]

theorem find_replace (k k' : String) (v : α) (es : List (String × α)) :
    (es.map (fun e => if e.1 = k then (k, v) else e)).find? (fun e => decide (e.1 = k')) =
      if k' = k then (es.find? (fun e => decide (e.1 = k))).map (fun _ => (k, v))
      else es.find? (fun e => decide (e.1 = k')) := by
  induction es with
  | nil => simp
  | cons e es ih =>
    by_cases hk : k' = k
    · subst hk
      by_cases he : e.1 = k'
      · simp [List.find?_cons, he]
      · simp only [List.map_cons, List.find?_cons, he, if_false, decide_False] at ih ⊢
        simpa using ih
    · by_cases he : e.1 = k
      · have hne : ¬ k = k' := fun h => hk h.symm
        have hne2 : ¬ e.1 = k' := fun h => hk (h.symm.trans he)
        simp only [List.map_cons, List.find?_cons, he, if_true, hne, decide_False, hne2]
        simpa [hk] using ih
      · by_cases he2 : e.1 = k'
        · simp [List.find?_cons, he, he2, hk]
        · simp only [List.map_cons, List.find?_cons, he, if_false, he2, decide_False]
          simpa [hk] using ih

/-- Reading an own property after `{...o, [k]: v}`. -/
theorem getOwn_set (o : JSObject α) (k k' : String) (v : α) :
    (o.set k v).getOwn k' = if k' = k then some v else o.getOwn k' := by
  unfold set
  split
  · rename_i h
    simp only [getOwn, find_replace]
    by_cases hk : k' = k
    · subst hk
      simp only [hasOwn, getOwn, Option.isSome_map'] at h
      obtain ⟨e, he⟩ := Option.isSome_iff_exists.mp h
      simp [he]
    · simp [hk]
  · rename_i h
    simp only [hasOwn, getOwn, Option.isSome_map', Bool.not_eq_true, Option.not_isSome,
      Option.isNone_iff_eq_none] at h
    by_cases hk : k' = k
    · subst hk
      simp [getOwn, find_insertNew_self _ _ _ h]
    · have hne : k ≠ k' := fun h => hk h.symm
      simp [getOwn, find_insertNew_of_ne _ _ _ hne, hk]

/-- The own keys are the keys under which an own property is read. -/
theorem mem_keys_iff (o : JSObject α) (k : String) :
    k ∈ o.keys ↔ ∃ v, o.getOwn k = some v := by
  unfold keys getOwn
  constructor
  · intro h
    obtain ⟨e, he, hk⟩ := List.mem_map.mp h
    cases hf : o.entries.find? (fun e => decide (e.1 = k)) with
    | none =>
      have := List.find?_eq_none.mp hf e he
      simp [hk] at this
    | some e' => exact ⟨e'.2, rfl⟩
  · rintro ⟨v, hv⟩
    cases hf : o.entries.find? (fun e => decide (e.1 = k)) with
    | none => simp [hf] at hv
    | some e' =>
      have h1 := List.find?_some hf
      have h2 := List.mem_of_find?_eq_some hf
      exact List.mem_map.mpr ⟨e', h2, by simpa using h1⟩

theorem getOwn_eq_none_iff (o : JSObject α) (k : String) :
    o.getOwn k = none ↔ k ∉ o.keys := by
  rw [mem_keys_iff]
  cases o.getOwn k <;> simp

theorem mem_keys_set (o : JSObject α) (k k' : String) (v : α) :
    k' ∈ (o.set k v).keys ↔ k' = k ∨ k' ∈ o.keys := by
  rw [mem_keys_iff, mem_keys_iff, getOwn_set]
  by_cases hk : k' = k <;> simp [hk]

theorem keys_insertNew_perm (k : String) (v : α) (es : List (String × α)) :
    ((insertNew k v es).map Prod.fst).Perm (k :: es.map Prod.fst) := by
  induction es with
  | nil => simp [insertNew]
  | cons e es ih =>
    unfold insertNew
    split
    · simp
    · simp only [List.map_cons]
      exact (List.Perm.cons _ ih).trans (List.Perm.swap _ _ _)

theorem insertNew_of_not_arrayIndex (k : String) (v : α) (h : isArrayIndex k = false)
    (es : List (String × α)) : insertNew k v es = es ++ [(k, v)] := by
  induction es with
  | nil => simp [insertNew]
  | cons e es ih => simp [insertNew, h, ih]

theorem keys_set_of_mem (o : JSObject α) (k : String) (v : α) (h : k ∈ o.keys) :
    (o.set k v).keys = o.keys := by
  have hown : o.hasOwn k = true := by
    obtain ⟨w, hw⟩ := (mem_keys_iff o k).mp h
    simp [hasOwn, hw]
  unfold set
  rw [if_pos hown]
  simp only [keys, List.map_map]
  apply List.map_congr_left
  intro e _
  by_cases he : e.1 = k <;> simp [he]

theorem keys_set_perm_of_not_mem (o : JSObject α) (k : String) (v : α) (h : k ∉ o.keys) :
    (o.set k v).keys.Perm (k :: o.keys) := by
  have hown : ¬ o.hasOwn k = true := by
    have := (getOwn_eq_none_iff o k).mpr h
    simp [hasOwn, this]
  unfold set
  rw [if_neg hown]
  exact keys_insertNew_perm k v o.entries

theorem keys_set_of_not_mem_of_not_arrayIndex (o : JSObject α) (k : String) (v : α)
    (h : k ∉ o.keys) (hk : isArrayIndex k = false) : (o.set k v).keys = o.keys ++ [k] := by
  have hown : ¬ o.hasOwn k = true := by
    have := (getOwn_eq_none_iff o k).mpr h
    simp [hasOwn, this]
  unfold set
  rw [if_neg hown]
  simp [keys, insertNew_of_not_arrayIndex k v hk]

theorem nodup_keys_set (o : JSObject α) (k : String) (v : α) (h : o.keys.Nodup) :
    (o.set k v).keys.Nodup := by
  by_cases hk : k ∈ o.keys
  · rw [keys_set_of_mem o k v hk]; exact h
  · exact (keys_set_perm_of_not_mem o k v hk).nodup_iff.mpr (List.nodup_cons.mpr ⟨hk, h⟩)

theorem keys_rest (o : JSObject α) (k : String) :
    (o.rest k).keys = o.keys.filter (fun k' => !decide (k' = k)) := by
  simp only [rest, keys, List.filter_map]
  rfl

theorem filter_keys_insertNew (k : String) (v : α) (hk : isArrayIndex k = true)
    (es : List (String × α)) :
    ((insertNew k v es).map Prod.fst).filter (fun y => !isArrayIndex y) =
      (es.map Prod.fst).filter (fun y => !isArrayIndex y) := by
  induction es with
  | nil => simp [insertNew, hk]
  | cons e es ih =>
    unfold insertNew
    split
    · simp [List.filter_cons, hk]
    · simp only [List.map_cons, List.filter_cons, ih]

theorem mem_keys_insertNew (k k' : String) (v : α) (es : List (String × α)) :
    k' ∈ (insertNew k v es).map Prod.fst ↔ k' = k ∨ k' ∈ es.map Prod.fst := by
  rw [(keys_insertNew_perm k v es).mem_iff, List.mem_cons]

theorem pairwise_keys_insertNew (k : String) (v : α) (hk : isArrayIndex k = true)
    (es : List (String × α)) (hnew : k ∉ es.map Prod.fst)
    (h : (es.map Prod.fst).Pairwise enumeratedBefore) :
    ((insertNew k v es).map Prod.fst).Pairwise enumeratedBefore := by
  induction es with
  | nil => simp [insertNew]
  | cons e es ih =>
    simp only [List.map_cons, List.pairwise_cons, List.mem_cons, not_or] at h hnew
    obtain ⟨he, hes⟩ := h
    unfold insertNew
    split
    · rename_i hcond
      simp only [Bool.and_eq_true, Bool.or_eq_true, Bool.not_eq_true', decide_eq_true_eq]
        at hcond
      simp only [List.map_cons, List.pairwise_cons, List.mem_cons]
      refine ⟨?_, he, hes⟩
      rintro y (rfl | hy) hidx
      · rcases hcond.2 with hnot | hlt
        · rw [hnot] at hidx
          cases hidx
        · exact ⟨hk, hlt⟩
      · have hbefore := he y hy hidx
        rcases hcond.2 with hnot | hlt
        · rw [hnot] at hbefore
          cases hbefore.1
        · exact ⟨hk, hlt.trans hbefore.2⟩
    · rename_i hcond
      simp only [Bool.and_eq_true, Bool.or_eq_true, Bool.not_eq_true', decide_eq_true_eq,
        not_and, not_or, Bool.not_eq_false, Nat.not_lt] at hcond
      obtain ⟨hidx, hle⟩ := hcond hk
      simp only [List.map_cons, List.pairwise_cons]
      refine ⟨?_, ih hnew.2 hes⟩
      intro y hy
      rcases (mem_keys_insertNew k y v es).mp hy with rfl | hy
      · intro _
        refine ⟨hidx, lt_of_le_of_ne hle ?_⟩
        intro hvalue
        exact hnew.1 (eq_of_arrayIndexValue_eq _ _ hidx hk hvalue).symm
      · exact he y hy

/-- The own keys of an object built by `set` from `{}` come in the order of enumeration:
`set` keeps it. -/
theorem pairwise_keys_set (o : JSObject α) (k : String) (v : α)
    (h : o.keys.Pairwise enumeratedBefore) : (o.set k v).keys.Pairwise enumeratedBefore := by
  by_cases hmem : k ∈ o.keys
  · rw [keys_set_of_mem o k v hmem]
    exact h
  · cases hk : isArrayIndex k with
    | false =>
      rw [keys_set_of_not_mem_of_not_arrayIndex o k v hmem hk]
      refine List.pairwise_append.mpr ⟨h, List.pairwise_singleton _ _, ?_⟩
      intro a _ b hb hidx
      rw [List.mem_singleton.mp hb, hk] at hidx
      cases hidx
    | true =>
      have hown : ¬ o.hasOwn k = true := by
        have := (getOwn_eq_none_iff o k).mpr hmem
        simp [hasOwn, this]
      unfold set
      rw [if_neg hown]
      exact pairwise_keys_insertNew k v hk o.entries hmem h

theorem filter_keys_set (o : JSObject α) (k : String) (v : α) :
    (o.set k v).keys.filter (fun y => !isArrayIndex y) =
      o.keys.filter (fun y => !isArrayIndex y) ++
        (if k ∉ o.keys ∧ isArrayIndex k = false then [k] else []) := by
  by_cases hmem : k ∈ o.keys
  · rw [keys_set_of_mem o k v hmem]
    simp [hmem]
  · cases hk : isArrayIndex k with
    | false =>
      rw [keys_set_of_not_mem_of_not_arrayIndex o k v hmem hk]
      simp [hmem, hk, List.filter_append]
    | true =>
      have hown : ¬ o.hasOwn k = true := by
        have := (getOwn_eq_none_iff o k).mpr hmem
        simp [hasOwn, this]
      unfold set
      rw [if_neg hown]
      simp only [keys, filter_keys_insertNew k v hk]
      simp

/-- Keys in the order of enumeration: the array indices, then the other keys. -/
theorem eq_filter_append_of_pairwise (ks : List String) (h : ks.Pairwise enumeratedBefore) :
    ks = ks.filter isArrayIndex ++ ks.filter (fun y => !isArrayIndex y) := by
  induction ks with
  | nil => rfl
  | cons a ks ih =>
    obtain ⟨ha, hks⟩ := List.pairwise_cons.mp h
    cases hidx : isArrayIndex a with
    | true =>
      simp only [List.filter_cons, hidx, if_true, Bool.not_true, List.cons_append]
      exact congrArg (a :: ·) (ih hks)
    | false =>
      have hnone : ∀ b ∈ ks, isArrayIndex b = false := by
        intro b hb
        cases hb2 : isArrayIndex b with
        | false => rfl
        | true =>
          have := (ha b hb hb2).1
          rw [hidx] at this
          cases this
      have h1 : ks.filter isArrayIndex = [] :=
        List.filter_eq_nil_iff.mpr (fun b hb => by simp [hnone b hb])
      have h2 : ks.filter (fun y => !isArrayIndex y) = ks :=
        List.filter_eq_self.mpr (fun b hb => by simp [hnone b hb])
      simp [List.filter_cons, hidx, h1, h2]

/-- Keys in the order of enumeration: the array indices ascend. -/
theorem pairwise_filter_of_pairwise (ks : List String) (h : ks.Pairwise enumeratedBefore) :
    (ks.filter isArrayIndex).Pairwise (fun a b => arrayIndexValue a < arrayIndexValue b) := by
  refine (List.Pairwise.filter _ h).imp_of_mem ?_
  intro a b _ hb hbefore
  exact (hbefore (List.mem_filter.mp hb).2).2

theorem find_filter_ne (k k' : String) (es : List (String × α)) :
    (es.filter (fun e => !decide (e.1 = k))).find? (fun e => decide (e.1 = k')) =
      if k' = k then none else es.find? (fun e => decide (e.1 = k')) := by
  induction es with
  | nil => simp
  | cons e es ih =>
    by_cases hk : k' = k
    · subst hk
      by_cases he : e.1 = k'
      · simp [List.filter_cons, he]
      · simp [List.filter_cons, he, List.find?_cons]
    · by_cases he : e.1 = k
      · have hne : ¬ k = k' := fun h => hk h.symm
        simpa [List.filter_cons, he, List.find?_cons, hne, hk] using ih
      · by_cases he2 : e.1 = k'
        · simp [List.filter_cons, he, List.find?_cons, he2, hk]
        · simpa [List.filter_cons, he, List.find?_cons, he2, hk] using ih

theorem getOwn_rest (o : JSObject α) (k k' : String) :
    (o.rest k).getOwn k' = if k' = k then none else o.getOwn k' := by
  simp only [rest, getOwn, find_filter_ne]
  by_cases hk : k' = k <;> simp [hk]

theorem getOwn_spread (a b : JSObject α) (k : String) :
    (a.spread b).getOwn k = (b.getOwn k).orElse (fun _ => a.getOwn k) := by
  unfold spread
  have key : ∀ (ks : List String) (o : JSObject α),
      (ks.foldl (fun o k => match b.getOwn k with
        | some v => o.set k v
        | none => o) o).getOwn k =
      if k ∈ ks then (b.getOwn k).orElse (fun _ => o.getOwn k) else o.getOwn k := by
    intro ks
    induction ks with
    | nil => intro o; simp
    | cons x xs ih =>
      intro o
      simp only [List.foldl_cons, ih, List.mem_cons]
      cases hx : b.getOwn x with
      | none =>
        by_cases hk : k = x
        · subst hk
          simp [hx]
        · simp [hk]
      | some w =>
        by_cases hk : k = x
        · subst hk
          simp [hx, getOwn_set]
        · simp [hk, getOwn_set]
  rw [key]
  by_cases hk : k ∈ b.keys
  · simp [hk]
  · simp [hk, (getOwn_eq_none_iff b k).mpr hk]

end JSObject

/-! ## Facts about the reduction -/

theorem reduceTraced_result {α : Type} (callback : α → Nat × Contribution → Traced α)
    (step : α → Contribution → Except JSError α)
    (h : ∀ acc entry, (callback acc entry).result = step acc entry.2)
    (entries : List (Nat × Contribution)) (acc : α) :
    (reduceTraced callback acc entries).result = (entries.map Prod.snd).foldlM step acc := by
  induction entries generalizing acc with
  | nil => rfl
  | cons entry entries ih =>
    have hstep := h acc entry
    simp only [reduceTraced, List.map_cons, List.foldlM_cons]
    rcases hcb : callback acc entry with ⟨log, _ | next⟩
    · rw [hcb] at hstep
      simp only at hstep
      rw [← hstep]
      rfl
    · rw [hcb] at hstep
      simp only at hstep
      rw [← hstep]
      exact ih next

theorem enum_filter_map_snd (p : Contribution → Bool) (cs : List Contribution) :
    ((cs.enum).filter (fun entry => p entry.2)).map Prod.snd = cs.filter p := by
  have h := List.filter_map (f := Prod.snd) (p := p) (l := cs.enum)
  rw [List.enum_map_snd] at h
  rw [h]
  rfl

theorem sharedStep_eq (acc : SearchParameters) (c : Contribution) :
    sharedStep acc c = c.getSearchParameters (.parameters acc) c.props c.searchState := rfl

theorem derivedStep_eq (sharedParameters : SearchParameters) (acc : JSObject SearchParameters)
    (c : Contribution) :
    derivedStep sharedParameters acc c = (do
      let indexId ← getIndexId c.context
      let value ← c.getSearchParameters
        (orSharedParameters (acc.get indexId) sharedParameters) c.props c.searchState
      pure (acc.set indexId value)) := by
  unfold derivedStep derivedStepTraced
  cases hindex : getIndexId c.context with
  | error e => rfl
  | ok indexId =>
    simp only [Contribution.invoke, bind, Except.bind, pure, Except.pure]
    cases c.getSearchParameters (orSharedParameters (acc.get indexId) sharedParameters)
      c.props c.searchState <;> rfl

theorem derivedStepTraced_result (sharedParameters : SearchParameters)
    (acc : JSObject SearchParameters) (entry : Nat × Contribution) :
    (derivedStepTraced sharedParameters acc entry).result =
      derivedStep sharedParameters acc entry.2 := by
  unfold derivedStep derivedStepTraced
  cases getIndexId entry.2.context <;> rfl

/-- What the reduction returns or throws, as two folds over the two filtered lists. -/
theorem getSearchParameters_eq [HelperLibrary] (tags : JSObject String) (indexName : String)
    (cs : List Contribution) :
    getSearchParameters tags indexName cs = (do
      let sharedParameters ←
        (cs.filter (fun searchParameter =>
            !hasMultipleIndices searchParameter.context)).foldlM
          sharedStep
          (newSearchParameters (tags.set "index" indexName))
      let derivedParameters ←
        (cs.filter (fun searchParameter =>
            hasMultipleIndices searchParameter.context)).foldlM
          (derivedStep sharedParameters)
          JSObject.empty
      pure ⟨sharedParameters, derivedParameters⟩) := by
  unfold getSearchParameters getSearchParametersTraced
  simp only
  rw [reduceTraced_result sharedStepTraced sharedStep (fun _ _ => rfl),
    enum_filter_map_snd (fun c => !hasMultipleIndices c.context)]
  cases (cs.filter (fun c => !hasMultipleIndices c.context)).foldlM sharedStep
      (newSearchParameters (tags.set "index" indexName)) with
  | error e => rfl
  | ok shared =>
    simp only [bind, Except.bind]
    rw [reduceTraced_result (derivedStepTraced shared) (derivedStep shared)
      (derivedStepTraced_result shared),
      enum_filter_map_snd (fun c => hasMultipleIndices c.context)]
    cases (cs.filter (fun c => hasMultipleIndices c.context)).foldlM (derivedStep shared)
      JSObject.empty <;> rfl

/-- The reduction with its log returns what the reduction returns. -/
theorem getSearchParametersTraced_result [HelperLibrary] (tags : JSObject String) (indexName : String)
    (cs : List Contribution) :
    (getSearchParametersTraced tags indexName cs).result =
      getSearchParameters tags indexName cs := rfl


theorem hasMultipleIndices_eq_isSome_scopeOf (c : Contribution) :
    hasMultipleIndices c.context = (scopeOf c).isSome := by
  unfold hasMultipleIndices scopeOf
  rcases c.context with _ | ⟨ais, _ | m⟩ <;> rfl

theorem getIndexId_of_scopeOf (c : Contribution) (indexId : String)
    (h : scopeOf c = some indexId) : getIndexId c.context = .ok indexId := by
  unfold scopeOf at h
  unfold getIndexId
  rcases hc : c.context with _ | ⟨ais, _ | m⟩
  · simp [hc] at h
  · simp [hc] at h
  · simp only [hc, Option.some.injEq] at h
    simp [h]

theorem hasMultipleIndices_of_scopeOf_some (c : Contribution) (indexId : String)
    (h : scopeOf c = some indexId) : hasMultipleIndices c.context = true := by
  rw [hasMultipleIndices_eq_isSome_scopeOf, h]
  rfl

theorem hasMultipleIndices_of_scopeOf_none (c : Contribution) (h : scopeOf c = none) :
    hasMultipleIndices c.context = false := by
  rw [hasMultipleIndices_eq_isSome_scopeOf, h]
  rfl

theorem foldlM_shared_eq_foldShared (cs : List Contribution) (acc : SearchParameters) :
    (cs.filter (fun c => !hasMultipleIndices c.context)).foldlM sharedStep acc =
      foldShared acc cs := by
  induction cs generalizing acc with
  | nil => rfl
  | cons c cs ih =>
    cases hs : scopeOf c with
    | some indexId =>
      have hh := hasMultipleIndices_of_scopeOf_some c indexId hs
      simp only [List.filter_cons, hh, foldShared, hs, Bool.not_true]
      exact ih acc
    | none =>
      have hh := hasMultipleIndices_of_scopeOf_none c hs
      simp only [List.filter_cons, hh, foldShared, hs, Bool.not_false, if_true,
        List.foldlM_cons, sharedStep_eq]
      cases hm : c.getSearchParameters (.parameters acc) c.props c.searchState with
      | error e => rfl
      | ok next => exact ih next

theorem foldShared_filter (cs : List Contribution) (acc : SearchParameters) :
    foldShared acc (cs.filter (fun c => !hasMultipleIndices c.context)) = foldShared acc cs := by
  induction cs generalizing acc with
  | nil => rfl
  | cons c cs ih =>
    cases hs : scopeOf c with
    | some indexId =>
      have hh := hasMultipleIndices_of_scopeOf_some c indexId hs
      simp only [List.filter_cons, hh, foldShared, hs, Bool.not_true]
      exact ih acc
    | none =>
      have hh := hasMultipleIndices_of_scopeOf_none c hs
      simp only [List.filter_cons, hh, foldShared, hs, Bool.not_false, if_true]
      cases hm : c.getSearchParameters (.parameters acc) c.props c.searchState with
      | error e => rfl
      | ok next => exact ih next

/-- The `index` of the shared fold is the one of its start when no mutator of a
contribution without scope changes the index. -/
theorem foldShared_index (cs : List Contribution) (acc result : SearchParameters)
    (hkeep : ∀ c ∈ cs, scopeOf c = none → ∀ p next,
      c.getSearchParameters (.parameters p) c.props c.searchState = .ok next →
        next.index = p.index)
    (h : foldShared acc cs = .ok result) : result.index = acc.index := by
  induction cs generalizing acc with
  | nil =>
    simp only [foldShared, Except.ok.injEq] at h
    rw [h]
  | cons c cs ih =>
    have hrest : ∀ c' ∈ cs, scopeOf c' = none → ∀ p next,
        c'.getSearchParameters (.parameters p) c'.props c'.searchState = .ok next →
          next.index = p.index :=
      fun c' hc' => hkeep c' (List.mem_cons_of_mem _ hc')
    cases hs : scopeOf c with
    | some indexId =>
      simp only [foldShared, hs] at h
      exact ih acc hrest h
    | none =>
      simp only [foldShared, hs] at h
      cases hm : c.getSearchParameters (.parameters acc) c.props c.searchState with
      | error e => simp [hm] at h
      | ok next =>
        simp only [hm] at h
        rw [ih next hrest h]
        exact hkeep c (List.mem_cons_self _ _) hs acc next hm

/-- The shared part of `getSearchParameters` is the shared fold, and the reduction fails
with the error of the shared fold when that fold fails. -/
theorem getSearchParameters_shared [HelperLibrary] (tags : JSObject String) (indexName : String)
    (cs : List Contribution) :
    (∀ e, foldShared (newSearchParameters (tags.set "index" indexName)) cs = .error e →
      getSearchParameters tags indexName cs = .error e) ∧
    (∀ r, getSearchParameters tags indexName cs = .ok r →
      foldShared (newSearchParameters (tags.set "index" indexName)) cs =
        .ok r.sharedParameters) := by
  rw [getSearchParameters_eq]
  rw [foldlM_shared_eq_foldShared]
  cases foldShared (newSearchParameters (tags.set "index" indexName)) cs with
  | error e =>
    constructor
    · intro e' he
      cases he
      rfl
    · intro r hr
      cases hr
  | ok shared =>
    constructor
    · intro e he
      cases he
    · intro r hr
      cases hd : (cs.filter (fun c => hasMultipleIndices c.context)).foldlM
          (derivedStep shared) JSObject.empty with
      | error e =>
        simp only [bind, Except.bind, hd] at hr
        cases hr
      | ok derived =>
        simp only [bind, Except.bind, hd, pure, Except.pure, Except.ok.injEq] at hr
        rw [← hr]

theorem JSObject.get_set {α : Type} (o : JSObject α) (k k' : String) (v : α) :
    (o.set k v).get k' = if k' = k then .own v else o.get k' := by
  unfold JSObject.get
  rw [JSObject.getOwn_set]
  by_cases hk : k' = k <;> simp [hk]

theorem derivedStep_of_scopeOf (sharedParameters : SearchParameters)
    (acc : JSObject SearchParameters) (c : Contribution) (indexId : String)
    (h : scopeOf c = some indexId) :
    derivedStep sharedParameters acc c =
      match c.getSearchParameters (orSharedParameters (acc.get indexId) sharedParameters)
          c.props c.searchState with
      | .ok value => .ok (acc.set indexId value)
      | .error e => .error e := by
  rw [derivedStep_eq]
  rw [getIndexId_of_scopeOf c indexId h]
  simp only [bind, Except.bind, pure, Except.pure]
  cases c.getSearchParameters (orSharedParameters (acc.get indexId) sharedParameters)
    c.props c.searchState <;> rfl

/-- The derived reduction, entry by entry: what `acc[indexId] || sharedParameters` reads
after the reduction is the fold of the contributions of `indexId` from what it read
before. -/
theorem foldlM_derived_foldScope (sharedParameters : SearchParameters)
    (cs : List Contribution) (acc result : JSObject SearchParameters)
    (h : (cs.filter (fun c => hasMultipleIndices c.context)).foldlM
      (derivedStep sharedParameters) acc = .ok result) (indexId : String) :
    foldScope indexId (orSharedParameters (acc.get indexId) sharedParameters) cs =
      .ok (orSharedParameters (result.get indexId) sharedParameters) := by
  induction cs generalizing acc with
  | nil =>
    simp only [List.filter_nil, List.foldlM_nil, pure, Except.pure, Except.ok.injEq] at h
    rw [← h]
    rfl
  | cons c cs ih =>
    cases hs : scopeOf c with
    | none =>
      have hh := hasMultipleIndices_of_scopeOf_none c hs
      simp only [List.filter_cons, hh] at h
      simp only [foldScope, hs]
      exact ih acc h
    | some indexId0 =>
      have hh := hasMultipleIndices_of_scopeOf_some c indexId0 hs
      simp only [List.filter_cons, hh, if_true, List.foldlM_cons,
        derivedStep_of_scopeOf sharedParameters acc c indexId0 hs] at h
      cases hm : c.getSearchParameters
          (orSharedParameters (acc.get indexId0) sharedParameters) c.props c.searchState with
      | error e =>
        simp only [hm, bind, Except.bind] at h
        cases h
      | ok value =>
        simp only [hm, bind, Except.bind] at h
        have := ih (acc.set indexId0 value) h
        by_cases hid : indexId = indexId0
        · subst hid
          simp only [foldScope, hs, if_true, hm]
          simpa [JSObject.get_set, orSharedParameters] using this
        · have hne : ¬ some indexId0 = some indexId := fun h' => hid (Option.some.inj h').symm
          simp only [foldScope, hs, hne, if_false]
          simpa [JSObject.get_set, hid] using this

/-- The keys of the derived reduction: those it started with and the scope identifiers
of the contributions. -/
theorem foldlM_derived_mem_keys (sharedParameters : SearchParameters)
    (cs : List Contribution) (acc result : JSObject SearchParameters)
    (h : (cs.filter (fun c => hasMultipleIndices c.context)).foldlM
      (derivedStep sharedParameters) acc = .ok result) (indexId : String) :
    indexId ∈ result.keys ↔ indexId ∈ acc.keys ∨ indexId ∈ scopeIds cs := by
  induction cs generalizing acc with
  | nil =>
    simp only [List.filter_nil, List.foldlM_nil, pure, Except.pure, Except.ok.injEq] at h
    simp [← h, scopeIds]
  | cons c cs ih =>
    cases hs : scopeOf c with
    | none =>
      have hh := hasMultipleIndices_of_scopeOf_none c hs
      simp only [List.filter_cons, hh] at h
      simpa [scopeIds, List.filterMap_cons, hs] using ih acc h
    | some indexId0 =>
      have hh := hasMultipleIndices_of_scopeOf_some c indexId0 hs
      simp only [List.filter_cons, hh, if_true, List.foldlM_cons,
        derivedStep_of_scopeOf sharedParameters acc c indexId0 hs] at h
      cases hm : c.getSearchParameters
          (orSharedParameters (acc.get indexId0) sharedParameters) c.props c.searchState with
      | error e =>
        simp only [hm, bind, Except.bind] at h
        cases h
      | ok value =>
        simp only [hm, bind, Except.bind] at h
        have := ih (acc.set indexId0 value) h
        rw [this, JSObject.mem_keys_set]
        simp only [scopeIds, List.filterMap_cons, hs, List.mem_cons]
        tauto

/-- The derived reduction lists no key twice. -/
theorem foldlM_derived_nodup_keys (sharedParameters : SearchParameters)
    (cs : List Contribution) (acc result : JSObject SearchParameters)
    (h : (cs.filter (fun c => hasMultipleIndices c.context)).foldlM
      (derivedStep sharedParameters) acc = .ok result) (hacc : acc.keys.Nodup) :
    result.keys.Nodup := by
  induction cs generalizing acc with
  | nil =>
    simp only [List.filter_nil, List.foldlM_nil, pure, Except.pure, Except.ok.injEq] at h
    rw [← h]
    exact hacc
  | cons c cs ih =>
    cases hs : scopeOf c with
    | none =>
      have hh := hasMultipleIndices_of_scopeOf_none c hs
      simp only [List.filter_cons, hh] at h
      exact ih acc h hacc
    | some indexId0 =>
      have hh := hasMultipleIndices_of_scopeOf_some c indexId0 hs
      simp only [List.filter_cons, hh, if_true, List.foldlM_cons,
        derivedStep_of_scopeOf sharedParameters acc c indexId0 hs] at h
      cases hm : c.getSearchParameters
          (orSharedParameters (acc.get indexId0) sharedParameters) c.props c.searchState with
      | error e =>
        simp only [hm, bind, Except.bind] at h
        cases h
      | ok value =>
        simp only [hm, bind, Except.bind] at h
        exact ih (acc.set indexId0 value) h (JSObject.nodup_keys_set acc indexId0 value hacc)

theorem getSearchParameters_eq_ok_iff [HelperLibrary] (tags : JSObject String) (indexName : String)
    (cs : List Contribution) (r : Parameters) :
    getSearchParameters tags indexName cs = .ok r ↔
      foldShared (newSearchParameters (tags.set "index" indexName)) cs =
          .ok r.sharedParameters ∧
        (cs.filter (fun c => hasMultipleIndices c.context)).foldlM
          (derivedStep r.sharedParameters) JSObject.empty = .ok r.derivedParameters := by
  rw [getSearchParameters_eq]
  rw [foldlM_shared_eq_foldShared]
  cases foldShared (newSearchParameters (tags.set "index" indexName)) cs with
  | error e => simp [bind, Except.bind]
  | ok shared =>
    cases hd : (cs.filter (fun c => hasMultipleIndices c.context)).foldlM
        (derivedStep shared) JSObject.empty with
    | error e =>
      simp only [bind, Except.bind, hd, Except.ok.injEq]
      constructor
      · intro hr
        cases hr
      · rintro ⟨hsh, hder⟩
        rw [← hsh, hd] at hder
        cases hder
    | ok derived =>
      simp only [bind, Except.bind, hd, pure, Except.pure, Except.ok.injEq]
      constructor
      · intro hr
        rw [← hr]
        exact ⟨rfl, hd⟩
      · rintro ⟨hsh, hder⟩
        rw [← hsh, hd] at hder
        cases r
        simp only at hsh hder ⊢
        rw [hsh, Except.ok.inj hder]

theorem foldShared_returns (cs : List Contribution) (acc : SearchParameters)
    (hok : ∀ c ∈ cs, ∀ p, ∃ next,
      c.getSearchParameters (.parameters p) c.props c.searchState = .ok next) :
    ∃ result, foldShared acc cs = .ok result := by
  induction cs generalizing acc with
  | nil => exact ⟨acc, rfl⟩
  | cons c cs ih =>
    have hrest : ∀ c' ∈ cs, ∀ p, ∃ next,
        c'.getSearchParameters (.parameters p) c'.props c'.searchState = .ok next :=
      fun c' hc' => hok c' (List.mem_cons_of_mem _ hc')
    cases hs : scopeOf c with
    | some indexId =>
      simp only [foldShared, hs]
      exact ih acc hrest
    | none =>
      obtain ⟨p, hp⟩ := hok c (List.mem_cons_self _ _) acc
      simp only [foldShared, hs, hp]
      exact ih p hrest

/-- What `acc[indexId] || sharedParameters` reads is a parameter set when `indexId` is
not the name of a member of `Object.prototype`. -/
theorem orSharedParameters_parameters (acc : JSObject SearchParameters) (indexId : String)
    (sharedParameters : SearchParameters) (h : indexId ∉ objectPrototypeKeys) :
    ∃ p, orSharedParameters (acc.get indexId) sharedParameters = .parameters p := by
  unfold JSObject.get
  cases acc.getOwn indexId with
  | some v => exact ⟨v, rfl⟩
  | none =>
    rw [if_neg h]
    exact ⟨sharedParameters, rfl⟩

theorem foldlM_derived_returns (sharedParameters : SearchParameters)
    (cs : List Contribution) (acc : JSObject SearchParameters)
    (hok : ∀ c ∈ cs, ∀ p, ∃ next,
      c.getSearchParameters (.parameters p) c.props c.searchState = .ok next)
    (hids : ∀ indexId ∈ scopeIds cs, indexId ∉ objectPrototypeKeys) :
    ∃ result, (cs.filter (fun c => hasMultipleIndices c.context)).foldlM
      (derivedStep sharedParameters) acc = .ok result := by
  induction cs generalizing acc with
  | nil => exact ⟨acc, rfl⟩
  | cons c cs ih =>
    have hrest : ∀ c' ∈ cs, ∀ p, ∃ next,
        c'.getSearchParameters (.parameters p) c'.props c'.searchState = .ok next :=
      fun c' hc' => hok c' (List.mem_cons_of_mem _ hc')
    cases hs : scopeOf c with
    | none =>
      have hh := hasMultipleIndices_of_scopeOf_none c hs
      have hids' : ∀ indexId ∈ scopeIds cs, indexId ∉ objectPrototypeKeys := by
        intro indexId hmem
        exact hids indexId (by simpa [scopeIds, List.filterMap_cons, hs] using hmem)
      simp only [List.filter_cons, hh]
      exact ih acc hrest hids'
    | some indexId0 =>
      have hh := hasMultipleIndices_of_scopeOf_some c indexId0 hs
      have hids' : ∀ indexId ∈ scopeIds cs, indexId ∉ objectPrototypeKeys := by
        intro indexId hmem
        exact hids indexId (by
          simp only [scopeIds, List.filterMap_cons, hs, List.mem_cons]
          exact Or.inr hmem)
      obtain ⟨base, hbase⟩ := orSharedParameters_parameters acc indexId0 sharedParameters
        (hids indexId0 (by simp [scopeIds, List.filterMap_cons, hs]))
      obtain ⟨p, hp⟩ := hok c (List.mem_cons_self _ _) base
      simp only [List.filter_cons, hh, if_true, List.foldlM_cons,
        derivedStep_of_scopeOf sharedParameters acc c indexId0 hs, hbase, hp, bind,
        Except.bind]
      exact ih (acc.set indexId0 p) hrest hids'

/-- The reduction returns when no mutator throws on a parameter set and no scope
identifier is the name of a member of `Object.prototype`. -/
theorem getSearchParameters_returns [HelperLibrary] (tags : JSObject String) (indexName : String)
    (cs : List Contribution)
    (hok : ∀ c ∈ cs, ∀ p, ∃ next,
      c.getSearchParameters (.parameters p) c.props c.searchState = .ok next)
    (hids : ∀ indexId ∈ scopeIds cs, indexId ∉ objectPrototypeKeys) :
    ∃ r, getSearchParameters tags indexName cs = .ok r := by
  obtain ⟨shared, hsh⟩ :=
    foldShared_returns cs (newSearchParameters (tags.set "index" indexName)) hok
  obtain ⟨derived, hd⟩ := foldlM_derived_returns shared cs JSObject.empty hok hids
  exact ⟨⟨shared, derived⟩, (getSearchParameters_eq_ok_iff tags indexName cs _).mpr ⟨hsh, hd⟩⟩

/-- The keys of the derived reduction are listed in the order in which the scope
identifiers are first met, as long as none of them is an array index. -/
theorem foldlM_derived_keys (sharedParameters : SearchParameters)
    (cs : List Contribution) (acc result : JSObject SearchParameters)
    (h : (cs.filter (fun c => hasMultipleIndices c.context)).foldlM
      (derivedStep sharedParameters) acc = .ok result)
    (hids : ∀ indexId ∈ scopeIds cs, isArrayIndex indexId = false) :
    result.keys =
      acc.keys ++ (firstEncountered (scopeIds cs)).filter (fun y => decide (y ∉ acc.keys)) := by
  induction cs generalizing acc with
  | nil =>
    simp only [List.filter_nil, List.foldlM_nil, pure, Except.pure, Except.ok.injEq] at h
    simp [← h, scopeIds, firstEncountered]
  | cons c cs ih =>
    cases hs : scopeOf c with
    | none =>
      have hh := hasMultipleIndices_of_scopeOf_none c hs
      simp only [List.filter_cons, hh] at h
      have hids' : ∀ indexId ∈ scopeIds cs, isArrayIndex indexId = false := by
        intro indexId hmem
        exact hids indexId (by simpa [scopeIds, List.filterMap_cons, hs] using hmem)
      have := ih acc h hids'
      simpa [scopeIds, List.filterMap_cons, hs] using this
    | some x =>
      have hh := hasMultipleIndices_of_scopeOf_some c x hs
      simp only [List.filter_cons, hh, if_true, List.foldlM_cons,
        derivedStep_of_scopeOf sharedParameters acc c x hs] at h
      have hx : isArrayIndex x = false :=
        hids x (by simp [scopeIds, List.filterMap_cons, hs])
      have hids' : ∀ indexId ∈ scopeIds cs, isArrayIndex indexId = false := by
        intro indexId hmem
        exact hids indexId (by
          simp only [scopeIds, List.filterMap_cons, hs, List.mem_cons]
          exact Or.inr hmem)
      cases hm : c.getSearchParameters
          (orSharedParameters (acc.get x) sharedParameters) c.props c.searchState with
      | error e =>
        simp only [hm, bind, Except.bind] at h
        cases h
      | ok value =>
        simp only [hm, bind, Except.bind] at h
        have hres := ih (acc.set x value) h hids'
        have hsc : scopeIds (c :: cs) = x :: scopeIds cs := by
          simp [scopeIds, List.filterMap_cons, hs]
        rw [hres, hsc]
        simp only [firstEncountered]
        by_cases hmem : x ∈ acc.keys
        · rw [JSObject.keys_set_of_mem acc x value hmem]
          simp only [List.filter_cons, hmem, not_true_eq_false, decide_False,
            List.filter_filter]
          congr 1
          apply List.filter_congr
          intro y _
          by_cases hy : y ∈ acc.keys
          · simp [hy]
          · have : y ≠ x := fun hyx => hy (hyx ▸ hmem)
            simp [hy, this]
        · rw [JSObject.keys_set_of_not_mem_of_not_arrayIndex acc x value hmem hx]
          simp only [List.filter_cons, hmem, not_false_eq_true, decide_True, if_true,
            List.filter_filter, List.append_assoc, List.singleton_append]
          congr 2
          apply List.filter_congr
          intro y _
          by_cases hy : y ∈ acc.keys
          · simp [hy]
          · by_cases hyx : y = x
            · simp [hyx]
            · simp [hy, hyx]

/-- The keys of the derived mapping come in the order of enumeration: the array indices
first, ascending. -/
theorem foldlM_derived_pairwise_keys (sharedParameters : SearchParameters)
    (cs : List Contribution) (acc result : JSObject SearchParameters)
    (h : (cs.filter (fun c => hasMultipleIndices c.context)).foldlM
      (derivedStep sharedParameters) acc = .ok result)
    (hacc : acc.keys.Pairwise enumeratedBefore) :
    result.keys.Pairwise enumeratedBefore := by
  induction cs generalizing acc with
  | nil =>
    simp only [List.filter_nil, List.foldlM_nil, pure, Except.pure, Except.ok.injEq] at h
    rw [← h]
    exact hacc
  | cons c cs ih =>
    cases hs : scopeOf c with
    | none =>
      have hh := hasMultipleIndices_of_scopeOf_none c hs
      simp only [List.filter_cons, hh] at h
      exact ih acc h hacc
    | some indexId0 =>
      have hh := hasMultipleIndices_of_scopeOf_some c indexId0 hs
      simp only [List.filter_cons, hh, if_true, List.foldlM_cons,
        derivedStep_of_scopeOf sharedParameters acc c indexId0 hs] at h
      cases hm : c.getSearchParameters
          (orSharedParameters (acc.get indexId0) sharedParameters) c.props c.searchState with
      | error e =>
        simp only [hm, bind, Except.bind] at h
        cases h
      | ok value =>
        simp only [hm, bind, Except.bind] at h
        exact ih (acc.set indexId0 value) h (JSObject.pairwise_keys_set acc indexId0 value hacc)

/-- The keys of the derived mapping that are no array indices come in the order in which
the scope identifiers are first met. -/
theorem foldlM_derived_filter_keys (sharedParameters : SearchParameters)
    (cs : List Contribution) (acc result : JSObject SearchParameters)
    (h : (cs.filter (fun c => hasMultipleIndices c.context)).foldlM
      (derivedStep sharedParameters) acc = .ok result) :
    result.keys.filter (fun y => !isArrayIndex y) =
      acc.keys.filter (fun y => !isArrayIndex y) ++
        (firstEncountered (scopeIds cs)).filter
          (fun y => !isArrayIndex y && decide (y ∉ acc.keys)) := by
  induction cs generalizing acc with
  | nil =>
    simp only [List.filter_nil, List.foldlM_nil, pure, Except.pure, Except.ok.injEq] at h
    simp [← h, scopeIds, firstEncountered]
  | cons c cs ih =>
    cases hs : scopeOf c with
    | none =>
      have hh := hasMultipleIndices_of_scopeOf_none c hs
      simp only [List.filter_cons, hh] at h
      have := ih acc h
      simpa [scopeIds, List.filterMap_cons, hs] using this
    | some x =>
      have hh := hasMultipleIndices_of_scopeOf_some c x hs
      simp only [List.filter_cons, hh, if_true, List.foldlM_cons,
        derivedStep_of_scopeOf sharedParameters acc c x hs] at h
      cases hm : c.getSearchParameters
          (orSharedParameters (acc.get x) sharedParameters) c.props c.searchState with
      | error e =>
        simp only [hm, bind, Except.bind] at h
        cases h
      | ok value =>
        simp only [hm, bind, Except.bind] at h
        have hres := ih (acc.set x value) h
        have hsc : scopeIds (c :: cs) = x :: scopeIds cs := by
          simp [scopeIds, List.filterMap_cons, hs]
        have hlater : (firstEncountered (scopeIds cs)).filter
            (fun y => !isArrayIndex y && decide (y ∉ (acc.set x value).keys)) =
            ((firstEncountered (scopeIds cs)).filter (fun y => !decide (y = x))).filter
              (fun y => !isArrayIndex y && decide (y ∉ acc.keys)) := by
          rw [List.filter_filter]
          apply List.filter_congr
          intro y _
          simp only [JSObject.mem_keys_set]
          by_cases hyx : y = x <;> by_cases hy : y ∈ acc.keys <;> simp [hyx, hy]
        rw [hres, hsc, JSObject.filter_keys_set, hlater]
        simp only [firstEncountered, List.filter_cons]
        by_cases hmem : x ∈ acc.keys
        · simp [hmem]
        · cases hx : isArrayIndex x <;> simp [hmem, hx]

/-! ## Facts about the dispatch -/

theorem derivedSearches_of_keys (client : SearchClient) (o : JSObject SearchParameters)
    (indexIds : List String) (h : ∀ indexId ∈ indexIds, indexId ∈ o.keys) :
    ∃ others, derivedSearches client o indexIds = .ok others ∧
      List.Forall₂ (fun indexId issued => ∃ parameters,
        o.getOwn indexId = some parameters ∧
          issued = (algoliasearchHelper client parameters.index).searchOnce parameters)
        indexIds others := by
  induction indexIds with
  | nil => exact ⟨[], rfl, List.Forall₂.nil⟩
  | cons x xs ih =>
    obtain ⟨others, hothers, hall⟩ := ih (fun y hy => h y (List.mem_cons_of_mem _ hy))
    obtain ⟨parameters, hp⟩ := (JSObject.mem_keys_iff o x).mp (h x (List.mem_cons_self _ _))
    refine ⟨(algoliasearchHelper client parameters.index).searchOnce parameters :: others,
      ?_, List.Forall₂.cons ⟨parameters, hp, rfl⟩ hall⟩
    unfold derivedSearches at hothers ⊢
    rw [List.mapM_cons, hp, hothers]
    rfl

theorem length_tagResults (indexName : String) (indexIds : List String)
    (results : List SearchResult) :
    (tagResults indexName indexIds results).length = 1 + indexIds.length := by
  simp [tagResults, List.enum_length, Nat.add_comm]

theorem map_internalIndexId_tagResults (indexName : String) (indexIds : List String)
    (results : List SearchResult) :
    (tagResults indexName indexIds results).map (fun t => t._internalIndexId) =
      indexName :: indexIds := by
  unfold tagResults
  rw [List.map_map]
  have : ((fun t : TaggedResult => t._internalIndexId) ∘
      fun (x : Nat × String) => (⟨results[x.1]?, x.2⟩ : TaggedResult)) = Prod.snd := by
    funext x
    rfl
  rw [this, List.enum_map_snd]

theorem getElem?_tagResults (indexName : String) (indexIds : List String)
    (results : List SearchResult) (i : Nat) :
    (tagResults indexName indexIds results)[i]? =
      ((indexName :: indexIds)[i]?).map (fun indexId => ⟨results[i]?, indexId⟩) := by
  unfold tagResults
  rw [List.getElem?_map, List.getElem?_enum]
  cases (indexName :: indexIds)[i]? <;> rfl

theorem mapM_outcome_forall₂ {α : Type} (ps : List (Promise α)) (values : List α)
    (h : ps.mapM (fun p => p.outcome) = .ok values) :
    List.Forall₂ (fun p v => p.outcome = .ok v) ps values := by
  induction ps generalizing values with
  | nil =>
    simp only [List.mapM_nil, pure, Except.pure, Except.ok.injEq] at h
    rw [← h]
    exact List.Forall₂.nil
  | cons p ps ih =>
    rw [List.mapM_cons] at h
    cases hp : p.outcome with
    | error e =>
      simp only [hp, bind, Except.bind] at h
      cases h
    | ok v =>
      cases hps : ps.mapM (fun p => p.outcome) with
      | error e =>
        simp only [hp, hps, bind, Except.bind] at h
        cases h
      | ok vs =>
        simp only [hp, hps, bind, Except.bind, pure, Except.pure, Except.ok.injEq] at h
        rw [← h]
        exact List.Forall₂.cons hp (ih vs hps)

theorem mapM_outcome_of_fulfilled {α : Type} (ps : List (Promise α))
    (h : ∀ p ∈ ps, ∃ v, p.outcome = .ok v) :
    ∃ values, ps.mapM (fun p => p.outcome) = .ok values := by
  induction ps with
  | nil => exact ⟨[], rfl⟩
  | cons p ps ih =>
    obtain ⟨vs, hvs⟩ := ih (fun q hq => h q (List.mem_cons_of_mem _ hq))
    obtain ⟨v, hv⟩ := h p (List.mem_cons_self _ _)
    refine ⟨v :: vs, ?_⟩
    rw [List.mapM_cons, hv, hvs]
    rfl

/-- The promise `Promise.all` is fulfilled exactly when all the promises are, with their values in
the order of the promises, whatever the instants at which they settle. -/
theorem all_outcome_eq_ok_iff {α : Type} (ps : List (Promise α)) (values : List α) :
    (Promise.all ps).outcome = .ok values ↔ ps.mapM (fun p => p.outcome) = .ok values := by
  unfold Promise.all
  cases hm : ps.mapM (fun p => p.outcome) with
  | ok vs => simp
  | error e =>
    cases rejections ps <;> simp

theorem run_resolved_eq_some_iff (run : Run) (resolution : Resolution) :
    run.resolved = some resolution ↔
      ∃ promise, run.outcome = .returned promise ∧ promise.outcome = .ok resolution := by
  unfold Run.resolved
  cases run.outcome with
  | threw e => simp
  | returned promise =>
    cases hp : promise.outcome with
    | error e => simp [hp]
    | ok res =>
      simp only [Option.some.injEq, Outcome.returned.injEq, exists_eq_left', hp,
        Except.ok.injEq]

/-- The searches and the result of `multiIndexSearch`: the first search, then one search
for each key of the rest of the derived mapping, and the promise of the tagged
results. -/
theorem multiIndexSearch_eq (indexName : String) (client : SearchClient) (helper : Helper)
    (sharedParameters : SearchParameters) (derived : JSObject SearchParameters) :
    ∃ others,
      List.Forall₂ (fun indexId issued => ∃ parameters,
        (derived.rest indexName).getOwn indexId = some parameters ∧
          issued = (algoliasearchHelper client parameters.index).searchOnce parameters)
        (derived.rest indexName).keys others ∧
      multiIndexSearch indexName client helper sharedParameters derived =
        ⟨.searchOnce
            (helper.searchOnce
              (sharedParameters.spread (spreadable (derived.get indexName)))).request ::
            others.flatMap (fun s =>
              [.algoliasearchHelper s.request.index, .searchOnce s.request]),
          .returned (((Promise.all
            ((helper.searchOnce (sharedParameters.spread (spreadable (derived.get indexName)))
              :: others).map (fun s => s.promise))).then
            (tagResults indexName (derived.rest indexName).keys)).then Resolution.multi)⟩ := by
  obtain ⟨others, hothers, hall⟩ :=
    derivedSearches_of_keys client (derived.rest indexName) (derived.rest indexName).keys
      (fun _ h => h)
  refine ⟨others, hall, ?_⟩
  unfold multiIndexSearch
  simp only [hothers]

/-- The run of `findResultsState` on props with a search client, once the render pass
and the reduction have returned. -/
theorem findResultsState_eq [HelperLibrary] (imports : Imports) (app : App) (props : FindProps)
    (client : SearchClient) (cs : List Contribution) (r : Parameters)
    (hclient : props.searchClient = some client)
    (hrender : renderToString app props = .ok cs)
    (hreduce : getSearchParameters imports.HIGHLIGHT_TAGS props.indexName cs = .ok r) :
    findResultsState imports app (some props) =
      ⟨algoliaAgents imports client ++
          [.renderToString, .algoliasearchHelper r.sharedParameters.index] ++
          (if r.derivedParameters.keys.length = 0 then
            singleIndexSearch (algoliasearchHelper client r.sharedParameters.index)
              r.sharedParameters
          else
            multiIndexSearch props.indexName client
              (algoliasearchHelper client r.sharedParameters.index)
              r.sharedParameters r.derivedParameters).events,
        (if r.derivedParameters.keys.length = 0 then
            singleIndexSearch (algoliasearchHelper client r.sharedParameters.index)
              r.sharedParameters
          else
            multiIndexSearch props.indexName client
              (algoliasearchHelper client r.sharedParameters.index)
              r.sharedParameters r.derivedParameters).outcome⟩ := by
  simp only [findResultsState, hclient, hrender, hreduce]
  rfl

/-- The derived mapping has no key exactly when no contribution carries a scope. -/
theorem derivedParameters_keys_eq_nil_iff [HelperLibrary] (tags : JSObject String) (indexName : String)
    (cs : List Contribution) (r : Parameters)
    (h : getSearchParameters tags indexName cs = .ok r) :
    r.derivedParameters.keys = [] ↔ scopeIds cs = [] := by
  have hmem := foldlM_derived_mem_keys r.sharedParameters cs JSObject.empty
    r.derivedParameters ((getSearchParameters_eq_ok_iff tags indexName cs r).mp h).2
  simp only [JSObject.keys, JSObject.empty, List.map_nil, List.not_mem_nil, false_or] at hmem
  constructor
  · intro hk
    apply List.eq_nil_iff_forall_not_mem.mpr
    intro indexId hid
    have := (hmem indexId).mpr hid
    rw [JSObject.keys] at hk
    rw [hk] at this
    exact absurd this (List.not_mem_nil _)
  · intro hk
    apply List.eq_nil_iff_forall_not_mem.mpr
    intro indexId hid
    have := (hmem indexId).mp hid
    rw [hk] at this
    exact absurd this (List.not_mem_nil _)

/-- The keys left in the derived mapping once the entry of the default index name is
taken out: no key twice, and the scope identifiers other than the default index name. -/
theorem rest_keys_spec [HelperLibrary] (tags : JSObject String) (indexName : String)
    (cs : List Contribution) (r : Parameters)
    (h : getSearchParameters tags indexName cs = .ok r) :
    (r.derivedParameters.rest indexName).keys.Nodup ∧
      ∀ indexId, indexId ∈ (r.derivedParameters.rest indexName).keys ↔
        indexId ∈ scopeIds cs ∧ indexId ≠ indexName := by
  have hfold := ((getSearchParameters_eq_ok_iff tags indexName cs r).mp h).2
  have hmem := foldlM_derived_mem_keys r.sharedParameters cs JSObject.empty
    r.derivedParameters hfold
  have hnodup := foldlM_derived_nodup_keys r.sharedParameters cs JSObject.empty
    r.derivedParameters hfold (by simp [JSObject.keys, JSObject.empty])
  rw [JSObject.keys_rest]
  refine ⟨hnodup.filter _, ?_⟩
  intro indexId
  rw [List.mem_filter, hmem]
  simp [JSObject.keys, JSObject.empty]

theorem requestsOf_algoliaAgents (imports : Imports) (client : SearchClient)
    (index : Option String) (events : List Event) :
    requestsOf (algoliaAgents imports client ++ [.renderToString, .algoliasearchHelper index]
      ++ events) = requestsOf events := by
  unfold algoliaAgents requestsOf
  split <;> simp [List.filterMap_cons, List.filterMap_append]

theorem requestsOf_agents_render (imports : Imports) (client : SearchClient) :
    requestsOf (algoliaAgents imports client ++ [.renderToString]) = [] := by
  unfold algoliaAgents requestsOf
  split <;> simp [List.filterMap_cons, List.filterMap_append]

theorem requestsOf_dispatch (first : Issued) (others : List Issued) :
    requestsOf (.searchOnce first.request ::
      others.flatMap (fun s => [.algoliasearchHelper s.request.index, .searchOnce s.request])) =
      (first :: others).map (fun s => s.request) := by
  unfold requestsOf
  simp only [List.filterMap_cons, List.map_cons, List.cons.injEq, true_and]
  induction others with
  | nil => rfl
  | cons s rest ih =>
    simp only [List.flatMap_cons, List.cons_append, List.nil_append, List.filterMap_cons,
      List.map_cons]
    rw [ih]

/-- A multi-index resolution: the searches issued and what the call resolves to. -/
theorem findResultsState_multi [HelperLibrary] (imports : Imports) (app : App) (props : FindProps)
    (client : SearchClient) (cs : List Contribution) (r : Parameters)
    (hclient : props.searchClient = some client)
    (hrender : renderToString app props = .ok cs)
    (hreduce : getSearchParameters imports.HIGHLIGHT_TAGS props.indexName cs = .ok r)
    (hkeys : r.derivedParameters.keys ≠ []) :
    ∃ others,
      List.Forall₂ (fun indexId issued => ∃ parameters,
        (r.derivedParameters.rest props.indexName).getOwn indexId = some parameters ∧
          issued = (algoliasearchHelper client parameters.index).searchOnce parameters)
        (r.derivedParameters.rest props.indexName).keys others ∧
      (findResultsState imports app (some props)).searches =
        ((algoliasearchHelper client r.sharedParameters.index).searchOnce
          (r.sharedParameters.spread
            (spreadable (r.derivedParameters.get props.indexName))) :: others).map
          (fun s => s.request) ∧
      ∀ resolution, (findResultsState imports app (some props)).resolved = some resolution ↔
        ∃ values,
          (((algoliasearchHelper client r.sharedParameters.index).searchOnce
            (r.sharedParameters.spread
              (spreadable (r.derivedParameters.get props.indexName))) :: others).map
            (fun s => s.promise)).mapM (fun p => p.outcome) = .ok values ∧
          resolution = .multi
            (tagResults props.indexName (r.derivedParameters.rest props.indexName).keys
              values) := by
  have hlen : ¬ r.derivedParameters.keys.length = 0 := by
    intro h
    exact hkeys (List.length_eq_zero.mp h)
  obtain ⟨others, hall, hmulti⟩ := multiIndexSearch_eq props.indexName client
    (algoliasearchHelper client r.sharedParameters.index) r.sharedParameters
    r.derivedParameters
  have hrun := findResultsState_eq imports app props client cs r hclient hrender hreduce
  rw [if_neg hlen, hmulti] at hrun
  refine ⟨others, hall, ?_, ?_⟩
  · rw [hrun]
    simp only [Run.searches]
    rw [requestsOf_algoliaAgents, requestsOf_dispatch]
  · intro resolution
    rw [hrun]
    simp only [Run.resolved, Promise.then]
    cases hall' : (Promise.all
        (((algoliasearchHelper client r.sharedParameters.index).searchOnce
          (r.sharedParameters.spread
            (spreadable (r.derivedParameters.get props.indexName))) :: others).map
          (fun s => s.promise))).outcome with
    | error e =>
      have hnot : ∀ values, ¬ (((algoliasearchHelper client r.sharedParameters.index).searchOnce
          (r.sharedParameters.spread
            (spreadable (r.derivedParameters.get props.indexName))) :: others).map
          (fun s => s.promise)).mapM (fun p => p.outcome) = .ok values := by
        intro values hv
        rw [← all_outcome_eq_ok_iff, hall'] at hv
        cases hv
      simp only [Except.map]
      constructor
      · intro h
        cases h
      · rintro ⟨values, hv, _⟩
        exact absurd hv (hnot values)
    | ok values =>
      have hv := (all_outcome_eq_ok_iff _ _).mp hall'
      simp only [Except.map, Option.some.injEq]
      constructor
      · intro h
        exact ⟨values, hv, h.symm⟩
      · rintro ⟨values', hv', hres⟩
        rw [hv] at hv'
        cases hv'
        exact hres.symm

/-- A call on props with a search client throws only what the render pass or the
reduction throws. -/
theorem findResultsState_threw [HelperLibrary] (imports : Imports) (app : App) (props : FindProps)
    (client : SearchClient) (hclient : props.searchClient = some client) (e : JSError)
    (h : (findResultsState imports app (some props)).outcome = .threw e) :
    renderToString app props = .error e ∨
      ∃ cs, renderToString app props = .ok cs ∧
        getSearchParameters imports.HIGHLIGHT_TAGS props.indexName cs = .error e := by
  cases hrender : renderToString app props with
  | error e' =>
    simp only [findResultsState, hclient, hrender, Outcome.threw.injEq] at h
    left
    rw [h]
  | ok cs =>
    right
    refine ⟨cs, rfl, ?_⟩
    cases hreduce : getSearchParameters imports.HIGHLIGHT_TAGS props.indexName cs with
    | error e' =>
      simp only [findResultsState, hclient, hrender, hreduce, Outcome.threw.injEq] at h
      rw [h]
    | ok r =>
      have hrun := findResultsState_eq imports app props client cs r hclient hrender hreduce
      rw [hrun] at h
      simp only at h
      split at h
      · simp [singleIndexSearch] at h
      · obtain ⟨others, _, hmulti⟩ := multiIndexSearch_eq props.indexName client
          (algoliasearchHelper client r.sharedParameters.index) r.sharedParameters
          r.derivedParameters
        rw [hmulti] at h
        cases h

theorem forall₂_right_mem {α β : Type} {R : α → β → Prop} {l₁ : List α} {l₂ : List β}
    (h : List.Forall₂ R l₁ l₂) : ∀ y ∈ l₂, ∃ x ∈ l₁, R x y := by
  induction h with
  | nil => intro y hy; cases hy
  | cons hr _ ih =>
    intro y hy
    rcases List.mem_cons.mp hy with rfl | hy'
    · exact ⟨_, List.mem_cons_self _ _, hr⟩
    · obtain ⟨x, hx, hxy⟩ := ih y hy'
      exact ⟨x, List.mem_cons_of_mem _ hx, hxy⟩

theorem forall₂_getElem? {α β : Type} {R : α → β → Prop} {l₁ : List α} {l₂ : List β}
    (h : List.Forall₂ R l₁ l₂) (i : Nat) (x : α) (hx : l₁[i]? = some x) :
    ∃ y, l₂[i]? = some y ∧ R x y := by
  induction h generalizing i with
  | nil => simp at hx
  | cons hr _ ih =>
    cases i with
    | zero =>
      simp only [List.getElem?_cons_zero, Option.some.injEq] at hx
      subst hx
      exact ⟨_, List.getElem?_cons_zero, hr⟩
    | succ i =>
      simp only [List.getElem?_cons_succ] at hx ⊢
      exact ih i hx

theorem spread_empty {α : Type} (a : JSObject α) : a.spread JSObject.empty = a := rfl

theorem spreadable_of_getOwn_none (o : JSObject SearchParameters) (k : String)
    (h : o.getOwn k = none) : spreadable (o.get k) = JSObject.empty := by
  unfold JSObject.get
  rw [h]
  simp only
  split <;> rfl

theorem spreadable_of_getOwn_some (o : JSObject SearchParameters) (k : String)
    (p : SearchParameters) (h : o.getOwn k = some p) : spreadable (o.get k) = p := by
  unfold JSObject.get
  rw [h]
  rfl

/-- The events of a call on props with a search client: the agents, the render pass,
then calls to the helper library only. -/
theorem findResultsState_events [HelperLibrary] (imports : Imports) (app : App) (props : FindProps)
    (client : SearchClient) (hclient : props.searchClient = some client) :
    ∃ later : List Event,
      (findResultsState imports app (some props)).events =
        algoliaAgents imports client ++ [.renderToString] ++ later ∧
      ∀ event ∈ later, event.isHelperCall = true := by
  cases hrender : renderToString app props with
  | error e =>
    exact ⟨[], by simp [findResultsState, hclient, hrender], by simp⟩
  | ok cs =>
    cases hreduce : getSearchParameters imports.HIGHLIGHT_TAGS props.indexName cs with
    | error e =>
      exact ⟨[], by simp [findResultsState, hclient, hrender, hreduce], by simp⟩
    | ok r =>
      have hrun := findResultsState_eq imports app props client cs r hclient hrender hreduce
      rw [hrun]
      by_cases hlen : r.derivedParameters.keys.length = 0
      · rw [if_pos hlen]
        refine ⟨[.algoliasearchHelper r.sharedParameters.index,
          .searchOnce ⟨r.sharedParameters.index, r.sharedParameters⟩], ?_, ?_⟩
        · simp [singleIndexSearch, Helper.searchOnce, algoliasearchHelper]
        · intro event hevent
          simp only [List.mem_cons, List.mem_singleton, List.not_mem_nil, or_false] at hevent
          rcases hevent with h | h <;> rw [h] <;> rfl
      · rw [if_neg hlen]
        obtain ⟨others, _, hmulti⟩ := multiIndexSearch_eq props.indexName client
          (algoliasearchHelper client r.sharedParameters.index) r.sharedParameters
          r.derivedParameters
        rw [hmulti]
        refine ⟨.algoliasearchHelper r.sharedParameters.index ::
          .searchOnce ((algoliasearchHelper client r.sharedParameters.index).searchOnce
            (r.sharedParameters.spread
              (spreadable (r.derivedParameters.get props.indexName)))).request ::
          others.flatMap (fun s =>
            [.algoliasearchHelper s.request.index, .searchOnce s.request]), ?_, ?_⟩
        · simp
        · intro event hevent
          simp only [List.mem_cons, List.mem_flatMap, List.mem_singleton, List.not_mem_nil,
            or_false] at hevent
          rcases hevent with h | h | ⟨s, _, h | h⟩ <;> rw [h] <;> rfl

/-! ## Facts about failing mutators -/

theorem foldShared_error (cs : List Contribution) (acc : SearchParameters) (e : JSError)
    (h : foldShared acc cs = .error e) :
    ∃ c ∈ cs, ∃ base, c.getSearchParameters base c.props c.searchState = .error e := by
  induction cs generalizing acc with
  | nil => cases h
  | cons c cs ih =>
    cases hs : scopeOf c with
    | some indexId =>
      simp only [foldShared, hs] at h
      obtain ⟨c', hc', hbase⟩ := ih acc h
      exact ⟨c', List.mem_cons_of_mem _ hc', hbase⟩
    | none =>
      simp only [foldShared, hs] at h
      cases hm : c.getSearchParameters (.parameters acc) c.props c.searchState with
      | error e' =>
        simp only [hm, Except.error.injEq] at h
        exact ⟨c, List.mem_cons_self _ _, .parameters acc, by rw [hm, h]⟩
      | ok next =>
        simp only [hm] at h
        obtain ⟨c', hc', hbase⟩ := ih next h
        exact ⟨c', List.mem_cons_of_mem _ hc', hbase⟩

theorem foldlM_derived_error (sharedParameters : SearchParameters)
    (cs : List Contribution) (acc : JSObject SearchParameters) (e : JSError)
    (h : (cs.filter (fun c => hasMultipleIndices c.context)).foldlM
      (derivedStep sharedParameters) acc = .error e) :
    ∃ c ∈ cs, ∃ base, c.getSearchParameters base c.props c.searchState = .error e := by
  induction cs generalizing acc with
  | nil => cases h
  | cons c cs ih =>
    cases hs : scopeOf c with
    | none =>
      have hh := hasMultipleIndices_of_scopeOf_none c hs
      simp only [List.filter_cons, hh] at h
      obtain ⟨c', hc', hbase⟩ := ih acc h
      exact ⟨c', List.mem_cons_of_mem _ hc', hbase⟩
    | some indexId0 =>
      have hh := hasMultipleIndices_of_scopeOf_some c indexId0 hs
      simp only [List.filter_cons, hh, if_true, List.foldlM_cons,
        derivedStep_of_scopeOf sharedParameters acc c indexId0 hs] at h
      cases hm : c.getSearchParameters
          (orSharedParameters (acc.get indexId0) sharedParameters) c.props c.searchState with
      | error e' =>
        simp only [hm, bind, Except.bind, Except.error.injEq] at h
        exact ⟨c, List.mem_cons_self _ _, _, by rw [hm, h]⟩
      | ok value =>
        simp only [hm, bind, Except.bind] at h
        obtain ⟨c', hc', hbase⟩ := ih (acc.set indexId0 value) h
        exact ⟨c', List.mem_cons_of_mem _ hc', hbase⟩

/-- An error of the reduction is an error thrown by the mutator of a contribution. -/
theorem getSearchParameters_error [HelperLibrary] (tags : JSObject String) (indexName : String)
    (cs : List Contribution) (e : JSError)
    (h : getSearchParameters tags indexName cs = .error e) :
    ∃ c ∈ cs, ∃ base, c.getSearchParameters base c.props c.searchState = .error e := by
  rw [getSearchParameters_eq] at h
  rw [foldlM_shared_eq_foldShared] at h
  cases hsh : foldShared (newSearchParameters (tags.set "index" indexName)) cs with
  | error e' =>
    simp only [hsh, bind, Except.bind, Except.error.injEq] at h
    rw [h] at hsh
    exact foldShared_error cs _ e hsh
  | ok shared =>
    simp only [hsh, bind, Except.bind] at h
    cases hd : (cs.filter (fun c => hasMultipleIndices c.context)).foldlM
        (derivedStep shared) JSObject.empty with
    | error e' =>
      simp only [hd, Except.error.injEq] at h
      rw [h] at hd
      exact foldlM_derived_error shared cs JSObject.empty e hd
    | ok derived =>
      simp only [hd, pure, Except.pure] at h
      cases h

theorem foldShared_ok_invoked (cs : List Contribution) (acc result : SearchParameters)
    (h : foldShared acc cs = .ok result) :
    ∀ c ∈ cs, scopeOf c = none →
      ∃ base next, c.getSearchParameters base c.props c.searchState = .ok next := by
  induction cs generalizing acc with
  | nil => intro c hc; cases hc
  | cons c cs ih =>
    intro c' hc' hs'
    cases hs : scopeOf c with
    | some indexId =>
      simp only [foldShared, hs] at h
      rcases List.mem_cons.mp hc' with rfl | hmem
      · rw [hs] at hs'
        cases hs'
      · exact ih acc h c' hmem hs'
    | none =>
      simp only [foldShared, hs] at h
      cases hm : c.getSearchParameters (.parameters acc) c.props c.searchState with
      | error e => simp [hm] at h
      | ok next =>
        simp only [hm] at h
        rcases List.mem_cons.mp hc' with rfl | hmem
        · exact ⟨_, _, hm⟩
        · exact ih next h c' hmem hs'

theorem foldlM_derived_ok_invoked (sharedParameters : SearchParameters)
    (cs : List Contribution) (acc result : JSObject SearchParameters)
    (h : (cs.filter (fun c => hasMultipleIndices c.context)).foldlM
      (derivedStep sharedParameters) acc = .ok result) :
    ∀ c ∈ cs, scopeOf c ≠ none →
      ∃ base next, c.getSearchParameters base c.props c.searchState = .ok next := by
  induction cs generalizing acc with
  | nil => intro c hc; cases hc
  | cons c cs ih =>
    intro c' hc' hs'
    cases hs : scopeOf c with
    | none =>
      have hh := hasMultipleIndices_of_scopeOf_none c hs
      simp only [List.filter_cons, hh] at h
      rcases List.mem_cons.mp hc' with rfl | hmem
      · exact absurd hs hs'
      · exact ih acc h c' hmem hs'
    | some indexId0 =>
      have hh := hasMultipleIndices_of_scopeOf_some c indexId0 hs
      simp only [List.filter_cons, hh, if_true, List.foldlM_cons,
        derivedStep_of_scopeOf sharedParameters acc c indexId0 hs] at h
      cases hm : c.getSearchParameters
          (orSharedParameters (acc.get indexId0) sharedParameters) c.props c.searchState with
      | error e =>
        simp only [hm, bind, Except.bind] at h
        cases h
      | ok value =>
        simp only [hm, bind, Except.bind] at h
        rcases List.mem_cons.mp hc' with rfl | hmem
        · exact ⟨_, _, hm⟩
        · exact ih (acc.set indexId0 value) h c' hmem hs'

/-- When the reduction returns, the mutator of every contribution has returned on the
base it was given. -/
theorem getSearchParameters_ok_invoked [HelperLibrary] (tags : JSObject String) (indexName : String)
    (cs : List Contribution) (r : Parameters)
    (h : getSearchParameters tags indexName cs = .ok r) :
    ∀ c ∈ cs, ∃ base next, c.getSearchParameters base c.props c.searchState = .ok next := by
  obtain ⟨hsh, hd⟩ := (getSearchParameters_eq_ok_iff tags indexName cs r).mp h
  intro c hc
  by_cases hs : scopeOf c = none
  · exact foldShared_ok_invoked cs _ _ hsh c hc hs
  · exact foldlM_derived_ok_invoked _ cs _ _ hd c hc hs

/-! ## Facts about rejected searches -/

theorem earliestRejection_spec (r : Nat × JSError) (rs : List (Nat × JSError)) :
    earliestRejection r rs ∈ r :: rs ∧ ∀ x ∈ r :: rs, (earliestRejection r rs).1 ≤ x.1 := by
  unfold earliestRejection
  induction rs generalizing r with
  | nil => simp
  | cons y ys ih =>
    simp only [List.foldl_cons]
    by_cases hlt : y.1 < r.1
    · simp only [hlt, if_true]
      obtain ⟨hmem, hle⟩ := ih y
      refine ⟨List.mem_cons_of_mem _ hmem, ?_⟩
      intro x hx
      rcases List.mem_cons.mp hx with rfl | hx'
      · exact Nat.le_trans (hle y (List.mem_cons_self _ _)) (Nat.le_of_lt hlt)
      · exact hle x hx'
    · simp only [hlt, if_false]
      obtain ⟨hmem, hle⟩ := ih r
      refine ⟨?_, ?_⟩
      · rcases List.mem_cons.mp hmem with h | h
        · rw [h]
          exact List.mem_cons_self _ _
        · exact List.mem_cons_of_mem _ (List.mem_cons_of_mem _ h)
      · intro x hx
        rcases List.mem_cons.mp hx with rfl | hx'
        · exact hle _ (List.mem_cons_self _ _)
        · rcases List.mem_cons.mp hx' with rfl | hx''
          · exact Nat.le_trans (hle r (List.mem_cons_self _ _)) (Nat.le_of_not_lt hlt)
          · exact hle x (List.mem_cons_of_mem _ hx'')

theorem mem_rejections {α : Type} (ps : List (Promise α)) (x : Nat × JSError) :
    x ∈ rejections ps ↔ ∃ p ∈ ps, p.outcome = .error x.2 ∧ p.settledAt = x.1 := by
  unfold rejections
  rw [List.mem_filterMap]
  constructor
  · rintro ⟨p, hp, hx⟩
    cases ho : p.outcome with
    | ok v => simp [ho] at hx
    | error e =>
      simp only [ho, Option.some.injEq] at hx
      refine ⟨p, hp, ?_, ?_⟩
      · rw [← hx]
        exact ho
      · rw [← hx]
  · rintro ⟨p, hp, ho, ht⟩
    refine ⟨p, hp, ?_⟩
    simp only [ho, ht]

theorem forall₂_left_mem {α β : Type} {R : α → β → Prop} {l₁ : List α} {l₂ : List β}
    (h : List.Forall₂ R l₁ l₂) : ∀ x ∈ l₁, ∃ y ∈ l₂, R x y := by
  induction h with
  | nil => intro x hx; cases hx
  | cons hr _ ih =>
    intro x hx
    rcases List.mem_cons.mp hx with rfl | hx'
    · exact ⟨_, List.mem_cons_self _ _, hr⟩
    · obtain ⟨y, hy, hxy⟩ := ih x hx'
      exact ⟨y, List.mem_cons_of_mem _ hy, hxy⟩

/-- `Promise.all` over promises of which one at least is rejected: it is rejected, with
the error of a rejected promise that settles no later than any other rejected one. -/
theorem all_rejected {α : Type} (ps : List (Promise α))
    (h : ∃ p ∈ ps, ∃ e, p.outcome = .error e) :
    ∃ p ∈ ps, ∃ e, p.outcome = .error e ∧ (Promise.all ps).outcome = .error e ∧
      (Promise.all ps).settledAt = p.settledAt ∧
      ∀ q ∈ ps, (∃ e', q.outcome = .error e') → p.settledAt ≤ q.settledAt := by
  obtain ⟨p₀, hp₀, e₀, he₀⟩ := h
  have hmem₀ : (p₀.settledAt, e₀) ∈ rejections ps :=
    (mem_rejections ps _).mpr ⟨p₀, hp₀, he₀, rfl⟩
  unfold Promise.all
  cases hm : ps.mapM (fun p => p.outcome) with
  | ok values =>
    obtain ⟨v, _, hv⟩ := forall₂_left_mem (mapM_outcome_forall₂ ps values hm) p₀ hp₀
    rw [he₀] at hv
    cases hv
  | error e =>
    cases hr : rejections ps with
    | nil =>
      rw [hr] at hmem₀
      cases hmem₀
    | cons r rs =>
      obtain ⟨hin, hle⟩ := earliestRejection_spec r rs
      rw [← hr] at hin hle
      obtain ⟨p, hp, ho, ht⟩ := (mem_rejections ps _).mp hin
      refine ⟨p, hp, (earliestRejection r rs).2, ho, rfl, ht.symm, ?_⟩
      intro q hq ⟨e', he'⟩
      rw [ht]
      exact hle (q.settledAt, e') ((mem_rejections ps _).mpr ⟨q, hq, he', rfl⟩)

/-- The promise returned by a multi-index resolution, from the searches it issued. -/
theorem findResultsState_multi_outcome [HelperLibrary] (imports : Imports) (app : App) (props : FindProps)
    (client : SearchClient) (cs : List Contribution) (r : Parameters)
    (hclient : props.searchClient = some client)
    (hrender : renderToString app props = .ok cs)
    (hreduce : getSearchParameters imports.HIGHLIGHT_TAGS props.indexName cs = .ok r)
    (hkeys : r.derivedParameters.keys ≠ []) :
    (findResultsState imports app (some props)).outcome =
        .returned (((Promise.all
          ((findResultsState imports app (some props)).searches.map client.search)).then
          (tagResults props.indexName (r.derivedParameters.rest props.indexName).keys)).then
          Resolution.multi) ∧
      (findResultsState imports app (some props)).searches.length =
        1 + (r.derivedParameters.rest props.indexName).keys.length := by
  have hlen : ¬ r.derivedParameters.keys.length = 0 := by
    intro h
    exact hkeys (List.length_eq_zero.mp h)
  obtain ⟨others, hall, hmulti⟩ := multiIndexSearch_eq props.indexName client
    (algoliasearchHelper client r.sharedParameters.index) r.sharedParameters
    r.derivedParameters
  have hrun := findResultsState_eq imports app props client cs r hclient hrender hreduce
  rw [if_neg hlen, hmulti] at hrun
  have hpromise : ∀ s ∈ (algoliasearchHelper client r.sharedParameters.index).searchOnce
      (r.sharedParameters.spread
        (spreadable (r.derivedParameters.get props.indexName))) :: others,
      s.promise = client.search s.request := by
    intro s hs
    rcases List.mem_cons.mp hs with rfl | hmem
    · rfl
    · obtain ⟨_, _, parameters, _, rfl⟩ := forall₂_right_mem hall s hmem
      rfl
  have hsearches : (findResultsState imports app (some props)).searches =
      ((algoliasearchHelper client r.sharedParameters.index).searchOnce
        (r.sharedParameters.spread
          (spreadable (r.derivedParameters.get props.indexName))) :: others).map
        (fun s => s.request) := by
    rw [hrun]
    simp only [Run.searches]
    rw [requestsOf_algoliaAgents, requestsOf_dispatch]
  constructor
  · rw [hsearches, List.map_map]
    rw [hrun]
    simp only
    congr 4
    apply List.map_congr_left
    intro s hs
    exact hpromise s hs
  · rw [hsearches, List.length_map, List.length_cons, hall.length_eq, Nat.add_comm]

/-! ## Facts about the buckets of the reduction -/

theorem foldScope_filter (indexId : String) (cs : List Contribution) (base : Base) :
    foldScope indexId base (cs.filter (fun c => decide (scopeOf c = some indexId))) =
      foldScope indexId base cs := by
  induction cs generalizing base with
  | nil => rfl
  | cons c cs ih =>
    by_cases hs : scopeOf c = some indexId
    · simp only [List.filter_cons, hs, decide_True, if_true, foldScope]
      cases hm : c.getSearchParameters base c.props c.searchState with
      | error e => rfl
      | ok next => exact ih (.parameters next)
    · simp only [List.filter_cons, hs, decide_False, foldScope, if_false]
      exact ih base

theorem mem_scopeIds_iff (cs : List Contribution) (indexId : String) :
    indexId ∈ scopeIds cs ↔ cs.filter (fun c => decide (scopeOf c = some indexId)) ≠ [] := by
  unfold scopeIds
  rw [List.mem_filterMap]
  constructor
  · rintro ⟨c, hc, hs⟩ hnil
    have : c ∈ cs.filter (fun c => decide (scopeOf c = some indexId)) :=
      List.mem_filter.mpr ⟨hc, by simpa using hs⟩
    rw [hnil] at this
    cases this
  · intro hne
    obtain ⟨c, hc⟩ := List.exists_mem_of_ne_nil _ hne
    obtain ⟨hmem, hs⟩ := List.mem_filter.mp hc
    exact ⟨c, hmem, by simpa using hs⟩

/-- The derived reduction returns when the fold of every scope identifier does. -/
theorem foldlM_derived_of_foldScope (sharedParameters : SearchParameters)
    (cs : List Contribution) (acc : JSObject SearchParameters)
    (h : ∀ indexId, ∃ base,
      foldScope indexId (orSharedParameters (acc.get indexId) sharedParameters) cs =
        .ok base) :
    ∃ result, (cs.filter (fun c => hasMultipleIndices c.context)).foldlM
      (derivedStep sharedParameters) acc = .ok result := by
  induction cs generalizing acc with
  | nil => exact ⟨acc, rfl⟩
  | cons c cs ih =>
    cases hs : scopeOf c with
    | none =>
      have hh := hasMultipleIndices_of_scopeOf_none c hs
      simp only [List.filter_cons, hh]
      apply ih acc
      intro indexId
      obtain ⟨base, hbase⟩ := h indexId
      simp only [foldScope, hs] at hbase
      exact ⟨base, hbase⟩
    | some indexId0 =>
      have hh := hasMultipleIndices_of_scopeOf_some c indexId0 hs
      simp only [List.filter_cons, hh, if_true, List.foldlM_cons,
        derivedStep_of_scopeOf sharedParameters acc c indexId0 hs]
      obtain ⟨base0, hbase0⟩ := h indexId0
      simp only [foldScope, hs, if_true] at hbase0
      cases hm : c.getSearchParameters
          (orSharedParameters (acc.get indexId0) sharedParameters) c.props c.searchState with
      | error e => simp [hm] at hbase0
      | ok value =>
        simp only [hm] at hbase0
        simp only [bind, Except.bind]
        apply ih (acc.set indexId0 value)
        intro indexId
        by_cases hid : indexId = indexId0
        · subst hid
          refine ⟨base0, ?_⟩
          simpa [JSObject.get_set, orSharedParameters] using hbase0
        · obtain ⟨base, hbase⟩ := h indexId
          have hne : ¬ some indexId0 = some indexId :=
            fun h' => hid (Option.some.inj h').symm
          simp only [foldScope, hs, hne, if_false] at hbase
          refine ⟨base, ?_⟩
          simpa [JSObject.get_set, hid] using hbase

/-! ## Facts about the log of the reduction -/

theorem reduceTraced_positions {α : Type} (callback : α → Nat × Contribution → Traced α)
    (entries : List (Nat × Contribution))
    (h : ∀ acc, ∀ entry ∈ entries,
      (callback acc entry).invocations.map (fun i => i.position) = [entry.1])
    (acc : α) :
    (reduceTraced callback acc entries).invocations.map (fun i => i.position) <+:
        entries.map Prod.fst ∧
      ∀ result, (reduceTraced callback acc entries).result = .ok result →
        (reduceTraced callback acc entries).invocations.map (fun i => i.position) =
          entries.map Prod.fst := by
  induction entries generalizing acc with
  | nil =>
    simp [reduceTraced]
  | cons entry entries ih =>
    have hentry := h acc entry (List.mem_cons_self _ _)
    have hrest : ∀ acc, ∀ entry' ∈ entries,
        (callback acc entry').invocations.map (fun i => i.position) = [entry'.1] :=
      fun acc entry' hmem => h acc entry' (List.mem_cons_of_mem _ hmem)
    simp only [reduceTraced, List.map_cons]
    rcases hcb : callback acc entry with ⟨log, e | next⟩
    · rw [hcb] at hentry
      simp only at hentry ⊢
      rw [hentry]
      refine ⟨?_, ?_⟩
      · exact List.cons_prefix_cons.mpr ⟨rfl, List.nil_prefix⟩
      · intro result hresult
        cases hresult
    · rw [hcb] at hentry
      simp only at hentry ⊢
      obtain ⟨hstart, hall⟩ := ih hrest next
      rw [List.map_append, hentry]
      refine ⟨?_, ?_⟩
      · exact List.cons_prefix_cons.mpr ⟨rfl, hstart⟩
      · intro result hresult
        rw [hall result hresult]
        rfl

theorem getIndexId_of_hasMultipleIndices (context : Option Context)
    (h : hasMultipleIndices context = true) : ∃ indexId, getIndexId context = .ok indexId := by
  unfold hasMultipleIndices at h
  unfold getIndexId
  rcases context with _ | ⟨ais, _ | m⟩
  · cases h
  · cases h
  · exact ⟨m.targetedIndex, by cases ais <;> rfl⟩

theorem bucketPositions_perm (cs : List Contribution) :
    (bucketPositions cs).Perm (List.range cs.length) := by
  unfold bucketPositions
  rw [← List.map_append, ← List.enum_map_fst cs]
  apply List.Perm.map
  have h := List.filter_append_perm (fun entry : Nat × Contribution =>
    hasMultipleIndices entry.2.context) cs.enum
  exact List.perm_append_comm.trans h

/-- The log of the reduction: the mutators called are those at the first positions of
`bucketPositions`, in that order, and all of them when the reduction returns. -/
theorem getSearchParametersTraced_positions [HelperLibrary] (tags : JSObject String) (indexName : String)
    (cs : List Contribution) :
    (getSearchParametersTraced tags indexName cs).invocations.map (fun i => i.position) <+:
        bucketPositions cs ∧
      ∀ r, (getSearchParametersTraced tags indexName cs).result = .ok r →
        (getSearchParametersTraced tags indexName cs).invocations.map (fun i => i.position) =
          bucketPositions cs := by
  have hshared := reduceTraced_positions sharedStepTraced
    (cs.enum.filter (fun entry => !hasMultipleIndices entry.2.context))
    (fun _ _ _ => rfl) (newSearchParameters (tags.set "index" indexName))
  unfold getSearchParametersTraced bucketPositions
  simp only
  cases hres : (reduceTraced sharedStepTraced (newSearchParameters (tags.set "index" indexName))
      (cs.enum.filter (fun entry => !hasMultipleIndices entry.2.context))).result with
  | error e =>
    simp only
    refine ⟨hshared.1.trans (List.prefix_append _ _), ?_⟩
    intro r hr
    cases hr
  | ok shared =>
    simp only
    have hderived := reduceTraced_positions (derivedStepTraced shared)
      (cs.enum.filter (fun entry => hasMultipleIndices entry.2.context))
      (by
        intro acc entry hentry
        obtain ⟨indexId, hindex⟩ := getIndexId_of_hasMultipleIndices entry.2.context
          (List.mem_filter.mp hentry).2
        simp only [derivedStepTraced, hindex, Contribution.invoke, List.map_cons,
          List.map_nil])
      JSObject.empty
    rw [List.map_append, hshared.2 shared hres]
    refine ⟨(List.prefix_append_right_inj _).mpr hderived.1, ?_⟩
    intro r hr
    cases hd : (reduceTraced (derivedStepTraced shared) JSObject.empty
        (cs.enum.filter (fun entry => hasMultipleIndices entry.2.context))).result with
    | error e =>
      rw [hd] at hr
      cases hr
    | ok derived =>
      rw [hderived.2 derived hd]

/-- A call of the collector that returns has appended one contribution at the end of the
accumulator, made of the arguments of the call and of the index that `getIndexId` gives
for the context, and has left the earlier entries as they were. The index depends on the
context alone: it is `context.multiIndexContext.targetedIndex` when the context carries a
multi-index scope, and `context.ais.mainTargetedIndex` when it carries none and has
`ais`; in these two cases the call returns. It throws the `TypeError` of the read of
`ais`, and records nothing, when there is no context, and the one of the read of
`mainTargetedIndex` when the context has neither of the two. -/
theorem createSearchParametersCollector_appends (accumulator : List Contribution)
    (call : WidgetCall) :
    (∀ result, createSearchParametersCollector accumulator call = .ok result →
      ∃ index, getIndexId call.context = .ok index ∧
        result = accumulator ++
          [⟨call.getWidgetSearchParameters, index, call.context, call.props,
            call.searchState⟩] ∧
        result.length = accumulator.length + 1 ∧
        result.take accumulator.length = accumulator) ∧
    (∀ ais multiIndexContext, call.context = some ⟨ais, some multiIndexContext⟩ →
      createSearchParametersCollector accumulator call =
        .ok (accumulator ++
          [⟨call.getWidgetSearchParameters, multiIndexContext.targetedIndex, call.context,
            call.props, call.searchState⟩])) ∧
    (∀ ais, call.context = some ⟨some ais, none⟩ →
      createSearchParametersCollector accumulator call =
        .ok (accumulator ++
          [⟨call.getWidgetSearchParameters, ais.mainTargetedIndex, call.context,
            call.props, call.searchState⟩])) ∧
    (call.context = none →
      createSearchParametersCollector accumulator call =
        .error (typeErrorReadOfUndefined "ais")) ∧
    (call.context = some ⟨none, none⟩ →
      createSearchParametersCollector accumulator call =
        .error (typeErrorReadOfUndefined "mainTargetedIndex")) := by
  refine ⟨?_, ?_, ?_, ?_, ?_⟩
  · intro result h
    unfold createSearchParametersCollector at h
    cases hindex : getIndexId call.context with
    | error e =>
      simp only [hindex, bind, Except.bind] at h
      cases h
    | ok index =>
      simp only [hindex, bind, Except.bind, pure, Except.pure, Except.ok.injEq] at h
      refine ⟨index, rfl, h.symm, ?_, ?_⟩
      · rw [← h]
        simp
      · rw [← h]
        simp
  · intro ais multiIndexContext hcontext
    simp [createSearchParametersCollector, hcontext, getIndexId, bind, Except.bind, pure,
      Except.pure]
  · intro ais hcontext
    simp [createSearchParametersCollector, hcontext, getIndexId, bind, Except.bind, pure,
      Except.pure]
  · intro hcontext
    simp only [createSearchParametersCollector, hcontext, getIndexId, bind, Except.bind]
  · intro hcontext
    simp only [createSearchParametersCollector, hcontext, getIndexId, bind, Except.bind]

theorem foldlM_collector (calls : List WidgetCall) (acc result : List Contribution)
    (h : calls.foldlM createSearchParametersCollector acc = .ok result) :
    ∃ recorded, result = acc ++ recorded ∧ recorded.map Contribution.call = calls ∧
      ∀ c ∈ recorded, getIndexId c.context = .ok c.index := by
  induction calls generalizing acc with
  | nil =>
    simp only [List.foldlM_nil, pure, Except.pure, Except.ok.injEq] at h
    exact ⟨[], by simp [h], rfl, fun c hc => by cases hc⟩
  | cons call calls ih =>
    rw [List.foldlM_cons] at h
    unfold createSearchParametersCollector at h
    cases hindex : getIndexId call.context with
    | error e =>
      simp only [hindex, bind, Except.bind] at h
      cases h
    | ok index =>
      simp only [hindex, bind, Except.bind, pure, Except.pure] at h
      obtain ⟨recorded, hresult, hcalls, hindices⟩ := ih _ h
      refine ⟨⟨call.getWidgetSearchParameters, index, call.context, call.props,
        call.searchState⟩ :: recorded, ?_, ?_, ?_⟩
      · rw [hresult, List.append_assoc]
        rfl
      · rw [List.map_cons, hcalls]
        rfl
      · intro c hc
        rcases List.mem_cons.mp hc with rfl | hmem
        · exact hindex
        · exact hindices c hmem

/-- The accumulator after the render pass holds the calls of that render pass, one
contribution for each call, in order, and nothing else. -/
theorem renderToString_calls (app : App) (props : FindProps) (cs : List Contribution)
    (h : renderToString app props = .ok cs) :
    app props = .ok (cs.map Contribution.call) ∧
      ∀ c ∈ cs, getIndexId c.context = .ok c.index := by
  unfold renderToString at h
  cases hcalls : app props with
  | error e =>
    simp only [hcalls, bind, Except.bind] at h
    cases h
  | ok calls =>
    simp only [hcalls, bind, Except.bind] at h
    obtain ⟨recorded, hresult, hmap, hindices⟩ := foldlM_collector calls [] cs h
    rw [List.nil_append] at hresult
    subst hresult
    exact ⟨by rw [hmap], hindices⟩

theorem foldScope_query (indexId : String) (cs : List Contribution) (start : SearchParameters)
    (base : Base)
    (hkeep : ∀ c ∈ cs, scopeOf c = some indexId → ∀ p next,
      c.getSearchParameters (.parameters p) c.props c.searchState = .ok next →
        next.query = p.query)
    (h : foldScope indexId (.parameters start) cs = .ok base) :
    ∃ p, base = .parameters p ∧ p.query = start.query := by
  induction cs generalizing start with
  | nil =>
    simp only [foldScope, Except.ok.injEq] at h
    exact ⟨start, h.symm, rfl⟩
  | cons c cs ih =>
    have hrest : ∀ c' ∈ cs, scopeOf c' = some indexId → ∀ p next,
        c'.getSearchParameters (.parameters p) c'.props c'.searchState = .ok next →
          next.query = p.query :=
      fun c' hc' => hkeep c' (List.mem_cons_of_mem _ hc')
    by_cases hs : scopeOf c = some indexId
    · simp only [foldScope, hs, if_true] at h
      cases hm : c.getSearchParameters (.parameters start) c.props c.searchState with
      | error e => simp [hm] at h
      | ok next =>
        simp only [hm] at h
        obtain ⟨p, hp, hq⟩ := ih next hrest h
        exact ⟨p, hp, hq.trans (hkeep c (List.mem_cons_self _ _) hs start next hm)⟩
    · simp only [foldScope, hs, if_false] at h
      exact ih start hrest h

/-- The query of the shared parameters is the query of the derived entry of a scope
identifier that names no member of `Object.prototype` and whose mutators keep the
query. -/
theorem getSearchParameters_query_propagates [HelperLibrary] (tags : JSObject String) (indexName : String)
    (cs : List Contribution) (r : Parameters)
    (h : getSearchParameters tags indexName cs = .ok r) (indexId : String)
    (hmem : indexId ∈ scopeIds cs) (hproto : indexId ∉ objectPrototypeKeys)
    (hkeep : ∀ c ∈ cs, scopeOf c = some indexId → ∀ p next,
      c.getSearchParameters (.parameters p) c.props c.searchState = .ok next →
        next.query = p.query) :
    ∃ p, r.derivedParameters.getOwn indexId = some p ∧ p.query = r.sharedParameters.query := by
  have hd := ((getSearchParameters_eq_ok_iff tags indexName cs r).mp h).2
  have hfold := foldlM_derived_foldScope r.sharedParameters cs JSObject.empty
    r.derivedParameters hd indexId
  have hkeys := (foldlM_derived_mem_keys r.sharedParameters cs JSObject.empty
    r.derivedParameters hd indexId).mpr (Or.inr hmem)
  obtain ⟨p, hp⟩ := (JSObject.mem_keys_iff _ _).mp hkeys
  have hstart : orSharedParameters ((JSObject.empty : JSObject SearchParameters).get indexId)
      r.sharedParameters = .parameters r.sharedParameters := by
    simp [JSObject.get, JSObject.getOwn, JSObject.empty, hproto, orSharedParameters]
  have hend : orSharedParameters (r.derivedParameters.get indexId) r.sharedParameters =
      .parameters p := by
    simp [JSObject.get, hp, orSharedParameters]
  rw [hstart, hend] at hfold
  obtain ⟨p', hp', hq⟩ := foldScope_query indexId cs r.sharedParameters _ hkeep hfold
  cases hp'
  exact ⟨p, hp, hq⟩

/-! ## The claims -/

/-- C1 (the code departs from the claim): under the scope identifier `constructor` the
first mutator of the scope is not given the final shared parameters but the member
`constructor` that the empty accumulator inherits from `Object.prototype`; with the
widget of the test suite the reduction throws, where the fold of the claim, started from
the final shared parameters, gives the shared parameters with the query `Apple`. -/
theorem getSearchParameters_constructor_scope [HelperLibrary] :
    getSearchParameters highlightTags "main" [scopedContribution "main" "constructor"] =
        .error typeErrorSetQuery ∧
      foldShared (newSearchParameters (highlightTags.set "index" "main"))
          [scopedContribution "main" "constructor"] =
        .ok (newSearchParameters (highlightTags.set "index" "main")) ∧
      foldScope "constructor"
          (.parameters (newSearchParameters (highlightTags.set "index" "main")))
          [scopedContribution "main" "constructor"] =
        .ok (.parameters
          ((newSearchParameters (highlightTags.set "index" "main")).setQuery "Apple")) := by
  refine ⟨rfl, rfl, rfl⟩

/-- C2: the shared parameters returned by `getSearchParameters` are the left-to-right
fold `acc = mutate(acc, props, searchState)` over the contributions without scope, in
traversal order, from the parameter set that the library makes of the object
`{...HIGHLIGHT_TAGS, index: indexName}`, whose fields are the highlighting tags and
`index = indexName` and whose index is `indexName`. The scoped contributions take no part
in it, a failure of that fold is the failure of the reduction, the reduction returns when
no mutator throws on a parameter set and no scope identifier names a member of
`Object.prototype`, and the index of the shared parameters is `indexName` when no mutator
of a contribution without scope changes the index. -/
theorem getSearchParameters_sharedParameters [HelperLibrary] (tags : JSObject String)
    (indexName : String) (cs : List Contribution) :
    (tags.set "index" indexName).getOwn "index" = some indexName ∧
    (∀ field, field ≠ "index" →
      (tags.set "index" indexName).getOwn field = tags.getOwn field) ∧
    (newSearchParameters (tags.set "index" indexName)).index = some indexName ∧
    (∀ e, foldShared (newSearchParameters (tags.set "index" indexName)) cs = .error e →
      getSearchParameters tags indexName cs = .error e) ∧
    ((∀ c ∈ cs, ∀ p, ∃ next,
        c.getSearchParameters (.parameters p) c.props c.searchState = .ok next) →
      (∀ indexId ∈ scopeIds cs, indexId ∉ objectPrototypeKeys) →
      ∃ r, getSearchParameters tags indexName cs = .ok r) ∧
    (∀ r, getSearchParameters tags indexName cs = .ok r →
      foldShared (newSearchParameters (tags.set "index" indexName)) cs =
          .ok r.sharedParameters ∧
        foldShared (newSearchParameters (tags.set "index" indexName))
            (cs.filter (fun c => !hasMultipleIndices c.context)) =
          .ok r.sharedParameters ∧
        ((∀ c ∈ cs, scopeOf c = none → ∀ p next,
            c.getSearchParameters (.parameters p) c.props c.searchState = .ok next →
              next.index = p.index) →
          r.sharedParameters.index = some indexName)) := by
  have hgiven : (tags.set "index" indexName).getOwn "index" = some indexName := by
    simp [JSObject.getOwn_set]
  have hindex : (newSearchParameters (tags.set "index" indexName)).index = some indexName :=
    HelperLibrary.index_newSearchParameters _ _ hgiven
  refine ⟨hgiven, ?_, hindex, (getSearchParameters_shared tags indexName cs).1,
    getSearchParameters_returns tags indexName cs, ?_⟩
  · intro field hfield
    simp [JSObject.getOwn_set, hfield]
  · intro r hr
    have hfold := (getSearchParameters_shared tags indexName cs).2 r hr
    refine ⟨hfold, ?_, ?_⟩
    · rw [foldShared_filter]
      exact hfold
    · intro hkeep
      rw [foldShared_index cs _ _ hkeep hfold]
      exact hindex

/-- C2 at the tree of the test `single index / without search state`: the one widget
sets the query and keeps the index, so the shared parameters have the index
`indexName`. -/
theorem getSearchParameters_sharedParameters_witness :
    ((newSearchParameters (highlightTags.set "index" "indexName")).setQuery "Apple").index =
      some "indexName" :=
  ((getSearchParameters_sharedParameters highlightTags "indexName"
      [mainContribution "indexName"]).2.2.2.2.2
    ⟨(newSearchParameters (highlightTags.set "index" "indexName")).setQuery "Apple",
      JSObject.empty⟩ rfl).2.2
    (by
      intro c hc _ p next hnext
      simp only [List.mem_singleton] at hc
      subst hc
      simp only [mainContribution, recorded, connected, coolConnector, mainContext,
        noSearchState, orElseString, Except.ok.injEq] at hnext
      rw [← hnext]
      simp [SearchParameters.index, SearchParameters.setQuery, JSObject.getOwn_set])

/-- C3 (counterexample): with the widgets of the tree of the test
`without search state - first API` and the default index name `index1`, the two scope
identifiers `index1` and `index2` are recorded and the call resolves to a sequence of
length 2, not 1 + 2. -/
theorem findResultsState_length_counterexample :
    ∃ cs results,
      renderToString firstApiApp ⟨"index1", some echoClient⟩ = .ok cs ∧
      scopeIds cs = ["index1", "index2"] ∧
      (findResultsState someImports firstApiApp (some ⟨"index1", some echoClient⟩)).resolved =
        some (.multi results) ∧
      results.length = 2 ∧
      results.length ≠ 1 + (scopeIds cs).toFinset.card :=
  ⟨_, _, rfl, rfl, rfl, rfl, by decide⟩

/-- C3 (amended): when at least one scoped contribution was recorded, whatever
`findResultsState` resolves to is a sequence whose length is 1 + the number of distinct
scope identifiers recorded that differ from the default index name; and it resolves to
such a sequence when no mutator throws on a parameter set, no scope identifier names a
member of `Object.prototype` and every search is fulfilled. -/
theorem findResultsState_multi_length [HelperLibrary] (imports : Imports) (app : App) (props : FindProps)
    (client : SearchClient) (cs : List Contribution)
    (hclient : props.searchClient = some client)
    (hrender : renderToString app props = .ok cs)
    (hscoped : scopeIds cs ≠ []) :
    (∀ resolution, (findResultsState imports app (some props)).resolved = some resolution →
      ∃ results, resolution = .multi results ∧
        results.length =
          1 + ((scopeIds cs).filter
            (fun indexId => decide (indexId ≠ props.indexName))).toFinset.card) ∧
    ((∀ c ∈ cs, ∀ p, ∃ next,
        c.getSearchParameters (.parameters p) c.props c.searchState = .ok next) →
      (∀ indexId ∈ scopeIds cs, indexId ∉ objectPrototypeKeys) →
      (∀ request, ∃ value, (client.search request).outcome = .ok value) →
      ∃ results,
        (findResultsState imports app (some props)).resolved = some (.multi results)) := by
  constructor
  · intro resolution hres
    cases hreduce : getSearchParameters imports.HIGHLIGHT_TAGS props.indexName cs with
    | error e =>
      simp [findResultsState, hclient, hrender, hreduce, Run.resolved] at hres
    | ok r =>
      have hkeys : r.derivedParameters.keys ≠ [] := fun h =>
        hscoped ((derivedParameters_keys_eq_nil_iff _ _ cs r hreduce).mp h)
      obtain ⟨others, _, _, hresolved⟩ :=
        findResultsState_multi imports app props client cs r hclient hrender hreduce hkeys
      obtain ⟨values, _, hval⟩ := (hresolved resolution).mp hres
      refine ⟨_, hval, ?_⟩
      rw [length_tagResults]
      obtain ⟨hnodup, hmem⟩ := rest_keys_spec _ _ cs r hreduce
      rw [← List.toFinset_card_of_nodup hnodup]
      congr 2
      ext indexId
      simp only [List.mem_toFinset, hmem, List.mem_filter, decide_eq_true_eq]
  · intro hok hids hfulfilled
    obtain ⟨r, hreduce⟩ :=
      getSearchParameters_returns imports.HIGHLIGHT_TAGS props.indexName cs hok hids
    have hkeys : r.derivedParameters.keys ≠ [] := fun h =>
      hscoped ((derivedParameters_keys_eq_nil_iff _ _ cs r hreduce).mp h)
    obtain ⟨others, hall, _, hresolved⟩ :=
      findResultsState_multi imports app props client cs r hclient hrender hreduce hkeys
    obtain ⟨values, hvalues⟩ := mapM_outcome_of_fulfilled
      (((algoliasearchHelper client r.sharedParameters.index).searchOnce
        (r.sharedParameters.spread
          (spreadable (r.derivedParameters.get props.indexName))) :: others).map
        (fun s => s.promise))
      (by
        intro q hq
        obtain ⟨issued, hissued, rfl⟩ := List.mem_map.mp hq
        rcases List.mem_cons.mp hissued with rfl | hmem
        · exact hfulfilled _
        · obtain ⟨_, _, parameters, _, rfl⟩ := forall₂_right_mem hall issued hmem
          exact hfulfilled _)
    exact ⟨_, (hresolved _).mpr ⟨values, hvalues, rfl⟩⟩

/-- C3 (amended) at the widgets of the tree of the test `without search state - first API`: the call
resolves to a sequence. -/
theorem findResultsState_multi_length_witness :
    ∃ results,
      (findResultsState someImports firstApiApp (some ⟨"index1", some echoClient⟩)).resolved =
        some (.multi results) :=
  (findResultsState_multi_length someImports firstApiApp ⟨"index1", some echoClient⟩
    echoClient
    [scopedContribution "index1" "index1", scopedContribution "index1" "index2"]
    rfl rfl (by decide)).2
    (by
      intro c hc p
      simp only [List.mem_cons, List.mem_singleton, List.not_mem_nil, or_false] at hc
      rcases hc with rfl | rfl <;> exact ⟨_, rfl⟩)
    (by decide)
    (fun request => ⟨_, rfl⟩)

/-- C4 (counterexample): with a widget under `<Index indexId="2">` followed by a widget
under `<Index indexId="1">` and the default index name `main`, the scope identifiers are
first met in the order `2`, `1`, and the sequence resolved is tagged `main`, `1`, `2`. -/
theorem findResultsState_order_counterexample :
    ∃ cs results,
      renderToString numberedScopesApp ⟨"main", some echoClient⟩ = .ok cs ∧
      scopeIds cs = ["2", "1"] ∧
      (findResultsState someImports numberedScopesApp
        (some ⟨"main", some echoClient⟩)).resolved = some (.multi results) ∧
      results.map (fun t => t._internalIndexId) = ["main", "1", "2"] ∧
      results.map (fun t => t._internalIndexId) ≠
        "main" :: (firstEncountered (scopeIds cs)).filter (fun indexId =>
          decide (indexId ≠ "main")) :=
  ⟨_, _, rfl, rfl, rfl, rfl, by decide⟩

/-- C4 (amended): the sequence of a multi-index resolution is tagged, in order, by the
dispatch list: the default index name, then the keys of the derived mapping without the
entry of the default index name, whatever the instants at which the searches settle.
Those keys are the scope identifiers other than the default index name, each once: first
the ones that are array indices, in ascending numeric order, then the other ones in the
order in which they are first met during the traversal. When no scope identifier is an
array index, they all come in the order in which they are first met. -/
theorem findResultsState_multi_order [HelperLibrary] (imports : Imports) (app : App) (props : FindProps)
    (client : SearchClient) (cs : List Contribution) (r : Parameters)
    (hclient : props.searchClient = some client)
    (hrender : renderToString app props = .ok cs)
    (hreduce : getSearchParameters imports.HIGHLIGHT_TAGS props.indexName cs = .ok r)
    (hscoped : scopeIds cs ≠ []) :
    (∀ results,
      (findResultsState imports app (some props)).resolved = some (.multi results) →
        results.map (fun t => t._internalIndexId) =
          props.indexName :: (r.derivedParameters.rest props.indexName).keys) ∧
    (r.derivedParameters.rest props.indexName).keys.Nodup ∧
    (∀ indexId, indexId ∈ (r.derivedParameters.rest props.indexName).keys ↔
      indexId ∈ scopeIds cs ∧ indexId ≠ props.indexName) ∧
    (r.derivedParameters.rest props.indexName).keys =
      (r.derivedParameters.rest props.indexName).keys.filter isArrayIndex ++
        (firstEncountered (scopeIds cs)).filter (fun indexId =>
          !isArrayIndex indexId && decide (indexId ≠ props.indexName)) ∧
    ((r.derivedParameters.rest props.indexName).keys.filter isArrayIndex).Pairwise
      (fun a b => arrayIndexValue a < arrayIndexValue b) ∧
    ((∀ indexId ∈ scopeIds cs, isArrayIndex indexId = false) →
      (r.derivedParameters.rest props.indexName).keys =
        (firstEncountered (scopeIds cs)).filter (fun indexId =>
          decide (indexId ≠ props.indexName))) := by
  have hkeys : r.derivedParameters.keys ≠ [] := fun h =>
    hscoped ((derivedParameters_keys_eq_nil_iff _ _ cs r hreduce).mp h)
  obtain ⟨hnodup, hmem⟩ := rest_keys_spec _ _ cs r hreduce
  have hfold := ((getSearchParameters_eq_ok_iff _ _ cs r).mp hreduce).2
  have hpairwise : (r.derivedParameters.rest props.indexName).keys.Pairwise
      enumeratedBefore := by
    rw [JSObject.keys_rest]
    exact (foldlM_derived_pairwise_keys r.sharedParameters cs JSObject.empty
      r.derivedParameters hfold (by simp [JSObject.keys, JSObject.empty])).filter _
  refine ⟨?_, hnodup, hmem, ?_, JSObject.pairwise_filter_of_pairwise _ hpairwise, ?_⟩
  · intro results hres
    obtain ⟨others, _, _, hresolved⟩ :=
      findResultsState_multi imports app props client cs r hclient hrender hreduce hkeys
    obtain ⟨values, _, hval⟩ := (hresolved _).mp hres
    cases hval
    exact map_internalIndexId_tagResults _ _ _
  · have hsplit := JSObject.eq_filter_append_of_pairwise _ hpairwise
    have hothers := foldlM_derived_filter_keys r.sharedParameters cs JSObject.empty
      r.derivedParameters hfold
    have hrest : (r.derivedParameters.rest props.indexName).keys.filter
        (fun y => !isArrayIndex y) =
        (firstEncountered (scopeIds cs)).filter (fun indexId =>
          !isArrayIndex indexId && decide (indexId ≠ props.indexName)) := by
      rw [JSObject.keys_rest, List.filter_filter]
      have hcomm : r.derivedParameters.keys.filter
          (fun a => (!isArrayIndex a) && !decide (a = props.indexName)) =
          (r.derivedParameters.keys.filter (fun y => !isArrayIndex y)).filter
            (fun a => !decide (a = props.indexName)) := by
        rw [List.filter_filter]
        apply List.filter_congr
        intro a _
        exact Bool.and_comm _ _
      rw [hcomm, hothers]
      simp only [JSObject.keys, JSObject.empty, List.map_nil, List.filter_nil,
        List.nil_append, List.not_mem_nil, not_false_eq_true, decide_True, Bool.and_true,
        List.filter_filter]
      apply List.filter_congr
      intro a _
      by_cases h : a = props.indexName <;> simp [h]
    rw [← hrest]
    exact hsplit
  · intro hids
    have hk := foldlM_derived_keys r.sharedParameters cs JSObject.empty r.derivedParameters
      hfold hids
    rw [JSObject.keys_rest, hk]
    simp only [JSObject.keys, JSObject.empty, List.map_nil, List.not_mem_nil,
      not_false_eq_true, decide_True, List.filter_true, List.nil_append]
    apply List.filter_congr
    intro indexId _
    by_cases h : indexId = props.indexName <;> simp [h]

/-- C4 (amended) at a tree with a widget under each of `<Index indexId="b">`,
`<Index indexId="1">`, `<Index indexId="a">` and `<Index indexId="0">`, in this order,
and the default index name `main`: the sequence resolved is tagged `main`, `0`, `1`, `b`,
`a`. -/
theorem findResultsState_multi_order_witness :
    scopeIds [scopedContribution "main" "b", scopedContribution "main" "1",
      scopedContribution "main" "a", scopedContribution "main" "0"] = ["b", "1", "a", "0"] ∧
    ∀ results,
      (findResultsState someImports mixedScopesApp
        (some ⟨"main", some echoClient⟩)).resolved = some (.multi results) →
      results.map (fun t => t._internalIndexId) = ["main", "0", "1", "b", "a"] :=
  ⟨rfl, fun results hres =>
    ((findResultsState_multi_order someImports mixedScopesApp ⟨"main", some echoClient⟩
      echoClient
      [scopedContribution "main" "b", scopedContribution "main" "1",
        scopedContribution "main" "a", scopedContribution "main" "0"]
      ⟨newSearchParameters (highlightTags.set "index" "main"),
        (((JSObject.empty.set "b"
          ((newSearchParameters (highlightTags.set "index" "main")).setQuery "Apple")).set "1"
          ((newSearchParameters (highlightTags.set "index" "main")).setQuery "Apple")).set "a"
          ((newSearchParameters (highlightTags.set "index" "main")).setQuery "Apple")).set "0"
          ((newSearchParameters (highlightTags.set "index" "main")).setQuery "Apple")⟩
      rfl rfl rfl (by decide)).1 results hres).trans rfl⟩

/-- C5: once the render pass and the reduction have returned, the derived mapping has no
key exactly when no scoped contribution was recorded; in that case `findResultsState`
issues one search, the shared parameters on a helper bound to `sharedParameters.index`,
and returns the promise of that search, resolved to its result as it is; and a call
resolves to a sequence exactly when the derived mapping has a key. -/
theorem findResultsState_single [HelperLibrary] (imports : Imports) (app : App) (props : FindProps)
    (client : SearchClient) (cs : List Contribution) (r : Parameters)
    (hclient : props.searchClient = some client)
    (hrender : renderToString app props = .ok cs)
    (hreduce : getSearchParameters imports.HIGHLIGHT_TAGS props.indexName cs = .ok r) :
    (r.derivedParameters.keys = [] ↔ scopeIds cs = []) ∧
    (scopeIds cs = [] →
      (findResultsState imports app (some props)).searches =
          [⟨r.sharedParameters.index, r.sharedParameters⟩] ∧
        (findResultsState imports app (some props)).outcome =
          .returned ((client.search ⟨r.sharedParameters.index, r.sharedParameters⟩).then
            Resolution.single)) ∧
    (∀ resolution, (findResultsState imports app (some props)).resolved = some resolution →
      ((∃ results, resolution = .multi results) ↔ r.derivedParameters.keys ≠ [])) := by
  have hiff := derivedParameters_keys_eq_nil_iff _ _ cs r hreduce
  have hrun := findResultsState_eq imports app props client cs r hclient hrender hreduce
  refine ⟨hiff, ?_, ?_⟩
  · intro hnone
    have hlen : r.derivedParameters.keys.length = 0 :=
      List.length_eq_zero.mpr (hiff.mpr hnone)
    rw [if_pos hlen] at hrun
    rw [hrun]
    constructor
    · simp only [Run.searches]
      rw [requestsOf_algoliaAgents]
      rfl
    · rfl
  · intro resolution hres
    by_cases hkeys : r.derivedParameters.keys = []
    · have hlen : r.derivedParameters.keys.length = 0 := List.length_eq_zero.mpr hkeys
      rw [if_pos hlen] at hrun
      rw [hrun] at hres
      simp only [Run.resolved, singleIndexSearch, Promise.then, Helper.searchOnce,
        algoliasearchHelper] at hres
      cases hsearch : (client.search
          ⟨r.sharedParameters.index, r.sharedParameters⟩).outcome with
      | error e =>
        simp [hsearch, Except.map] at hres
      | ok value =>
        simp only [hsearch, Except.map, Option.some.injEq] at hres
        rw [← hres]
        simp [hkeys]
    · obtain ⟨others, _, _, hresolved⟩ :=
        findResultsState_multi imports app props client cs r hclient hrender hreduce hkeys
      obtain ⟨values, _, hval⟩ := (hresolved _).mp hres
      simp only [ne_eq, hkeys, not_false_eq_true, iff_true]
      exact ⟨_, hval⟩

/-- C5 at the tree of the test `single index / without search state`: one search is
issued, with the shared parameters. -/
theorem findResultsState_single_witness :
    (findResultsState someImports singleIndexApp (some ⟨"indexName", some echoClient⟩)).searches =
      [⟨some "indexName",
        (newSearchParameters (highlightTags.set "index" "indexName")).setQuery "Apple"⟩] :=
  ((findResultsState_single someImports singleIndexApp ⟨"indexName", some echoClient⟩
    echoClient [mainContribution "indexName"]
    ⟨(newSearchParameters (highlightTags.set "index" "indexName")).setQuery "Apple",
      JSObject.empty⟩
    rfl rfl rfl).2.1 rfl).1

/-- C6: in a multi-index resolution the first search is made on the helper bound to
`sharedParameters.index` with the shared parameters overridden field by field by the
derived entry of the default index name when there is one, and with the shared
parameters as they are otherwise; the default index name is not among the keys of the
remaining searches, which are one for each other key of the derived mapping, in order,
with the entry of that key. -/
theorem findResultsState_first_request [HelperLibrary] (imports : Imports) (app : App) (props : FindProps)
    (client : SearchClient) (cs : List Contribution) (r : Parameters)
    (hclient : props.searchClient = some client)
    (hrender : renderToString app props = .ok cs)
    (hreduce : getSearchParameters imports.HIGHLIGHT_TAGS props.indexName cs = .ok r)
    (hscoped : scopeIds cs ≠ []) :
    ∃ merged,
      (findResultsState imports app (some props)).searches.head? =
        some ⟨r.sharedParameters.index, merged⟩ ∧
      (∀ field, merged.getOwn field =
        match r.derivedParameters.getOwn props.indexName with
        | some mainParameters =>
          (mainParameters.getOwn field).orElse (fun _ => r.sharedParameters.getOwn field)
        | none => r.sharedParameters.getOwn field) ∧
      (r.derivedParameters.getOwn props.indexName = none → merged = r.sharedParameters) ∧
      props.indexName ∉ (r.derivedParameters.rest props.indexName).keys ∧
      List.Forall₂ (fun indexId request => indexId ≠ props.indexName ∧
          ∃ parameters, r.derivedParameters.getOwn indexId = some parameters ∧
            request = ⟨parameters.index, parameters⟩)
        (r.derivedParameters.rest props.indexName).keys
        (findResultsState imports app (some props)).searches.tail := by
  have hkeys : r.derivedParameters.keys ≠ [] := fun h =>
    hscoped ((derivedParameters_keys_eq_nil_iff _ _ cs r hreduce).mp h)
  obtain ⟨others, hall, hsearches, _⟩ :=
    findResultsState_multi imports app props client cs r hclient hrender hreduce hkeys
  refine ⟨r.sharedParameters.spread (spreadable (r.derivedParameters.get props.indexName)),
    ?_, ?_, ?_, ?_, ?_⟩
  · rw [hsearches]
    rfl
  · intro field
    rw [JSObject.getOwn_spread]
    cases hmain : r.derivedParameters.getOwn props.indexName with
    | none =>
      rw [spreadable_of_getOwn_none _ _ hmain]
      rfl
    | some mainParameters =>
      rw [spreadable_of_getOwn_some _ _ _ hmain]
  · intro hmain
    rw [spreadable_of_getOwn_none _ _ hmain]
    rfl
  · rw [JSObject.keys_rest]
    simp
  · rw [hsearches, List.map_cons, List.tail_cons, List.forall₂_map_right_iff]
    refine List.Forall₂.imp ?_ hall
    rintro indexId issued ⟨parameters, hp, rfl⟩
    rw [JSObject.getOwn_rest] at hp
    by_cases hid : indexId = props.indexName
    · simp [hid] at hp
    · simp only [hid, if_false] at hp
      exact ⟨hid, parameters, hp, rfl⟩

/-- C6 at the widgets of the tree of the test `without search state - first API` with the default
index name `index1`: the first search and the one search that follows it. -/
theorem findResultsState_first_request_witness :
    ∃ merged,
      (findResultsState someImports firstApiApp
        (some ⟨"index1", some echoClient⟩)).searches.head? = some ⟨some "index1", merged⟩ ∧
      merged.getOwn "query" = some "Apple" ∧
      (findResultsState someImports firstApiApp
        (some ⟨"index1", some echoClient⟩)).searches.tail.length = 1 := by
  obtain ⟨merged, hhead, hfields, _, _, hall⟩ :=
    findResultsState_first_request someImports firstApiApp ⟨"index1", some echoClient⟩
      echoClient
      [scopedContribution "index1" "index1", scopedContribution "index1" "index2"]
      ⟨(newSearchParameters (highlightTags.set "index" "index1")),
        JSObject.empty.set "index1"
          ((newSearchParameters (highlightTags.set "index" "index1")).setQuery "Apple") |>.set
            "index2"
            ((newSearchParameters (highlightTags.set "index" "index1")).setQuery "Apple")⟩
      rfl rfl rfl (by decide)
  exact ⟨merged, hhead, (hfields "query").trans rfl, hall.length_eq.symm.trans rfl⟩

/-- C7: the derived entries are keyed by scope identifier. For every scope identifier
recorded that differs from the default index name, the derived mapping has an entry of
its own, which is the fold of the contributions of that identifier alone; the resolution
issues, at the place of the identifier in the dispatch list, one search with that entry on
a helper bound to the index of that entry, whatever that index is; and the sequence
resolved has one entry tagged with the identifier, at that same place. -/
theorem findResultsState_scope_entry [HelperLibrary] (imports : Imports) (app : App) (props : FindProps)
    (client : SearchClient) (cs : List Contribution) (r : Parameters)
    (hclient : props.searchClient = some client)
    (hrender : renderToString app props = .ok cs)
    (hreduce : getSearchParameters imports.HIGHLIGHT_TAGS props.indexName cs = .ok r)
    (indexId : String) (hmem : indexId ∈ scopeIds cs) (hne : indexId ≠ props.indexName) :
    ∃ parameters i,
      r.derivedParameters.getOwn indexId = some parameters ∧
      foldScope indexId
          (orSharedParameters (JSObject.empty.get indexId) r.sharedParameters) cs =
        .ok (.parameters parameters) ∧
      (r.derivedParameters.rest props.indexName).keys[i]? = some indexId ∧
      (findResultsState imports app (some props)).searches[i + 1]? =
        some ⟨parameters.index, parameters⟩ ∧
      ∀ results,
        (findResultsState imports app (some props)).resolved = some (.multi results) →
          (results.map (fun t => t._internalIndexId))[i + 1]? = some indexId ∧
          ∀ j, (results.map (fun t => t._internalIndexId))[j]? = some indexId → j = i + 1 := by
  have hscoped : scopeIds cs ≠ [] := fun h => by rw [h] at hmem; cases hmem
  have hkeys : r.derivedParameters.keys ≠ [] := fun h =>
    hscoped ((derivedParameters_keys_eq_nil_iff _ _ cs r hreduce).mp h)
  obtain ⟨hnodup, hrest⟩ := rest_keys_spec _ _ cs r hreduce
  obtain ⟨i, hi⟩ := List.mem_iff_getElem?.mp ((hrest indexId).mpr ⟨hmem, hne⟩)
  obtain ⟨others, hall, hsearches, hresolved⟩ :=
    findResultsState_multi imports app props client cs r hclient hrender hreduce hkeys
  obtain ⟨issued, hissued, parameters, hp, rfl⟩ := forall₂_getElem? hall i indexId hi
  have hown : r.derivedParameters.getOwn indexId = some parameters := by
    rw [JSObject.getOwn_rest, if_neg hne] at hp
    exact hp
  have hfold := foldlM_derived_foldScope r.sharedParameters cs JSObject.empty
    r.derivedParameters ((getSearchParameters_eq_ok_iff _ _ cs r).mp hreduce).2 indexId
  refine ⟨parameters, i, hown, ?_, hi, ?_, ?_⟩
  · rw [hfold]
    simp [JSObject.get, hown, orSharedParameters]
  · rw [hsearches, List.map_cons, List.getElem?_cons_succ, List.getElem?_map, hissued]
    rfl
  · intro results hres
    obtain ⟨values, _, hval⟩ := (hresolved _).mp hres
    cases hval
    rw [map_internalIndexId_tagResults]
    refine ⟨by rw [List.getElem?_cons_succ]; exact hi, ?_⟩
    intro j hj
    cases j with
    | zero =>
      simp only [List.getElem?_cons_zero, Option.some.injEq] at hj
      exact absurd hj.symm hne
    | succ j =>
      rw [List.getElem?_cons_succ] at hj
      have hlt : j < (r.derivedParameters.rest props.indexName).keys.length :=
        (List.getElem?_eq_some.mp hj).1
      rw [List.getElem?_inj hlt hnodup (hj.trans hi.symm)]

/-- C7 at the widgets of the tree of the test `without search state - same index`: the scope
`index1_with_refinement` has an entry of its own although its index is the default
index `index1`, and its search is the second one. -/
theorem findResultsState_scope_entry_witness :
    ∃ parameters : SearchParameters,
      parameters.index = some "index1" ∧ parameters.query = some "iWatch" ∧
      (findResultsState someImports sameIndexApp
        (some ⟨"index1", some echoClient⟩)).searches[1]? =
        some ⟨parameters.index, parameters⟩ := by
  obtain ⟨parameters, i, hown, _, hi, hsearch, _⟩ :=
    findResultsState_scope_entry someImports sameIndexApp ⟨"index1", some echoClient⟩
      echoClient
      [recorded "index1" (connected (mainContext "index1")
          ⟨[("defaultRefinement", "Apple")]⟩ noSearchState),
        recorded "index1_with_refinement"
          (connected (indexContext "index1" "index1_with_refinement")
            ⟨[("defaultRefinement", "iWatch")]⟩ noSearchState)]
      ⟨(newSearchParameters (highlightTags.set "index" "index1")).setQuery "Apple",
        JSObject.empty.set "index1_with_refinement"
          (((newSearchParameters (highlightTags.set "index" "index1")).setQuery
            "Apple").setQuery "iWatch")⟩
      rfl rfl rfl "index1_with_refinement" (by decide) (by decide)
  have hp : parameters = ((newSearchParameters (highlightTags.set "index" "index1")).setQuery
      "Apple").setQuery "iWatch" := by
    have : JSObject.getOwn (JSObject.empty.set "index1_with_refinement"
        (((newSearchParameters (highlightTags.set "index" "index1")).setQuery
          "Apple").setQuery "iWatch")) "index1_with_refinement" =
        some (((newSearchParameters (highlightTags.set "index" "index1")).setQuery
          "Apple").setQuery "iWatch") := rfl
    rw [this] at hown
    exact (Option.some.inj hown).symm
  have hzero : i = 0 := by
    cases i with
    | zero => rfl
    | succ i => cases hi
  subst hzero
  subst hp
  exact ⟨((newSearchParameters (highlightTags.set "index" "index1")).setQuery
    "Apple").setQuery "iWatch", by decide, by decide, hsearch⟩

/-- C8: in a multi-index resolution there is one entry for each search and, at every
position, the entry is tagged with the identifier at that position of the dispatch list
(the default index name, then the remaining keys of the derived mapping) and carries,
unchanged, the result to which the search issued at that position was fulfilled. -/
theorem findResultsState_tagged [HelperLibrary] (imports : Imports) (app : App) (props : FindProps)
    (client : SearchClient) (cs : List Contribution) (r : Parameters)
    (hclient : props.searchClient = some client)
    (hrender : renderToString app props = .ok cs)
    (hreduce : getSearchParameters imports.HIGHLIGHT_TAGS props.indexName cs = .ok r)
    (hscoped : scopeIds cs ≠ []) (results : List TaggedResult)
    (hres : (findResultsState imports app (some props)).resolved = some (.multi results)) :
    results.length = (findResultsState imports app (some props)).searches.length ∧
    ∀ i, i < results.length → ∃ indexId request value,
      (props.indexName :: (r.derivedParameters.rest props.indexName).keys)[i]? =
        some indexId ∧
      (findResultsState imports app (some props)).searches[i]? = some request ∧
      (client.search request).outcome = .ok value ∧
      results[i]? = some ⟨some value, indexId⟩ := by
  have hkeys : r.derivedParameters.keys ≠ [] := fun h =>
    hscoped ((derivedParameters_keys_eq_nil_iff _ _ cs r hreduce).mp h)
  obtain ⟨others, hall, hsearches, hresolved⟩ :=
    findResultsState_multi imports app props client cs r hclient hrender hreduce hkeys
  obtain ⟨values, hvalues, hval⟩ := (hresolved _).mp hres
  cases hval
  have hpromise : ∀ s ∈ (algoliasearchHelper client r.sharedParameters.index).searchOnce
      (r.sharedParameters.spread
        (spreadable (r.derivedParameters.get props.indexName))) :: others,
      s.promise = client.search s.request := by
    intro s hs
    rcases List.mem_cons.mp hs with rfl | hmem
    · rfl
    · obtain ⟨_, _, parameters, _, rfl⟩ := forall₂_right_mem hall s hmem
      rfl
  have hfulfilled := mapM_outcome_forall₂ _ _ hvalues
  have hlen : (r.derivedParameters.rest props.indexName).keys.length = others.length :=
    hall.length_eq
  constructor
  · rw [length_tagResults, hsearches, List.length_map, List.length_cons, hlen, Nat.add_comm]
  · intro i hi
    rw [length_tagResults] at hi
    have hi' : i < (props.indexName ::
        (r.derivedParameters.rest props.indexName).keys).length := by
      rw [List.length_cons]
      omega
    have hi'' : i < ((algoliasearchHelper client r.sharedParameters.index).searchOnce
        (r.sharedParameters.spread
          (spreadable (r.derivedParameters.get props.indexName))) :: others).length := by
      rw [List.length_cons, ← hlen]
      omega
    obtain ⟨value, hvalue, hok⟩ := forall₂_getElem? hfulfilled i _
      (by rw [List.getElem?_map, List.getElem?_eq_getElem hi'']; rfl)
    refine ⟨_, (((algoliasearchHelper client r.sharedParameters.index).searchOnce
        (r.sharedParameters.spread
          (spreadable (r.derivedParameters.get props.indexName))) :: others)[i]).request,
      value, List.getElem?_eq_getElem hi', ?_, ?_, ?_⟩
    · rw [hsearches, List.getElem?_map, List.getElem?_eq_getElem hi'']
      rfl
    · rw [← hpromise _ (List.getElem_mem hi'')]
      exact hok
    · rw [getElem?_tagResults, List.getElem?_eq_getElem hi', hvalue]
      rfl

/-- C8 at the widgets of the tree of the test `without search state - same index`: the second entry is
tagged `index1_with_refinement` and carries the result of the second search. -/
theorem findResultsState_tagged_witness :
    ∃ indexId request value,
      ("index1" :: ["index1_with_refinement"])[1]? = some indexId ∧
      (findResultsState someImports sameIndexApp
        (some ⟨"index1", some echoClient⟩)).searches[1]? = some request ∧
      (echoClient.search request).outcome = .ok value ∧
      [(⟨some ⟨"content",
            (newSearchParameters (highlightTags.set "index" "index1")).setQuery "Apple",
            "response"⟩, "index1"⟩ : TaggedResult),
        ⟨some ⟨"content",
            ((newSearchParameters (highlightTags.set "index" "index1")).setQuery
              "Apple").setQuery "iWatch",
            "response"⟩, "index1_with_refinement"⟩][1]? = some ⟨some value, indexId⟩ :=
  (findResultsState_tagged someImports sameIndexApp ⟨"index1", some echoClient⟩
    echoClient
    [recorded "index1" (connected (mainContext "index1")
        ⟨[("defaultRefinement", "Apple")]⟩ noSearchState),
      recorded "index1_with_refinement"
        (connected (indexContext "index1" "index1_with_refinement")
          ⟨[("defaultRefinement", "iWatch")]⟩ noSearchState)]
    ⟨(newSearchParameters (highlightTags.set "index" "index1")).setQuery "Apple",
      JSObject.empty.set "index1_with_refinement"
        (((newSearchParameters (highlightTags.set "index" "index1")).setQuery
          "Apple").setQuery "iWatch")⟩
    rfl rfl rfl (by decide) _ rfl).2 1 (by decide)

/-- C9: called without props, `findResultsState` throws its first error without any
agent registration, render pass or search; called with props that have no search client,
it throws its second error, likewise before anything else. -/
theorem findResultsState_missing_configuration [HelperLibrary] (imports : Imports) (app : App) :
    findResultsState imports app none =
        ⟨[], .threw ⟨"The function `findResultsState` must be called with props: `findResultsState(App, props)`"⟩⟩ ∧
      ∀ indexName, findResultsState imports app (some ⟨indexName, none⟩) =
        ⟨[], .threw ⟨"The props provided to `findResultsState` must have a `searchClient`"⟩⟩ :=
  ⟨rfl, fun _ => rfl⟩

/-- C10: on a search client whose `addAlgoliaAgent` is a function, `findResultsState`
itself calls it twice, with `react (<React version>)` and then with
`react-instantsearch-server (<library version>)`, then makes the render pass, and every
call it makes afterwards is a call to the helper library (the creation of a helper or a
search on one), none a registration of its own; on a client that has no such member its
first call is the render pass and every later one is a call to the helper library; and
in both cases it throws only what the render pass or the reduction throws. -/
theorem findResultsState_agents [HelperLibrary] (imports : Imports) (app : App) (props : FindProps)
    (client : SearchClient) (hclient : props.searchClient = some client) :
    (client.addAlgoliaAgent = .function →
      ∃ later,
        (findResultsState imports app (some props)).events =
          [.addAlgoliaAgent ("react (" ++ imports.reactVersion ++ ")"),
            .addAlgoliaAgent ("react-instantsearch-server (" ++ imports.version ++ ")"),
            .renderToString] ++ later ∧
        ∀ event ∈ later, event.isHelperCall = true) ∧
    (client.addAlgoliaAgent = .absent →
      ∃ later,
        (findResultsState imports app (some props)).events = .renderToString :: later ∧
        ∀ event ∈ later, event.isHelperCall = true) ∧
    (∀ e, (findResultsState imports app (some props)).outcome = .threw e →
      renderToString app props = .error e ∨
        ∃ cs, renderToString app props = .ok cs ∧
          getSearchParameters imports.HIGHLIGHT_TAGS props.indexName cs = .error e) := by
  obtain ⟨later, hevents, hlater⟩ := findResultsState_events imports app props client hclient
  refine ⟨?_, ?_, findResultsState_threw imports app props client hclient⟩
  · intro hfunction
    refine ⟨later, ?_, hlater⟩
    rw [hevents]
    simp [algoliaAgents, hfunction]
  · intro habsent
    refine ⟨later, ?_, hlater⟩
    rw [hevents]
    simp [algoliaAgents, habsent]

/-- C10 at the tree of the test `single index / without search state`: with a client
that has the method, `findResultsState` registers its two agents, makes the render pass,
creates the helper and searches once; with a client that has no such member, it makes
the render pass, creates the helper and searches once, and it returns. -/
theorem findResultsState_agents_witness :
    (∃ later,
      (findResultsState someImports singleIndexApp
        (some ⟨"indexName", some agentClient⟩)).events =
        [.addAlgoliaAgent ("react (" ++ someImports.reactVersion ++ ")"),
          .addAlgoliaAgent ("react-instantsearch-server (" ++ someImports.version ++ ")"),
          .renderToString] ++ later ∧
      ∀ event ∈ later, event.isHelperCall = true) ∧
    (∃ later,
      (findResultsState someImports singleIndexApp
        (some ⟨"indexName", some echoClient⟩)).events = .renderToString :: later ∧
      ∀ event ∈ later, event.isHelperCall = true) ∧
    (∃ promise, (findResultsState someImports singleIndexApp
        (some ⟨"indexName", some echoClient⟩)).outcome = .returned promise) :=
  ⟨(findResultsState_agents someImports singleIndexApp ⟨"indexName", some agentClient⟩
      agentClient rfl).1 rfl,
    (findResultsState_agents someImports singleIndexApp ⟨"indexName", some echoClient⟩
      echoClient rfl).2.1 rfl,
    ⟨_, rfl⟩⟩

/-- C17: the tags of the sequence of a multi-index resolution are pairwise distinct. The
sequence is tagged by the default index name followed by the keys of the derived mapping
without the entry of the default index name; the default index name is the first tag and
no other one, and the remaining tags are keys of the derived mapping, none twice. -/
theorem findResultsState_distinct_tags [HelperLibrary] (imports : Imports) (app : App) (props : FindProps)
    (client : SearchClient) (cs : List Contribution) (r : Parameters)
    (hclient : props.searchClient = some client)
    (hrender : renderToString app props = .ok cs)
    (hreduce : getSearchParameters imports.HIGHLIGHT_TAGS props.indexName cs = .ok r)
    (hscoped : scopeIds cs ≠ []) (results : List TaggedResult)
    (hres : (findResultsState imports app (some props)).resolved = some (.multi results)) :
    (results.map (fun t => t._internalIndexId)).Nodup ∧
    (results.map (fun t => t._internalIndexId))[0]? = some props.indexName ∧
    (∀ j, (results.map (fun t => t._internalIndexId))[j]? = some props.indexName → j = 0) ∧
    (results.map (fun t => t._internalIndexId)).tail =
      (r.derivedParameters.rest props.indexName).keys ∧
    props.indexName ∉ (r.derivedParameters.rest props.indexName).keys ∧
    (r.derivedParameters.rest props.indexName).keys.Nodup ∧
    (∀ indexId ∈ (r.derivedParameters.rest props.indexName).keys,
      indexId ∈ r.derivedParameters.keys) := by
  have hkeys : r.derivedParameters.keys ≠ [] := fun h =>
    hscoped ((derivedParameters_keys_eq_nil_iff _ _ cs r hreduce).mp h)
  obtain ⟨hnodup, hmem⟩ := rest_keys_spec _ _ cs r hreduce
  obtain ⟨others, _, _, hresolved⟩ :=
    findResultsState_multi imports app props client cs r hclient hrender hreduce hkeys
  obtain ⟨values, _, hval⟩ := (hresolved _).mp hres
  cases hval
  rw [map_internalIndexId_tagResults]
  have hnot : props.indexName ∉ (r.derivedParameters.rest props.indexName).keys := by
    intro h
    exact ((hmem _).mp h).2 rfl
  refine ⟨List.nodup_cons.mpr ⟨hnot, hnodup⟩, List.getElem?_cons_zero, ?_, rfl, hnot, hnodup,
    ?_⟩
  · intro j hj
    cases j with
    | zero => rfl
    | succ j =>
      rw [List.getElem?_cons_succ] at hj
      exact absurd (List.mem_iff_getElem?.mpr ⟨j, hj⟩) hnot
  · intro indexId hid
    rw [JSObject.keys_rest] at hid
    exact (List.mem_filter.mp hid).1

/-- C17 at the widgets of the tree of the test `without search state - first API` with the default
index name `index1`: the two tags `index1`, `index2` are distinct. -/
theorem findResultsState_distinct_tags_witness :
    (["index1", "index2"] : List String).Nodup :=
  (findResultsState_distinct_tags someImports firstApiApp ⟨"index1", some echoClient⟩
    echoClient
    [scopedContribution "index1" "index1", scopedContribution "index1" "index2"]
    ⟨(newSearchParameters (highlightTags.set "index" "index1")),
      JSObject.empty.set "index1"
        ((newSearchParameters (highlightTags.set "index" "index1")).setQuery "Apple") |>.set
          "index2" ((newSearchParameters (highlightTags.set "index" "index1")).setQuery "Apple")⟩
    rfl rfl rfl (by decide)
    [⟨some ⟨"content",
          (newSearchParameters (highlightTags.set "index" "index1")).setQuery "Apple",
          "response"⟩, "index1"⟩,
      ⟨some ⟨"content",
          (newSearchParameters (highlightTags.set "index" "index1")).setQuery "Apple",
          "response"⟩, "index2"⟩]
    rfl).1

/-- C14: when the reduction fails, the error is the one thrown by the mutator of a
recorded contribution, `findResultsState` throws that very error, it resolves to nothing
and no search is issued; and the reduction does fail when the mutator of a recorded
contribution throws whatever it is given. -/
theorem findResultsState_mutator_failure [HelperLibrary] (imports : Imports) (app : App) (props : FindProps)
    (client : SearchClient) (cs : List Contribution)
    (hclient : props.searchClient = some client)
    (hrender : renderToString app props = .ok cs) :
    (∀ e, getSearchParameters imports.HIGHLIGHT_TAGS props.indexName cs = .error e →
      (∃ c ∈ cs, ∃ base, c.getSearchParameters base c.props c.searchState = .error e) ∧
      (findResultsState imports app (some props)).outcome = .threw e ∧
      (findResultsState imports app (some props)).searches = [] ∧
      (findResultsState imports app (some props)).resolved = none) ∧
    ((∃ c ∈ cs, ∀ base, ∃ e, c.getSearchParameters base c.props c.searchState = .error e) →
      ∃ e, getSearchParameters imports.HIGHLIGHT_TAGS props.indexName cs = .error e) := by
  constructor
  · intro e he
    refine ⟨getSearchParameters_error _ _ cs e he, ?_, ?_, ?_⟩
    · simp only [findResultsState, hclient, hrender, he]
    · simp only [findResultsState, hclient, hrender, he, Run.searches]
      exact requestsOf_agents_render imports client
    · simp only [findResultsState, hclient, hrender, he, Run.resolved]
  · rintro ⟨c, hc, hfail⟩
    cases hreduce : getSearchParameters imports.HIGHLIGHT_TAGS props.indexName cs with
    | error e => exact ⟨e, rfl⟩
    | ok r =>
      obtain ⟨base, next, hok⟩ := getSearchParameters_ok_invoked _ _ cs r hreduce c hc
      obtain ⟨e, he⟩ := hfail base
      rw [hok] at he
      cases he

/-- C14 at a tree whose second widget has a mutator that throws: `findResultsState`
throws the error of that mutator and issues no search. -/
theorem findResultsState_mutator_failure_witness :
    (findResultsState someImports failingApp (some ⟨"indexName", some echoClient⟩)).outcome =
        .threw ⟨"Error: the widget failed"⟩ ∧
      (findResultsState someImports failingApp
        (some ⟨"indexName", some echoClient⟩)).searches = [] ∧
      (findResultsState someImports failingApp
        (some ⟨"indexName", some echoClient⟩)).resolved = none :=
  ((findResultsState_mutator_failure someImports failingApp ⟨"indexName", some echoClient⟩
    echoClient
    [mainContribution "indexName",
      ⟨throwingMutator, "indexName", some (mainContext "indexName"), JSObject.empty,
        noSearchState⟩]
    rfl rfl).1 ⟨"Error: the widget failed"⟩ rfl).2

/-- C15 (the code departs from the claim): a call of the collector by a widget that has
no context, on an accumulator that already holds a contribution. The function
`hasMultipleIndices` guards its read with `context &&` and gives `false`; the function
`getIndexId` then reads `context.ais` without that guard, so that the call throws the
`TypeError` of a read of `ais` on `undefined` where the claim has recording not fail,
and nothing is recorded; the same holds on every accumulator and for every widget. -/
theorem createSearchParametersCollector_undefined_context :
    hasMultipleIndices none = false ∧
    getIndexId none = .error (typeErrorReadOfUndefined "ais") ∧
    createSearchParametersCollector [mainContribution "index1"]
        ⟨coolConnector none, none, JSObject.empty, noSearchState⟩ =
      .error (typeErrorReadOfUndefined "ais") ∧
    (∀ result, createSearchParametersCollector [mainContribution "index1"]
        ⟨coolConnector none, none, JSObject.empty, noSearchState⟩ ≠ .ok result) ∧
    ∀ (accumulator : List Contribution) (getWidgetSearchParameters : Mutator)
      (props : WidgetProps) (searchState : SearchState),
      createSearchParametersCollector accumulator
          ⟨getWidgetSearchParameters, none, props, searchState⟩ =
        .error (typeErrorReadOfUndefined "ais") :=
  ⟨rfl, rfl, rfl, fun _ h => (by cases h), fun _ _ _ _ => rfl⟩

/-- C13: once the render pass and the reduction have returned, a single-index
resolution issues its one search and, when that search is rejected, returns a promise
rejected with the same error; a multi-index resolution issues one search for each
identifier of the dispatch list, whatever their outcomes, and, when one at least is
rejected, returns a promise rejected with the error of a rejected search, one that
settles no later than any other rejected search, so with the error of the failed search
when only one fails. In both cases the call resolves to nothing. -/
theorem findResultsState_search_failure [HelperLibrary] (imports : Imports) (app : App) (props : FindProps)
    (client : SearchClient) (cs : List Contribution) (r : Parameters)
    (hclient : props.searchClient = some client)
    (hrender : renderToString app props = .ok cs)
    (hreduce : getSearchParameters imports.HIGHLIGHT_TAGS props.indexName cs = .ok r) :
    (scopeIds cs = [] →
      (findResultsState imports app (some props)).searches =
          [⟨r.sharedParameters.index, r.sharedParameters⟩] ∧
        ∀ e, (client.search ⟨r.sharedParameters.index, r.sharedParameters⟩).outcome =
            .error e →
          ∃ promise, (findResultsState imports app (some props)).outcome = .returned promise ∧
            promise.outcome = .error e ∧
            (findResultsState imports app (some props)).resolved = none) ∧
    (scopeIds cs ≠ [] →
      (findResultsState imports app (some props)).searches.length =
          1 + (r.derivedParameters.rest props.indexName).keys.length ∧
        ((∃ request ∈ (findResultsState imports app (some props)).searches,
            ∃ e, (client.search request).outcome = .error e) →
          ∃ promise, ∃ request ∈ (findResultsState imports app (some props)).searches, ∃ e,
            (findResultsState imports app (some props)).outcome = .returned promise ∧
            promise.outcome = .error e ∧
            (client.search request).outcome = .error e ∧
            (∀ other ∈ (findResultsState imports app (some props)).searches,
              (∃ e', (client.search other).outcome = .error e') →
                (client.search request).settledAt ≤ (client.search other).settledAt) ∧
            (findResultsState imports app (some props)).resolved = none)) := by
  have hiff := derivedParameters_keys_eq_nil_iff _ _ cs r hreduce
  constructor
  · intro hnone
    have hrun := findResultsState_eq imports app props client cs r hclient hrender hreduce
    have hlen : r.derivedParameters.keys.length = 0 :=
      List.length_eq_zero.mpr (hiff.mpr hnone)
    rw [if_pos hlen] at hrun
    constructor
    · rw [hrun]
      simp only [Run.searches]
      rw [requestsOf_algoliaAgents]
      rfl
    · intro e he
      refine ⟨(client.search ⟨r.sharedParameters.index, r.sharedParameters⟩).then
        Resolution.single, ?_, ?_, ?_⟩
      · rw [hrun]
        rfl
      · simp only [Promise.then, he, Except.map]
      · rw [hrun]
        simp only [Run.resolved, singleIndexSearch, Promise.then, Helper.searchOnce,
          algoliasearchHelper, he, Except.map]
  · intro hscoped
    have hkeys : r.derivedParameters.keys ≠ [] := fun h => hscoped (hiff.mp h)
    obtain ⟨houtcome, hlength⟩ :=
      findResultsState_multi_outcome imports app props client cs r hclient hrender hreduce
        hkeys
    refine ⟨hlength, ?_⟩
    rintro ⟨request, hrequest, e, he⟩
    obtain ⟨p, hp, e', hpe, hall, _, hmin⟩ := all_rejected
      ((findResultsState imports app (some props)).searches.map client.search)
      ⟨client.search request, List.mem_map.mpr ⟨request, hrequest, rfl⟩, e, he⟩
    obtain ⟨request', hrequest', rfl⟩ := List.mem_map.mp hp
    refine ⟨_, request', hrequest', e', houtcome, ?_, hpe, ?_, ?_⟩
    · simp only [Promise.then, hall, Except.map]
    · intro other hother hrejected
      exact hmin _ (List.mem_map.mpr ⟨other, hother, rfl⟩) hrejected
    · simp only [Run.resolved, houtcome, Promise.then, hall, Except.map]

/-- C13 at the widgets of the tree of the test `without search state - same index` with a client that
rejects the second search: the call returns a promise rejected with the error of that
search. -/
theorem findResultsState_search_failure_witness :
    ∃ promise, ∃ request ∈ (findResultsState someImports sameIndexApp
        (some ⟨"index1", some rejectingClient⟩)).searches, ∃ e,
      (findResultsState someImports sameIndexApp
        (some ⟨"index1", some rejectingClient⟩)).outcome = .returned promise ∧
      promise.outcome = .error e ∧
      (rejectingClient.search request).outcome = .error e ∧
      (∀ other ∈ (findResultsState someImports sameIndexApp
          (some ⟨"index1", some rejectingClient⟩)).searches,
        (∃ e', (rejectingClient.search other).outcome = .error e') →
          (rejectingClient.search request).settledAt ≤
            (rejectingClient.search other).settledAt) ∧
      (findResultsState someImports sameIndexApp
        (some ⟨"index1", some rejectingClient⟩)).resolved = none :=
  ((findResultsState_search_failure someImports sameIndexApp
    ⟨"index1", some rejectingClient⟩ rejectingClient
    [recorded "index1" (connected (mainContext "index1")
        ⟨[("defaultRefinement", "Apple")]⟩ noSearchState),
      recorded "index1_with_refinement"
        (connected (indexContext "index1" "index1_with_refinement")
          ⟨[("defaultRefinement", "iWatch")]⟩ noSearchState)]
    ⟨(newSearchParameters (highlightTags.set "index" "index1")).setQuery "Apple",
      JSObject.empty.set "index1_with_refinement"
        (((newSearchParameters (highlightTags.set "index" "index1")).setQuery
          "Apple").setQuery "iWatch")⟩
    rfl rfl rfl).2 (by decide)).2
    ⟨⟨some "index1",
        ((newSearchParameters (highlightTags.set "index" "index1")).setQuery
          "Apple").setQuery "iWatch"⟩,
      by decide, ⟨"Error: the search failed"⟩, rfl⟩

/-- C11: the mutators called by the reduction. The positions of the accumulator fall into
the positions of the contributions without scope and those of the scoped contributions,
each position in one of the two; the calls of mutators made by
`getSearchParameters` are calls of the mutators at the first of these positions, in that
order, none twice, and when `getSearchParameters` returns it has called the mutator of
every position of the accumulator exactly once. The accumulator that a render pass
leaves holds the calls of that render pass, in order, and nothing else. -/
theorem getSearchParameters_invokes_once [HelperLibrary] (tags : JSObject String) (indexName : String)
    (cs : List Contribution) :
    (bucketPositions cs).Perm (List.range cs.length) ∧
    (getSearchParametersTraced tags indexName cs).invocations.map (fun i => i.position) <+:
      bucketPositions cs ∧
    ((getSearchParametersTraced tags indexName cs).invocations.map
      (fun i => i.position)).Nodup ∧
    (∀ r, getSearchParameters tags indexName cs = .ok r →
      (getSearchParametersTraced tags indexName cs).invocations.map (fun i => i.position) =
        bucketPositions cs ∧
      ∀ i, i < cs.length →
        ((getSearchParametersTraced tags indexName cs).invocations.map
          (fun i => i.position)).count i = 1) ∧
    (∀ (app : App) (props : FindProps), renderToString app props = .ok cs →
      app props = .ok (cs.map Contribution.call)) := by
  have hperm := bucketPositions_perm cs
  have hnodup : (bucketPositions cs).Nodup := hperm.nodup_iff.mpr (List.nodup_range _)
  obtain ⟨hstart, hall⟩ := getSearchParametersTraced_positions tags indexName cs
  refine ⟨hperm, hstart, hnodup.sublist hstart.sublist, ?_, ?_⟩
  · intro r hr
    refine ⟨hall r hr, ?_⟩
    intro i hi
    rw [hall r hr]
    exact List.count_eq_one_of_mem hnodup (hperm.mem_iff.mpr (List.mem_range.mpr hi))
  · intro app props hrender
    exact (renderToString_calls app props cs hrender).1

/-- C11 at a widget right under `<InstantSearch>` followed by a widget under
`<Index indexId="index2">`: the reduction calls the mutator of the first contribution,
then the mutator of the second one, each once. -/
theorem getSearchParameters_invokes_once_witness :
    (getSearchParametersTraced highlightTags "index1"
      [mainContribution "index1", scopedContribution "index1" "index2"]).invocations.map
      (fun i => i.position) = [0, 1] ∧
    ∀ i, i < 2 →
      ((getSearchParametersTraced highlightTags "index1"
        [mainContribution "index1", scopedContribution "index1" "index2"]).invocations.map
        (fun i => i.position)).count i = 1 :=
  (getSearchParameters_invokes_once highlightTags "index1"
    [mainContribution "index1", scopedContribution "index1" "index2"]).2.2.2.1
    ⟨(newSearchParameters (highlightTags.set "index" "index1")).setQuery "Apple",
      JSObject.empty.set "index2"
        (((newSearchParameters (highlightTags.set "index" "index1")).setQuery
          "Apple").setQuery "Apple")⟩
    rfl

/-- C12 (the code departs from the claim): a widget under `<Index indexId="constructor">`
whose mutator keeps the query, followed by a widget right under `<InstantSearch>` that
sets the shared query to `iPhone`. The mutator of the scope is not given the shared
parameters but the member `constructor` inherited from `Object.prototype`, and the entry
of the scope has no query where the shared parameters have the query `iPhone`. -/
theorem getSearchParameters_constructor_query [HelperLibrary] :
    ∃ r entry,
      getSearchParameters highlightTags "main"
        [hitsPerPageContribution "main" "constructor", queryContribution "main" "iPhone"] =
          .ok r ∧
      r.sharedParameters.query = some "iPhone" ∧
      r.derivedParameters.getOwn "constructor" = some entry ∧
      entry.query = none ∧
      ∀ p next, hitsPerPageMutator (.parameters p) JSObject.empty noSearchState = .ok next →
        next.query = p.query := by
  refine ⟨⟨(newSearchParameters (highlightTags.set "index" "main")).setQuery "iPhone",
      JSObject.empty.set "constructor" (JSObject.empty.set "hitsPerPage" "5")⟩,
    JSObject.empty.set "hitsPerPage" "5", rfl, ?_, rfl, by decide, ?_⟩
  · simp [SearchParameters.query, SearchParameters.setQuery, JSObject.getOwn_set]
  · intro p next hnext
    simp only [hitsPerPageMutator, Except.ok.injEq] at hnext
    rw [← hnext]
    simp [SearchParameters.query, JSObject.getOwn_set]

/-- C16: the reduction depends on the buckets alone: two lists of contributions with the
same contributions without scope, in the same order, and for every scope identifier the
same contributions of that identifier, in the same order, give the same shared parameters
and the same derived entry under every identifier, however the buckets are interleaved:
when the reduction of the first list returns, so does the reduction of the second. -/
theorem getSearchParameters_of_same_buckets [HelperLibrary] (tags : JSObject String) (indexName : String)
    (cs₁ cs₂ : List Contribution)
    (hshared : cs₁.filter (fun c => !hasMultipleIndices c.context) =
      cs₂.filter (fun c => !hasMultipleIndices c.context))
    (hscoped : ∀ indexId, cs₁.filter (fun c => decide (scopeOf c = some indexId)) =
      cs₂.filter (fun c => decide (scopeOf c = some indexId)))
    (r₁ : Parameters) (h₁ : getSearchParameters tags indexName cs₁ = .ok r₁) :
    ∃ r₂, getSearchParameters tags indexName cs₂ = .ok r₂ ∧
      r₂.sharedParameters = r₁.sharedParameters ∧
      ∀ indexId, r₂.derivedParameters.getOwn indexId = r₁.derivedParameters.getOwn indexId := by
  obtain ⟨hsh₁, hd₁⟩ := (getSearchParameters_eq_ok_iff tags indexName cs₁ r₁).mp h₁
  have hsh₂ : foldShared (newSearchParameters (tags.set "index" indexName)) cs₂ =
      .ok r₁.sharedParameters := by
    rw [← foldShared_filter, ← hshared, foldShared_filter]
    exact hsh₁
  have hfold₁ := foldlM_derived_foldScope r₁.sharedParameters cs₁ JSObject.empty
    r₁.derivedParameters hd₁
  have hsame : ∀ indexId base, foldScope indexId base cs₂ = foldScope indexId base cs₁ := by
    intro indexId base
    rw [← foldScope_filter indexId cs₂, ← hscoped indexId, foldScope_filter]
  obtain ⟨derived₂, hd₂⟩ := foldlM_derived_of_foldScope r₁.sharedParameters cs₂
    JSObject.empty (fun indexId => ⟨_, (hsame indexId _).trans (hfold₁ indexId)⟩)
  refine ⟨⟨r₁.sharedParameters, derived₂⟩,
    (getSearchParameters_eq_ok_iff tags indexName cs₂ _).mpr ⟨hsh₂, hd₂⟩, rfl, ?_⟩
  intro indexId
  have hfold₂ := foldlM_derived_foldScope r₁.sharedParameters cs₂ JSObject.empty
    derived₂ hd₂ indexId
  rw [hsame, hfold₁ indexId] at hfold₂
  have heq := Except.ok.inj hfold₂
  have hmem₁ := foldlM_derived_mem_keys r₁.sharedParameters cs₁ JSObject.empty
    r₁.derivedParameters hd₁ indexId
  have hmem₂ := foldlM_derived_mem_keys r₁.sharedParameters cs₂ JSObject.empty
    derived₂ hd₂ indexId
  have hids : indexId ∈ scopeIds cs₂ ↔ indexId ∈ scopeIds cs₁ := by
    rw [mem_scopeIds_iff, mem_scopeIds_iff, hscoped indexId]
  simp only [JSObject.keys, JSObject.empty, List.map_nil, List.not_mem_nil, false_or]
    at hmem₁ hmem₂
  by_cases hid : indexId ∈ scopeIds cs₁
  · obtain ⟨v₁, hv₁⟩ := (JSObject.mem_keys_iff _ _).mp (hmem₁.mpr hid)
    obtain ⟨v₂, hv₂⟩ := (JSObject.mem_keys_iff _ _).mp (hmem₂.mpr (hids.mpr hid))
    simp only [JSObject.get, hv₁, hv₂, orSharedParameters, Base.parameters.injEq] at heq
    simp only [hv₁, hv₂, heq]
  · have hn₁ : r₁.derivedParameters.getOwn indexId = none :=
      (JSObject.getOwn_eq_none_iff _ _).mpr (fun h => hid (hmem₁.mp h))
    have hn₂ : derived₂.getOwn indexId = none :=
      (JSObject.getOwn_eq_none_iff _ _).mpr (fun h => hid (hids.mp (hmem₂.mp h)))
    simp only [hn₁, hn₂]

/-- C16 at a widget that sets the shared query to `iPhone` right under `<InstantSearch>`
and a widget under `<Index indexId="index2">`, in the two orders: the reduction of the
list in which the scoped contribution comes first returns the shared parameters and the
entry of `index2` of the other list. -/
theorem getSearchParameters_of_same_buckets_witness :
    ∃ r₂,
      getSearchParameters highlightTags "index1"
        [scopedContribution "index1" "index2", queryContribution "index1" "iPhone"] = .ok r₂ ∧
      r₂.sharedParameters =
        (newSearchParameters (highlightTags.set "index" "index1")).setQuery "iPhone" ∧
      ∀ indexId, r₂.derivedParameters.getOwn indexId =
        (JSObject.empty.set "index2"
          (((newSearchParameters (highlightTags.set "index" "index1")).setQuery
            "iPhone").setQuery "Apple")).getOwn indexId :=
  getSearchParameters_of_same_buckets highlightTags "index1"
    [queryContribution "index1" "iPhone", scopedContribution "index1" "index2"]
    [scopedContribution "index1" "index2", queryContribution "index1" "iPhone"]
    rfl
    (by
      intro indexId
      have h₁ : scopeOf (queryContribution "index1" "iPhone") = none := rfl
      have h₂ : scopeOf (scopedContribution "index1" "index2") = some "index2" := rfl
      by_cases h : "index2" = indexId <;> simp [List.filter_cons, h₁, h₂, h])
    ⟨(newSearchParameters (highlightTags.set "index" "index1")).setQuery "iPhone",
      JSObject.empty.set "index2"
        (((newSearchParameters (highlightTags.set "index" "index1")).setQuery
          "iPhone").setQuery "Apple")⟩
    rfl

end InstantSearchServer
